import Mathlib

/-!
# The broker-side validation of cross-call parameters

A shallow embedding of `sandbox/src/crosscall_server.cc`: the function
`CrossCallParamsEx::CreateFromBuffer`, which copies an untrusted IPC buffer
into broker memory and checks it, together with the helpers it calls.

Machine words are natural numbers reduced modulo `2 ^ wordBits` wherever the
C++ arithmetic can wrap.  The untrusted buffer is seen through snapshots, one
per instant at which the code touches it, so that a producer that rewrites the
buffer during the call and a buffer that is only partly mapped are both
ordinary inputs of the model.
-/

set_option maxRecDepth 100000

namespace sandbox

/-! ## Declarations taken from the headers -/

/-- Sizes, field positions and enumerators declared by `crosscall_params.h`,
`crosscall_server.h` and `internal_types.h`.  The code of
`crosscall_server.cc` uses them through `sizeof`, member access and the
`ArgType` enumerators; every definition below takes them as a parameter. -/
structure Layout where
  /-- Width in bits of `size_t` and of a pointer. -/
  wordBits : Nat
  /-- The constant `sandbox::kIPCChannelSize`. -/
  kIPCChannelSize : Nat
  /-- The value of `sizeof(CrossCallParams)`. -/
  sizeofCrossCallParams : Nat
  /-- The value of `sizeof(CrossCallParamsEx)`. -/
  sizeofCrossCallParamsEx : Nat
  /-- The value of `sizeof(ParamInfo)`. -/
  sizeofParamInfo : Nat
  /-- Byte position of the parameter count inside `CrossCallParams`. -/
  countOffset : Nat
  /-- Width in bytes of the parameter count. -/
  countBytes : Nat
  /-- Byte position of the field that `ActualCallParams<N, ...>::GetSize()` returns. -/
  sizeSlot : Nat → Nat
  /-- Width in bytes of that field. -/
  sizeSlotBytes : Nat
  /-- Byte position of `param_info_[0]` inside `CrossCallParamsEx`. -/
  paramInfoOffset : Nat
  /-- Byte position of `type_` inside `ParamInfo`. -/
  typeOffset : Nat
  /-- Width in bytes of `type_`. -/
  typeBytes : Nat
  /-- Byte position of `offset_` inside `ParamInfo`. -/
  offsetOffset : Nat
  /-- Width in bytes of `offset_`. -/
  offsetBytes : Nat
  /-- Byte position of `size_` inside `ParamInfo`. -/
  sizeOffset : Nat
  /-- Width in bytes of `size_`. -/
  sizeBytes : Nat
  /-- Enumerator `INVALID_TYPE`. -/
  INVALID_TYPE : Int
  /-- Enumerator `WCHAR_TYPE`. -/
  WCHAR_TYPE : Int
  /-- Enumerator `ULONG_TYPE`. -/
  ULONG_TYPE : Int
  /-- Enumerator `VOIDPTR_TYPE`. -/
  VOIDPTR_TYPE : Int
  /-- Enumerator `INOUTPTR_TYPE`. -/
  INOUTPTR_TYPE : Int
  /-- Enumerator `LAST_TYPE`. -/
  LAST_TYPE : Int

/-- Number of values of a machine word: `2 ^ wordBits`. -/
def Layout.wordMod (L : Layout) : Nat := 2 ^ L.wordBits

/-- The constant `kMaxBufferSize` of the anonymous namespace (line 19). -/
def kMaxBufferSize (L : Layout) : Nat := L.kIPCChannelSize

/-- What any C++ object layout of these types satisfies: a non-empty header
that contains the parameter count, a derived class at least as large as its
base, `offset_` and `size_` no wider than a machine word, and a message of
nine parameters whose fixed part has a size that fits a machine word. -/
def Layout.WF (L : Layout) : Prop :=
  0 < L.countBytes ∧
  L.countOffset + L.countBytes ≤ L.sizeofCrossCallParams ∧
  L.sizeofCrossCallParams ≤ L.sizeofCrossCallParamsEx ∧
  L.sizeofCrossCallParamsEx + 9 * L.sizeofParamInfo < L.wordMod ∧
  8 * L.offsetBytes ≤ L.wordBits ∧
  8 * L.sizeBytes ≤ L.wordBits

instance (L : Layout) : Decidable L.WF := by
  unfold Layout.WF
  infer_instance

/-! ## Memory -/

/-- The untrusted region at one instant: the byte found at each position, or
`none` where touching the position raises an access violation. -/
abbrev Snapshot := Nat → Option Nat

/-- The untrusted buffer over the three instants at which `CreateFromBuffer`
touches it: the read of the parameter count (line 113), the read of the
declared size (line 126) and the `memcpy` (line 139). -/
structure RawBuffer where
  atCount : Snapshot
  atSize : Snapshot
  atCopy : Snapshot

/-- A buffer that nobody rewrites during the call, mapped exactly over the given bytes. -/
def RawBuffer.ofBytes (bs : List Nat) : RawBuffer :=
  ⟨fun i => bs[i]?, fun i => bs[i]?, fun i => bs[i]?⟩

/-- Little-endian value of a run of bytes. -/
def readLE : List Nat → Nat
  | [] => 0
  | b :: bs => b % 256 + 256 * readLE bs

/-- Read `n` bytes from position `off`; `none` when one of them faults. -/
def peek (s : Snapshot) : Nat → Nat → Option (List Nat)
  | _, 0 => some []
  | off, n + 1 =>
    match s off with
    | none => none
    | some b => (peek s (off + 1) n).map (fun bs => b :: bs)

/-- Two's complement reading of an unsigned value of the given width. -/
def toSigned (bits v : Nat) : Int :=
  if 2 * v < 2 ^ bits then (v : Int) else (v : Int) - 2 ^ bits

/-- What the call does to the outside: touches of the untrusted buffer and heap traffic. -/
inductive Event where
  | read (off len : Nat)
  | alloc (addr len : Nat)
  | copy (len : Nat)
  | free (addr : Nat)
deriving DecidableEq, Repr

/-! ## Reads of the untrusted buffer -/

/-- The call `call_params->GetParamsCount()` on the untrusted buffer (line 113), widened to `size_t`. -/
def CrossCallParams.GetParamsCount (L : Layout) (s : Snapshot) : Option Nat :=
  (peek s L.countOffset L.countBytes).map (fun bs => readLE bs % L.wordMod)

/-- The call `ActualCallParams<N, kMaxBufferSize>::GetSize()` on the untrusted
buffer, widened to `size_t`: the value of the size slot of arity `N`. -/
def ActualCallParams.GetSize (L : Layout) (N : Nat) (s : Snapshot) : Option Nat :=
  (peek s (L.sizeSlot N) L.sizeSlotBytes).map (fun bs => readLE bs % L.wordMod)

/-- The function `GetActualBufferSize` (lines 26-64).  `NOTREACHED()` is a
no-op in release builds, so the default arm returns 0; `none` is an access
violation raised by the read. -/
def GetActualBufferSize (L : Layout) (param_count : Nat) (buffer_base : Snapshot) : Option Nat :=
  match param_count with
  | 0 => some 0
  | 1 => ActualCallParams.GetSize L 1 buffer_base
  | 2 => ActualCallParams.GetSize L 2 buffer_base
  | 3 => ActualCallParams.GetSize L 3 buffer_base
  | 4 => ActualCallParams.GetSize L 4 buffer_base
  | 5 => ActualCallParams.GetSize L 5 buffer_base
  | 6 => ActualCallParams.GetSize L 6 buffer_base
  | 7 => ActualCallParams.GetSize L 7 buffer_base
  | 8 => ActualCallParams.GetSize L 8 buffer_base
  | 9 => ActualCallParams.GetSize L 9 buffer_base
  | _ => some 0

/-- The bytes of the untrusted buffer that `GetActualBufferSize` touches: the
size slot of the arity chosen by the switch, and nothing in the `case 0` and
`default` arms. -/
def GetActualBufferSize.touched (L : Layout) (param_count : Nat) : List Event :=
  if 1 ≤ param_count ∧ param_count ≤ 9 then
    [Event.read (L.sizeSlot param_count) L.sizeSlotBytes]
  else []

/-! ## The broker-owned copy -/

/-- The object that `CreateFromBuffer` builds: the address of the block
returned by `new char[declared_size]` and the bytes copied into it. -/
structure CrossCallParamsEx where
  backing_mem : Nat
  bytes : List Nat
deriving DecidableEq, Repr

/-- Little-endian value of the `n` bytes of the copy at position `off`. -/
def CrossCallParamsEx.field (c : CrossCallParamsEx) (off n : Nat) : Nat :=
  readLE ((c.bytes.drop off).take n)

/-- The call `GetParamsCount()` on the copy, widened to `size_t`. -/
def CrossCallParamsEx.GetParamsCount (L : Layout) (c : CrossCallParamsEx) : Nat :=
  c.field L.countOffset L.countBytes % L.wordMod

/-- The member `param_info_[index].offset_` of the copy. -/
def CrossCallParamsEx.offset_ (L : Layout) (c : CrossCallParamsEx) (index : Nat) : Nat :=
  c.field (L.paramInfoOffset + index * L.sizeofParamInfo + L.offsetOffset) L.offsetBytes

/-- The member `param_info_[index].size_` of the copy. -/
def CrossCallParamsEx.size_ (L : Layout) (c : CrossCallParamsEx) (index : Nat) : Nat :=
  c.field (L.paramInfoOffset + index * L.sizeofParamInfo + L.sizeOffset) L.sizeBytes

/-- The member `param_info_[index].type_` of the copy, an `ArgType` (a signed enumeration). -/
def CrossCallParamsEx.type_ (L : Layout) (c : CrossCallParamsEx) (index : Nat) : Int :=
  toSigned (8 * L.typeBytes)
    (c.field (L.paramInfoOffset + index * L.sizeofParamInfo + L.typeOffset) L.typeBytes)

/-- The method `GetRawParameter` (lines 181-192).  The arguments `size` and
`type` are the values the caller's variables hold before the call; the result
is the returned address (0 is `NULL`) with the values they hold after it. -/
def CrossCallParamsEx.GetRawParameter (L : Layout) (c : CrossCallParamsEx) (index : Nat)
    (size : Nat) (type : Int) : Nat × Nat × Int :=
  if index ≥ c.GetParamsCount L then (0, size, type)
  else
    ((c.offset_ L index + c.backing_mem) % L.wordMod, c.size_ L index % L.wordMod,
      c.type_ L index)

/-! ## The validator -/

/-- The expression of lines 115-116,
`sizeof(CrossCallParamsEx) + (param_count * sizeof(ParamInfo))`, in `size_t` arithmetic. -/
def min_declared_size (L : Layout) (param_count : Nat) : Nat :=
  (L.sizeofCrossCallParamsEx + (param_count * L.sizeofParamInfo) % L.wordMod) % L.wordMod

/-- The condition of the `if` at lines 164-170, for parameter `ix`.  The local
`size` starts at 0 and the local `type` is not initialised: `junk` is the value it
happens to hold. -/
def CreateFromBuffer.malformed (L : Layout) (junk : Int) (copied_params : CrossCallParamsEx)
    (first_byte last_byte ix : Nat) : Bool :=
  match copied_params.GetRawParameter L ix 0 junk with
  | (address, size, type) =>
    decide (address = 0 ∨
      L.INVALID_TYPE ≥ type ∨ L.LAST_TYPE ≤ type ∨
      address < copied_params.backing_mem ∨
      address < first_byte ∨
      address > last_byte ∨
      (address + size) % L.wordMod < address ∨
      (address + size) % L.wordMod > last_byte)

/-- The loop of lines 159-175 from index `ix` with `n` iterations left
(`ix + n = param_count`): `false` as soon as one parameter is malformed. -/
def CreateFromBuffer.verify (L : Layout) (junk : Int) (copied_params : CrossCallParamsEx)
    (first_byte last_byte : Nat) : Nat → Nat → Bool
  | _, 0 => true
  | ix, n + 1 =>
    if CreateFromBuffer.malformed L junk copied_params first_byte last_byte ix then false
    else CreateFromBuffer.verify L junk copied_params first_byte last_byte (ix + 1) n

/-- What a call of `CreateFromBuffer` leaves behind: the pointer returned
(`none` is `NULL`), the value of `*output_size`, and the events in order. -/
structure Outcome where
  ret : Option CrossCallParamsEx
  output_size : Nat
  trace : List Event
deriving DecidableEq, Repr

/-- The function `CrossCallParamsEx::CreateFromBuffer` (lines 85-178).
`new_char n` is the address that `new char[n]` returns, `junk` the value of the
uninitialised local `type`, `buffer_base = none` the null pointer, and
`output_size` the value of `*output_size` before the call.  An access
violation inside the `__try` goes to the handler of lines 147-152, which frees
the block when there is one and returns `NULL`. -/
def CreateFromBuffer (L : Layout) (new_char : Nat → Nat) (junk : Int)
    (buffer_base : Option RawBuffer) (buffer_size output_size : Nat) : Outcome :=
  match buffer_base with
  | none => ⟨none, output_size, []⟩
  | some raw =>
    if buffer_size < L.sizeofCrossCallParams then ⟨none, output_size, []⟩
    else if buffer_size > kMaxBufferSize L then ⟨none, output_size, []⟩
    else
      let t1 := [Event.read L.countOffset L.countBytes]
      match CrossCallParams.GetParamsCount L raw.atCount with
      | none => ⟨none, output_size, t1⟩
      | some param_count =>
        let min_declared_size := min_declared_size L param_count
        if buffer_size < min_declared_size ∨ L.sizeofCrossCallParamsEx > min_declared_size then
          ⟨none, output_size, t1⟩
        else
          let t2 := t1 ++ GetActualBufferSize.touched L param_count
          match GetActualBufferSize L param_count raw.atSize with
          | none => ⟨none, output_size, t2⟩
          | some declared_size =>
            if declared_size > buffer_size ∨ declared_size < min_declared_size then
              ⟨none, output_size, t2⟩
            else
              let backing_mem := new_char declared_size
              let t3 := t2 ++ [Event.alloc backing_mem declared_size, Event.copy declared_size]
              match peek raw.atCopy 0 declared_size with
              | none => ⟨none, declared_size, t3 ++ [Event.free backing_mem]⟩
              | some bytes =>
                let copied_params : CrossCallParamsEx := ⟨backing_mem, bytes⟩
                if copied_params.GetParamsCount L ≠ param_count then
                  ⟨none, declared_size, t3 ++ [Event.free backing_mem]⟩
                else
                  let last_byte := (backing_mem + declared_size) % L.wordMod
                  let first_byte := (backing_mem + min_declared_size) % L.wordMod
                  if CreateFromBuffer.verify L junk copied_params first_byte last_byte 0
                      param_count then
                    ⟨some copied_params, declared_size, t3⟩
                  else ⟨none, declared_size, t3 ++ [Event.free backing_mem]⟩

/-- The path of `CreateFromBuffer` that ends at line 177. -/
def AcceptPath (L : Layout) (new_char : Nat → Nat) (junk : Int) (raw : RawBuffer)
    (buffer_size param_count declared_size : Nat) (c : CrossCallParamsEx) : Prop :=
  L.sizeofCrossCallParams ≤ buffer_size ∧ buffer_size ≤ kMaxBufferSize L ∧
  CrossCallParams.GetParamsCount L raw.atCount = some param_count ∧
  min_declared_size L param_count ≤ buffer_size ∧
  L.sizeofCrossCallParamsEx ≤ min_declared_size L param_count ∧
  GetActualBufferSize L param_count raw.atSize = some declared_size ∧
  declared_size ≤ buffer_size ∧ min_declared_size L param_count ≤ declared_size ∧
  peek raw.atCopy 0 declared_size = some c.bytes ∧
  c.backing_mem = new_char declared_size ∧
  c.GetParamsCount L = param_count ∧
  CreateFromBuffer.verify L junk c
    ((new_char declared_size + min_declared_size L param_count) % L.wordMod)
    ((new_char declared_size + declared_size) % L.wordMod) 0 param_count = true

/-- The contract of `new char[n]` for the sizes the channel allows: the block
is not at address 0 and the address one past its end is a machine word. -/
def AllocOk (L : Layout) (new_char : Nat → Nat) : Prop :=
  ∀ n, n ≤ kMaxBufferSize L → 0 < new_char n ∧ new_char n + n < L.wordMod

/-! ## The typed accessors -/

/-- Modelled from the spec: the value of `sizeof(wchar_t)`, which no source file
states.  The spec asks for a size that is "a multiple of 2 (UTF-16 code unit
width)". -/
def sizeof_wchar_t : Nat := 2

/-- The value of `sizeof(void*)`: the bytes of a machine word. -/
def Layout.sizeofVoidPtr (L : Layout) : Nat := L.wordBits / 8

/-- The four enumerators that the accessors test lie strictly between
`INVALID_TYPE` and `LAST_TYPE`. -/
def Layout.TypesOk (L : Layout) : Prop :=
  (L.INVALID_TYPE < L.WCHAR_TYPE ∧ L.WCHAR_TYPE < L.LAST_TYPE) ∧
  (L.INVALID_TYPE < L.ULONG_TYPE ∧ L.ULONG_TYPE < L.LAST_TYPE) ∧
  (L.INVALID_TYPE < L.VOIDPTR_TYPE ∧ L.VOIDPTR_TYPE < L.LAST_TYPE) ∧
  (L.INVALID_TYPE < L.INOUTPTR_TYPE ∧ L.INOUTPTR_TYPE < L.LAST_TYPE)

instance (L : Layout) : Decidable L.TypesOk := by
  unfold Layout.TypesOk
  infer_instance

/-- The `n` bytes stored at the addresses `addr, ..., addr + n - 1`, when all
of them belong to the block of the copy; `none` when the range leaves the
block, which is a read the object does not determine. -/
def CrossCallParamsEx.load (c : CrossCallParamsEx) (addr n : Nat) : Option (List Nat) :=
  if c.backing_mem ≤ addr ∧ addr + n ≤ c.backing_mem + c.bytes.length then
    some ((c.bytes.drop (addr - c.backing_mem)).take n)
  else none

/-- The `wchar_t` values held by a run of bytes, two bytes each, low byte first. -/
def wchars : List Nat → List Nat
  | b0 :: b1 :: rest => (b0 % 256 + 256 * (b1 % 256)) :: wchars rest
  | _ => []

/-- The method `GetParameter32` (lines 195-205).  `param` is the value of
`*param` before the call, `junk` the value of the uninitialised local `type`;
the result is the returned `bool` with `*param` after the call, or `none`
when the four bytes read are not all inside the copy. -/
def CrossCallParamsEx.GetParameter32 (L : Layout) (c : CrossCallParamsEx) (junk : Int)
    (index param : Nat) : Option (Bool × Nat) :=
  match c.GetRawParameter L index 0 junk with
  | (start, size, type) =>
    if start = 0 ∨ 4 ≠ size ∨ L.ULONG_TYPE ≠ type then some (false, param)
    else (c.load start 4).map (fun bs => (true, readLE bs))

/-- The method `GetParameterVoidPtr` (lines 207-216), read as `GetParameter32`. -/
def CrossCallParamsEx.GetParameterVoidPtr (L : Layout) (c : CrossCallParamsEx) (junk : Int)
    (index param : Nat) : Option (Bool × Nat) :=
  match c.GetRawParameter L index 0 junk with
  | (start, size, type) =>
    if start = 0 ∨ L.sizeofVoidPtr ≠ size ∨ L.VOIDPTR_TYPE ≠ type then some (false, param)
    else (c.load start L.sizeofVoidPtr).map (fun bs => (true, readLE bs))

/-- The method `GetParameterStr` (lines 220-239).  `string` is the content of
`*string` before the call, a list of `wchar_t` values; the result is the
returned `bool` with the content after the call.  The `append` of line 237
reads `size / sizeof(wchar_t)` values from `start`. -/
def CrossCallParamsEx.GetParameterStr (L : Layout) (c : CrossCallParamsEx) (junk : Int)
    (index : Nat) (string : List Nat) : Option (Bool × List Nat) :=
  match c.GetRawParameter L index 0 junk with
  | (start, size, type) =>
    if L.WCHAR_TYPE ≠ type then some (false, string)
    else if size = 0 then some (true, [])
    else if start = 0 ∨ size % sizeof_wchar_t ≠ 0 then some (false, string)
    else
      (c.load start (size / sizeof_wchar_t * sizeof_wchar_t)).map
        (fun bs => (true, string ++ wchars bs))

/-- The method `GetParameterPtr` (lines 241-257).  `pointer` is the value of
`*pointer` before the call; nothing is read through `start`. -/
def CrossCallParamsEx.GetParameterPtr (L : Layout) (c : CrossCallParamsEx) (junk : Int)
    (index expected_size pointer : Nat) : Bool × Nat :=
  match c.GetRawParameter L index 0 junk with
  | (start, size, type) =>
    if size ≠ expected_size ∨ L.INOUTPTR_TYPE ≠ type then (false, pointer)
    else if start = 0 then (false, pointer)
    else (true, start)

/-- A call object is validated when some call of `CreateFromBuffer` returned it. -/
def Validated (L : Layout) (new_char : Nat → Nat) (c : CrossCallParamsEx) : Prop :=
  ∃ (junk : Int) (buffer_base : Option RawBuffer) (buffer_size output_size : Nat),
    (CreateFromBuffer L new_char junk buffer_base buffer_size output_size).ret = some c

/-- What validation leaves true of a copy: a block that is not at address 0
and ends below the top of the address space, a count between 1 and 9, and
entries of known type lying between the end of the fixed part and the end of
the copy. -/
def Bounded (L : Layout) (c : CrossCallParamsEx) : Prop :=
  0 < c.backing_mem ∧ c.backing_mem + c.bytes.length < L.wordMod ∧
  1 ≤ c.GetParamsCount L ∧ c.GetParamsCount L ≤ 9 ∧
  ∀ i, i < c.GetParamsCount L →
    L.INVALID_TYPE < c.type_ L i ∧ c.type_ L i < L.LAST_TYPE ∧
    L.sizeofCrossCallParamsEx + c.GetParamsCount L * L.sizeofParamInfo ≤ c.offset_ L i ∧
    c.offset_ L i + c.size_ L i ≤ c.bytes.length

/-! ## Typed values and their layout -/

/-- The `n` bytes of a value, least significant first. -/
def toLE : Nat → Nat → List Nat
  | 0, _ => []
  | n + 1, v => v % 256 :: toLE n (v / 256)

/-- The bytes of a run of `wchar_t` values. -/
def wcharBytes : List Nat → List Nat
  | [] => []
  | u :: rest => toLE 2 u ++ wcharBytes rest

/-- A value that a caller passes: a 32-bit integer, a wide string given by its
code units, or a pointer-sized word. -/
inductive Value where
  | ulong (v : Nat)
  | wchar (s : List Nat)
  | voidptr (p : Nat)
deriving DecidableEq, Repr

/-- Entry `i` of the object carries the value: its type and size are those of
the value and the bytes at its offset are the bytes of the value. -/
def Carries (L : Layout) (c : CrossCallParamsEx) (i : Nat) : Value → Prop
  | Value.ulong v =>
    c.type_ L i = L.ULONG_TYPE ∧ c.size_ L i = 4 ∧ v < 2 ^ 32 ∧
      (c.bytes.drop (c.offset_ L i)).take 4 = toLE 4 v
  | Value.wchar s =>
    c.type_ L i = L.WCHAR_TYPE ∧ c.size_ L i = 2 * s.length ∧ (∀ u, u ∈ s → u < 2 ^ 16) ∧
      (c.bytes.drop (c.offset_ L i)).take (2 * s.length) = wcharBytes s
  | Value.voidptr p =>
    c.type_ L i = L.VOIDPTR_TYPE ∧ c.size_ L i = L.sizeofVoidPtr ∧
      p < 256 ^ L.sizeofVoidPtr ∧
      (c.bytes.drop (c.offset_ L i)).take L.sizeofVoidPtr = toLE L.sizeofVoidPtr p

/-- The accessor of the value's type, called on entry `i` with an empty
string or with `out` in the output variable, succeeds and returns the value. -/
def ReadsBack (L : Layout) (c : CrossCallParamsEx) (junk : Int) (out i : Nat) : Value → Prop
  | Value.ulong v => c.GetParameter32 L junk i out = some (true, v)
  | Value.wchar s => c.GetParameterStr L junk i [] = some (true, s)
  | Value.voidptr p => c.GetParameterVoidPtr L junk i out = some (true, p)

/-! ## The heap, the size reader, the outcome writer and the dispatcher -/

/-- The blocks that are allocated and not freed, after one more event. -/
def Event.step (heap : List Nat) : Event → List Nat
  | Event.alloc addr _ => addr :: heap
  | Event.free addr => heap.erase addr
  | Event.read _ _ => heap
  | Event.copy _ => heap

/-- The blocks that a run of events leaves allocated. -/
def liveBlocks (trace : List Event) : List Nat :=
  trace.foldl Event.step []

/-- The single layout reader that the spec's design notes describe: one
formula with the count as a parameter at run time, which gives zero for a
count of zero or above nine and otherwise the size slot of that count. -/
def readDeclaredSize (L : Layout) (count : Nat) (buffer_base : Snapshot) : Option Nat :=
  if count = 0 ∨ 9 < count then some 0
  else (peek buffer_base (L.sizeSlot count) L.sizeSlotBytes).map (fun bs => readLE bs % L.wordMod)

/-- Modelled from the spec: the structure `CrossCallReturn`, declared in
`crosscall_params.h`, which is not among the sources.  The spec gives it
`call_outcome`, a result code, and `extended_count`, an unsigned count;
`other` stands for all the members that the two writers never name. -/
structure CrossCallReturn (ρ : Type) where
  call_outcome : Int
  extended_count : Nat
  other : ρ

/-- The function `SetCallError` (lines 259-262). -/
def SetCallError {ρ : Type} (error : Int) (call_return : CrossCallReturn ρ) :
    CrossCallReturn ρ :=
  let r1 := { call_return with call_outcome := error }
  { r1 with extended_count := 0 }

/-- The function `SetCallSuccess` (lines 264-266).  `SBOX_ALL_OK` is the
enumerator of `ResultCode`, declared outside the sources. -/
def SetCallSuccess {ρ : Type} (SBOX_ALL_OK : Int) (call_return : CrossCallReturn ρ) :
    CrossCallReturn ρ :=
  { call_return with call_outcome := SBOX_ALL_OK }

/-- An element of `ipc_calls_`: the signature registered and its callback. -/
structure IPCCall (σ κ : Type) where
  params : σ
  callback : κ
deriving DecidableEq, Repr

/-- The class `Dispatcher`, as far as `OnMessageReady` uses it: the vector `ipc_calls_`. -/
structure Dispatcher (σ κ : Type) where
  ipc_calls_ : List (IPCCall σ κ)
deriving DecidableEq, Repr

/-- The loop of lines 272-277 from the iterator position given by the rest of
the vector: whether an entry matched, and the value of `*callback` afterwards.
`Matches a b` is `a.Matches(b)`, a member of `IPCParams` declared outside the
sources. -/
def Dispatcher.OnMessageReady.scan {σ κ : Type} (Matches : σ → σ → Bool) (ipc : σ)
    (callback : κ) : List (IPCCall σ κ) → Bool × κ
  | [] => (false, callback)
  | it :: rest =>
    if Matches it.params ipc then (true, it.callback)
    else Dispatcher.OnMessageReady.scan Matches ipc callback rest

/-- The method `Dispatcher::OnMessageReady` (lines 268-279): the pointer
returned, `this` or `NULL`, and the value of `*callback` after the call. -/
def Dispatcher.OnMessageReady {σ κ : Type} (Matches : σ → σ → Bool) (this : Dispatcher σ κ)
    (ipc : σ) (callback : κ) : Option (Dispatcher σ κ) × κ :=
  match Dispatcher.OnMessageReady.scan Matches ipc callback this.ipc_calls_ with
  | (true, found) => (some this, found)
  | (false, kept) => (none, kept)

/-! ## Further layout facts and unmutated buffers -/

/-- The four enumerators that the accessors test are pairwise different. -/
def Layout.TypesDistinct (L : Layout) : Prop :=
  L.ULONG_TYPE ≠ L.VOIDPTR_TYPE ∧ L.ULONG_TYPE ≠ L.WCHAR_TYPE ∧
  L.ULONG_TYPE ≠ L.INOUTPTR_TYPE ∧ L.VOIDPTR_TYPE ≠ L.WCHAR_TYPE ∧
  L.VOIDPTR_TYPE ≠ L.INOUTPTR_TYPE ∧ L.WCHAR_TYPE ≠ L.INOUTPTR_TYPE

instance (L : Layout) : Decidable L.TypesDistinct := by
  unfold Layout.TypesDistinct
  infer_instance

/-- The field that `GetSize()` returns for an arity from 1 to 9 lies in the
fixed part of a message of that arity, before the first payload byte. -/
def Layout.SlotInside (L : Layout) : Prop :=
  ∀ n, n < 10 → 1 ≤ n →
    L.sizeSlot n + L.sizeSlotBytes ≤ L.sizeofCrossCallParamsEx + n * L.sizeofParamInfo

instance (L : Layout) : Decidable L.SlotInside := by
  unfold Layout.SlotInside
  infer_instance

/-- A buffer that nobody rewrites during the call: the same snapshot at the three instants. -/
def RawBuffer.still (s : Snapshot) : RawBuffer := ⟨s, s, s⟩

/-- The declared size that lines 113 and 126 read from a buffer that nobody
rewrites: the value of `GetActualBufferSize` for the count found in the
buffer, and 0 when one of the two reads faults. -/
def declaredSize (L : Layout) (s : Snapshot) : Nat :=
  match CrossCallParams.GetParamsCount L s with
  | none => 0
  | some param_count => (GetActualBufferSize L param_count s).getD 0

/-! ## Accessor calls on the object in memory -/

/-- The bytes of the block that starts at address `base`, after the bytes
`data` are stored at the addresses `addr`, `addr + 1`, ...: a byte stored at
an address of the block replaces the byte there, a byte stored elsewhere
leaves the block alone. -/
def pokeBytes (base : Nat) : List Nat → Nat → List Nat → List Nat
  | bytes, _, [] => bytes
  | bytes, addr, b :: rest =>
    pokeBytes base
      (if base ≤ addr ∧ addr < base + bytes.length then bytes.set (addr - base) b else bytes)
      (addr + 1) rest

/-- The object after a store of `data` through a pointer of value `addr`. -/
def CrossCallParamsEx.store (c : CrossCallParamsEx) (addr : Nat) (data : List Nat) :
    CrossCallParamsEx :=
  ⟨c.backing_mem, pokeBytes c.backing_mem c.bytes addr data⟩

/-- The object after single bytes are stored, each at its address, in order. -/
def CrossCallParamsEx.storeAll : CrossCallParamsEx → List (Nat × Nat) → CrossCallParamsEx
  | c, [] => c
  | c, w :: rest => CrossCallParamsEx.storeAll (c.store w.1 [w.2]) rest

/-- The method `GetRawParameter` (lines 181-192) with the object in memory,
`size` and `type` being the values of the two pointers passed.  The result is
the address returned, the values stored through the two pointers when the
index is in range, and the object after the call.  Line 188 stores a `size_t`
through `size`, line 189 then reads `type_` and stores it through `type`, and
line 191 then reads `offset_`. -/
def CrossCallParamsEx.GetRawParameterAt (L : Layout) (c : CrossCallParamsEx)
    (index size type : Nat) : (Nat × Option (Nat × Int)) × CrossCallParamsEx :=
  if index ≥ c.GetParamsCount L then ((0, none), c)
  else
    let c1 := c.store size (toLE L.sizeofVoidPtr (c.size_ L index % L.wordMod))
    let c2 := c1.store type
      (toLE L.typeBytes
        (c1.field (L.paramInfoOffset + index * L.sizeofParamInfo + L.typeOffset) L.typeBytes))
    (((c2.offset_ L index + c2.backing_mem) % L.wordMod,
      some (c.size_ L index % L.wordMod, c1.type_ L index)), c2)

/-- One call of an accessor as a caller writes it, the output arguments being
pointers.  For `GetParameterStr` the output is a `std::wstring`; `storage`
lists the bytes that the library writes into the storage of that string, with
their addresses, when the call modifies the string. -/
inductive AccessorCall where
  | GetRawParameter (index size type : Nat)
  | GetParameter32 (junk : Int) (index param : Nat)
  | GetParameterVoidPtr (junk : Int) (index param : Nat)
  | GetParameterStr (junk : Int) (index : Nat) (storage : List (Nat × Nat))
  | GetParameterPtr (junk : Int) (index expected_size pointer : Nat)
deriving DecidableEq, Repr

/-- The object after one accessor call; `none` when the call reads outside the
copy.  `GetRawParameter` stores through the pointers passed.  The four typed
accessors pass the addresses of their own locals to `GetRawParameter`, which
are not in the block, and on success store the value found through the output
pointer (lines 203, 214, 255) or modify the string (lines 230, 237); on
failure they store nothing. -/
def AccessorCall.run (L : Layout) (c : CrossCallParamsEx) : AccessorCall → Option CrossCallParamsEx
  | AccessorCall.GetRawParameter index size type => some (c.GetRawParameterAt L index size type).2
  | AccessorCall.GetParameter32 junk index param =>
    match c.GetParameter32 L junk index 0 with
    | none => none
    | some (false, _) => some c
    | some (true, v) => some (c.store param (toLE 4 v))
  | AccessorCall.GetParameterVoidPtr junk index param =>
    match c.GetParameterVoidPtr L junk index 0 with
    | none => none
    | some (false, _) => some c
    | some (true, v) => some (c.store param (toLE L.sizeofVoidPtr v))
  | AccessorCall.GetParameterStr junk index storage =>
    match c.GetParameterStr L junk index [] with
    | none => none
    | some (false, _) => some c
    | some (true, _) => some (c.storeAll storage)
  | AccessorCall.GetParameterPtr junk index expected_size pointer =>
    match c.GetParameterPtr L junk index expected_size 0 with
    | (false, _) => some c
    | (true, start) => some (c.store pointer (toLE L.sizeofVoidPtr start))

/-- The object after a sequence of accessor calls made one after the other. -/
def runCalls (L : Layout) : CrossCallParamsEx → List AccessorCall → Option CrossCallParamsEx
  | c, [] => some c
  | c, call :: rest =>
    match call.run L c with
    | none => none
    | some c1 => runCalls L c1 rest

/-- The range of `len` bytes at address `addr` has no byte in the block of the copy. -/
def CrossCallParamsEx.Outside (c : CrossCallParamsEx) (addr len : Nat) : Prop :=
  addr + len ≤ c.backing_mem ∨ c.backing_mem + c.bytes.length ≤ addr

instance (c : CrossCallParamsEx) (addr len : Nat) : Decidable (c.Outside addr len) := by
  unfold CrossCallParamsEx.Outside
  infer_instance

/-- The output variables of a call are variables of the caller: none of their
bytes is a byte of the copy. -/
def AccessorCall.Apart (L : Layout) (c : CrossCallParamsEx) : AccessorCall → Prop
  | AccessorCall.GetRawParameter _ size type =>
    c.Outside size L.sizeofVoidPtr ∧ c.Outside type L.typeBytes
  | AccessorCall.GetParameter32 _ _ param => c.Outside param 4
  | AccessorCall.GetParameterVoidPtr _ _ param => c.Outside param L.sizeofVoidPtr
  | AccessorCall.GetParameterStr _ _ storage => ∀ w, w ∈ storage → c.Outside w.1 1
  | AccessorCall.GetParameterPtr _ _ _ pointer => c.Outside pointer L.sizeofVoidPtr

/-! ## A concrete layout and concrete buffers -/

/-- The layout of a 32-bit build: a 64-byte `CrossCallParams` whose last word
is the parameter count, 12-byte `ParamInfo` entries `{type_, offset_, size_}`
following it, `GetSize()` reading `param_info_[N].offset_`, a 1024-byte channel. -/
def layout32 : Layout where
  wordBits := 32
  kIPCChannelSize := 1024
  sizeofCrossCallParams := 64
  sizeofCrossCallParamsEx := 76
  sizeofParamInfo := 12
  countOffset := 60
  countBytes := 4
  sizeSlot := fun N => 64 + 12 * N + 4
  sizeSlotBytes := 4
  paramInfoOffset := 64
  typeOffset := 0
  typeBytes := 4
  offsetOffset := 4
  offsetBytes := 4
  sizeOffset := 8
  sizeBytes := 4
  INVALID_TYPE := 0
  WCHAR_TYPE := 1
  ULONG_TYPE := 2
  VOIDPTR_TYPE := 4
  INOUTPTR_TYPE := 6
  LAST_TYPE := 7

/-- The four bytes of a 32-bit value, least significant first. -/
def le32 (v : Nat) : List Nat :=
  [v % 256, v / 256 % 256, v / 65536 % 256, v / 16777216 % 256]

/-- One `ParamInfo` entry of `layout32`. -/
def entry32 (type offset size : Nat) : List Nat :=
  le32 type ++ le32 offset ++ le32 size

/-- A message of `layout32`: the header with the given count, the given
entries, the slot holding the declared size, then the payload. -/
def message32 (count : Nat) (entries : List (Nat × Nat × Nat)) (declared : Nat)
    (payload : List Nat) : List Nat :=
  List.replicate 60 0 ++ le32 count ++
    (entries.map (fun e => entry32 e.1 e.2.1 e.2.2)).flatten ++
    entry32 0 declared 0 ++ payload

/-- An allocator that always answers the same address. -/
def heapAt (addr : Nat) : Nat → Nat := fun _ => addr

/-- One `ULONG` parameter holding 42: 92 bytes. -/
def msgOne : List Nat := message32 1 [(2, 88, 4)] 92 (le32 42)

/-- Two `ULONG` parameters sharing the four payload bytes: 104 bytes. -/
def msgTwo : List Nat := message32 2 [(2, 100, 4), (2, 100, 4)] 104 (le32 7)

/-- Nine empty `WCHAR` parameters placed at the end of the message: 184 bytes. -/
def msgNine : List Nat := message32 9 (List.replicate 9 (1, 184, 0)) 184 []

/-- Three parameters, the middle one with `offset_ = 2^32 - 2` and `size_ = 10`. -/
def msgWrap : List Nat :=
  message32 3 [(2, 112, 4), (2, 4294967294, 10), (2, 112, 4)] 116 (le32 42)

/-- A header announcing no parameter. -/
def msgZero : List Nat := message32 0 [] 76 []

/-- A header announcing ten parameters. -/
def msgTen : List Nat := message32 10 (List.replicate 10 (2, 208, 0)) 208 []

/-- A header announcing `2^30 + 1` parameters: `param_count * sizeof(ParamInfo)`
wraps to 12. -/
def msgHuge : List Nat := message32 1073741825 [(2, 88, 0)] 88 []

/-- A header announcing `2^30 - 1` parameters: the minimum size wraps to 64,
below the 76 bytes of `CrossCallParamsEx`. -/
def msgWrapCount : List Nat := message32 1073741823 [] 76 []

/-- One parameter, with a declared size of 200 in a message of 92 bytes. -/
def msgOverclaim : List Nat := message32 1 [(2, 88, 4)] 200 (le32 42)

/-- One parameter, with a declared size of 80, below the 88 bytes of the fixed part. -/
def msgUnderclaim : List Nat := message32 1 [(2, 88, 4)] 80 (le32 42)

/-- The values 42, "hi" and `0xdeadbeef` as a `ULONG`, a `WCHAR` and a
`VOIDPTR` parameter: 124 bytes. -/
def msgThree : List Nat :=
  message32 3 [(2, 112, 4), (1, 116, 4), (4, 120, 4)] 124
    (le32 42 ++ [104, 0, 105, 0] ++ le32 3735928559)

/-- The values of `msgThree`. -/
def valuesThree : List Value :=
  [Value.ulong 42, Value.wchar [104, 105], Value.voidptr 3735928559]

/-- A `WCHAR` parameter of 3 bytes, an `INOUTPTR` parameter of 8 bytes and a
`WCHAR` parameter holding the code units 97, 0, 98: 132 bytes. -/
def msgMixed : List Nat :=
  message32 3 [(1, 112, 3), (6, 116, 8), (1, 124, 6)] 132
    ([1, 2, 3, 0] ++ [1, 2, 3, 4, 5, 6, 7, 8] ++ [97, 0, 0, 0, 98, 0] ++ [0, 0])

/-- A table of two entries: tag 7 with handler 100, tag 9 with handler 200. -/
def tableTwo : Dispatcher Nat Nat := ⟨[⟨7, 100⟩, ⟨9, 200⟩]⟩

/-- A table in which two entries have the tag 9. -/
def tableTwice : Dispatcher Nat Nat := ⟨[⟨7, 100⟩, ⟨9, 200⟩, ⟨9, 300⟩]⟩

/-- Signatures that are tags match when the tags are equal. -/
def sameTag (a b : Nat) : Bool := a == b

/-- A return structure with one more member, a handle. -/
def returnSample : CrossCallReturn Nat := ⟨5, 3, 77⟩

/-- A region of 62 mapped bytes: the parameter count, at bytes 60 to 63, is
only half mapped. -/
def rawTruncatedHeader : RawBuffer := RawBuffer.ofBytes (List.replicate 62 0)

/-- Two `ULONG` parameters, the second placed before the first: 108 bytes. -/
def msgDecreasing : List Nat :=
  message32 2 [(2, 104, 4), (2, 100, 4)] 108 (le32 7 ++ le32 8)

/-- Two `WCHAR` parameters of 4 bytes whose ranges share two bytes: 108 bytes. -/
def msgOverlap : List Nat :=
  message32 2 [(1, 100, 4), (1, 102, 4)] 108 ([97, 0, 98, 0, 99, 0] ++ [0, 0])

/-- One parameter whose last byte would be one past the declared size. -/
def msgPastEnd : List Nat := message32 1 [(2, 88, 5)] 92 (le32 42)

/-- Accessor calls whose output variables are at addresses 100 to 500, below
the block of a copy at address 4096: a `ULONG` read, a string read that writes
three bytes of string storage, a pointer request and a raw read. -/
def callsBetween : List AccessorCall :=
  [AccessorCall.GetParameter32 0 0 100,
    AccessorCall.GetParameterStr 0 1 [(200, 104), (201, 0), (202, 105)],
    AccessorCall.GetParameterVoidPtr 0 2 300,
    AccessorCall.GetParameterPtr 0 1 4 400,
    AccessorCall.GetRawParameter 1 500 508]

/-! ## Lemmas on memory reads -/

theorem readLE_lt (bs : List Nat) : readLE bs < 256 ^ bs.length := by
  induction bs with
  | nil => simp [readLE]
  | cons b bs ih =>
    have hb : b % 256 < 256 := Nat.mod_lt _ (by decide)
    simp only [readLE, List.length_cons, pow_succ]
    omega

theorem field_lt (c : CrossCallParamsEx) (off n w : Nat) (h : 8 * n ≤ w) :
    c.field off n < 2 ^ w := by
  have h1 := readLE_lt ((c.bytes.drop off).take n)
  have h2 : ((c.bytes.drop off).take n).length ≤ n := by
    rw [List.length_take]
    exact Nat.min_le_left _ _
  have h3 : 256 ^ ((c.bytes.drop off).take n).length ≤ 256 ^ n :=
    Nat.pow_le_pow_right (by decide) h2
  have h4 : (256 : Nat) ^ n = 2 ^ (8 * n) := by
    rw [pow_mul]
    rfl
  have h5 : 2 ^ (8 * n) ≤ 2 ^ w := Nat.pow_le_pow_right (by decide) h
  unfold CrossCallParamsEx.field
  omega

theorem peek_length (s : Snapshot) :
    ∀ (n off : Nat) (bs : List Nat), peek s off n = some bs → bs.length = n := by
  intro n
  induction n with
  | zero =>
    intro off bs h
    simp only [peek, Option.some.injEq] at h
    subst h
    rfl
  | succ n ih =>
    intro off bs h
    simp only [peek] at h
    cases hs : s off with
    | none => simp [hs] at h
    | some b =>
      simp only [hs, Option.map_eq_some'] at h
      obtain ⟨tl, htl, rfl⟩ := h
      simp [ih _ _ htl]

theorem peek_get (s : Snapshot) :
    ∀ (n off : Nat) (bs : List Nat), peek s off n = some bs →
      ∀ i, i < n → bs[i]? = s (off + i) := by
  intro n
  induction n with
  | zero =>
    intro off bs _ i hi
    omega
  | succ n ih =>
    intro off bs h i hi
    simp only [peek] at h
    cases hs : s off with
    | none => simp [hs] at h
    | some b =>
      simp only [hs, Option.map_eq_some'] at h
      obtain ⟨tl, htl, rfl⟩ := h
      cases i with
      | zero => simp [hs]
      | succ j =>
        have := ih (off + 1) tl htl j (by omega)
        simp only [List.getElem?_cons_succ, this]
        congr 1
        omega

theorem peek_slice (s : Snapshot) :
    ∀ (n off : Nat) (bs : List Nat), peek s off n = some bs →
      ∀ k m, k + m ≤ n → peek s (off + k) m = some ((bs.drop k).take m) := by
  intro n off bs h k m
  induction m generalizing k with
  | zero =>
    intro _
    simp [peek]
  | succ m ih =>
    intro hk
    have hlen := peek_length s n off bs h
    have hget := peek_get s n off bs h k (by omega)
    have hlt : k < bs.length := by omega
    rw [List.getElem?_eq_getElem hlt] at hget
    have hrec := ih (k + 1) (by omega)
    have hoff : off + k + 1 = off + (k + 1) := by omega
    simp only [peek, ← hget, hoff, hrec, Option.map_some']
    congr 1
    rw [List.drop_eq_getElem_cons hlt, List.take_succ_cons]

/-! ## Lemmas on the validator -/

theorem GetActualBufferSize_out_of_range (L : Layout) (param_count : Nat) (s : Snapshot)
    (h : param_count = 0 ∨ 9 < param_count) : GetActualBufferSize L param_count s = some 0 := by
  match param_count, h with
  | 0, _ => rfl
  | n + 10, _ => rfl
  | 1, h | 2, h | 3, h | 4, h | 5, h | 6, h | 7, h | 8, h | 9, h => omega

theorem GetActualBufferSize_in_range (L : Layout) (param_count : Nat) (s : Snapshot)
    (h1 : 1 ≤ param_count) (h9 : param_count ≤ 9) :
    GetActualBufferSize L param_count s = ActualCallParams.GetSize L param_count s := by
  interval_cases param_count <;> rfl

theorem mod_cases (x M : Nat) (h : x < 2 * M) :
    (x < M ∧ x % M = x) ∨ (M ≤ x ∧ x % M = x - M) := by
  rcases Nat.lt_or_ge x M with hx | hx
  · exact Or.inl ⟨hx, Nat.mod_eq_of_lt hx⟩
  · refine Or.inr ⟨hx, ?_⟩
    rw [Nat.mod_eq_sub_mod hx, Nat.mod_eq_of_lt (by omega)]

theorem min_declared_size_small (L : Layout) (hL : L.WF) (param_count : Nat)
    (h9 : param_count ≤ 9) :
    min_declared_size L param_count =
      L.sizeofCrossCallParamsEx + param_count * L.sizeofParamInfo := by
  obtain ⟨_, _, _, h4, _, _⟩ := hL
  have hle : param_count * L.sizeofParamInfo ≤ 9 * L.sizeofParamInfo :=
    Nat.mul_le_mul_right _ h9
  unfold min_declared_size
  rw [Nat.mod_eq_of_lt (a := param_count * L.sizeofParamInfo) (by omega),
    Nat.mod_eq_of_lt (by omega)]

theorem malformed_eq_false_iff (L : Layout) (hL : L.WF) (junk : Int) (c : CrossCallParamsEx)
    (m d ix : Nat) (hb : 0 < c.backing_mem) (hbd : c.backing_mem + d < L.wordMod)
    (hmd : m ≤ d) (hix : ix < c.GetParamsCount L) :
    CreateFromBuffer.malformed L junk c ((c.backing_mem + m) % L.wordMod)
        ((c.backing_mem + d) % L.wordMod) ix = false ↔
      (L.INVALID_TYPE < c.type_ L ix ∧ c.type_ L ix < L.LAST_TYPE ∧
        m ≤ c.offset_ L ix ∧ c.offset_ L ix + c.size_ L ix ≤ d) := by
  obtain ⟨_, _, _, _, h5, h6⟩ := hL
  have ho : c.offset_ L ix < L.wordMod := field_lt c _ _ _ h5
  have hs : c.size_ L ix < L.wordMod := field_lt c _ _ _ h6
  have hnot : ¬ ix ≥ c.GetParamsCount L := by omega
  simp only [CreateFromBuffer.malformed, CrossCallParamsEx.GetRawParameter, hnot, if_false,
    decide_eq_false_iff_not, not_or, not_lt, not_le, ge_iff_le, gt_iff_lt]
  rw [Nat.mod_eq_of_lt (a := c.backing_mem + m) (by omega),
    Nat.mod_eq_of_lt (a := c.backing_mem + d) (by omega),
    Nat.mod_eq_of_lt (a := c.size_ L ix) hs]
  generalize c.offset_ L ix = o at *
  generalize c.size_ L ix = sz at *
  generalize c.type_ L ix = t at *
  generalize c.backing_mem = b at *
  generalize L.wordMod = M at *
  rcases mod_cases (o + b) M (by omega) with ⟨h1, h2⟩ | ⟨h1, h2⟩
  · rw [h2]
    rcases mod_cases (o + b + sz) M (by omega) with ⟨h3, h4⟩ | ⟨h3, h4⟩
    · rw [h4]
      constructor
      · rintro ⟨_, _, _, _, _, _, _, _⟩
        refine ⟨by omega, by omega, by omega, by omega⟩
      · rintro ⟨_, _, _, _⟩
        refine ⟨by omega, by omega, by omega, by omega, by omega, by omega, by omega, by omega⟩
    · rw [h4]
      constructor
      · rintro ⟨_, _, _, _, _, _, _, _⟩
        omega
      · rintro ⟨_, _, _, _⟩
        omega
  · rw [h2]
    constructor
    · rintro ⟨_, _, _, _, _, _, _, _⟩
      omega
    · rintro ⟨_, _, _, _⟩
      omega

theorem verify_eq_true_iff (L : Layout) (junk : Int) (c : CrossCallParamsEx)
    (first_byte last_byte : Nat) :
    ∀ (n ix : Nat), CreateFromBuffer.verify L junk c first_byte last_byte ix n = true ↔
      ∀ j, ix ≤ j → j < ix + n →
        CreateFromBuffer.malformed L junk c first_byte last_byte j = false := by
  intro n
  induction n with
  | zero =>
    intro ix
    simp only [CreateFromBuffer.verify, true_iff]
    intro j h1 h2
    omega
  | succ n ih =>
    intro ix
    simp only [CreateFromBuffer.verify]
    cases hm : CreateFromBuffer.malformed L junk c first_byte last_byte ix with
    | true =>
      simp only [if_true, Bool.false_eq_true, false_iff, not_forall]
      exact ⟨ix, le_refl _, by omega, by simp [hm]⟩
    | false =>
      simp only [Bool.false_eq_true, if_false, ih]
      constructor
      · intro h j h1 h2
        rcases Nat.eq_or_lt_of_le h1 with rfl | hlt
        · exact hm
        · exact h j hlt (by omega)
      · intro h j h1 h2
        exact h j (by omega) (by omega)

theorem CreateFromBuffer_of_acceptPath (L : Layout) (new_char : Nat → Nat) (junk : Int)
    (raw : RawBuffer) (buffer_size output_size param_count declared_size : Nat)
    (c : CrossCallParamsEx)
    (h : AcceptPath L new_char junk raw buffer_size param_count declared_size c) :
    CreateFromBuffer L new_char junk (some raw) buffer_size output_size =
      ⟨some c, declared_size,
        [Event.read L.countOffset L.countBytes] ++ GetActualBufferSize.touched L param_count ++
          [Event.alloc (new_char declared_size) declared_size, Event.copy declared_size]⟩ := by
  obtain ⟨h1, h2, h3, h4, h5, h6, h7, h8, h9, h10, h11, h12⟩ := h
  obtain ⟨b, bs⟩ := c
  simp only at h9 h10
  subst h10
  have e1 : ¬ buffer_size < L.sizeofCrossCallParams := by omega
  have e2 : ¬ buffer_size > kMaxBufferSize L := by omega
  have e3 : ¬ (buffer_size < min_declared_size L param_count ∨
      L.sizeofCrossCallParamsEx > min_declared_size L param_count) := by omega
  have e4 : ¬ (declared_size > buffer_size ∨
      declared_size < min_declared_size L param_count) := by omega
  simp only [CreateFromBuffer, e1, e2, e3, e4, h3, h6, h9, h11, h12, if_false, if_true,
    ne_eq, not_true_eq_false]

theorem CreateFromBuffer_accept_inv (L : Layout) (new_char : Nat → Nat) (junk : Int)
    (buffer_base : Option RawBuffer) (buffer_size output_size : Nat) (c : CrossCallParamsEx)
    (h : (CreateFromBuffer L new_char junk buffer_base buffer_size output_size).ret = some c) :
    ∃ raw param_count declared_size, buffer_base = some raw ∧
      AcceptPath L new_char junk raw buffer_size param_count declared_size c := by
  unfold CreateFromBuffer at h
  split at h
  · simp at h
  · rename_i raw
    refine ⟨raw, ?_⟩
    split at h
    · simp at h
    split at h
    · simp at h
    split at h
    · simp at h
    rename_i param_count hpc
    simp only at h
    split at h
    · simp at h
    split at h
    · simp at h
    rename_i declared_size hds
    split at h
    · simp at h
    split at h
    · simp at h
    rename_i bytes hbytes
    split at h
    · simp at h
    split at h
    · simp only [Option.some.injEq] at h
      subst h
      rename_i hv
      refine ⟨param_count, declared_size, rfl, ?_⟩
      unfold AcceptPath
      simp only [ne_eq, Decidable.not_not] at *
      refine ⟨by omega, by omega, hpc, by omega, by omega, hds, by omega, by omega, hbytes,
        trivial, by assumption, hv⟩
    · simp at h

/-! ## Properties of `CreateFromBuffer` -/

/-- The allocator `heapAt 4096` meets the contract on `layout32`. -/
theorem allocOk_heapAt : AllocOk layout32 (heapAt 4096) := by
  intro n hn
  simp only [heapAt, kMaxBufferSize, layout32, Layout.wordMod] at *
  omega

/-- The size of `CrossCallParamsEx` is not zero. -/
theorem headerSize_pos (L : Layout) (hL : L.WF) : 0 < L.sizeofCrossCallParamsEx := by
  obtain ⟨h1, h2, h3, _, _, _⟩ := hL
  omega

/-- On the accepting path the count is between 1 and 9. -/
theorem acceptPath_count (L : Layout) (hL : L.WF) (new_char : Nat → Nat) (junk : Int)
    (raw : RawBuffer) (buffer_size param_count declared_size : Nat) (c : CrossCallParamsEx)
    (h : AcceptPath L new_char junk raw buffer_size param_count declared_size c) :
    1 ≤ param_count ∧ param_count ≤ 9 := by
  obtain ⟨_, _, _, _, h5, h6, _, h8, _⟩ := h
  have hpos := headerSize_pos L hL
  by_contra hcon
  have hbad : param_count = 0 ∨ 9 < param_count := by omega
  rw [GetActualBufferSize_out_of_range L param_count raw.atSize hbad] at h6
  simp only [Option.some.injEq] at h6
  omega

/-- On the accepting path every entry below the count has a known type and
lies between the end of the fixed part and the declared size, and the block
ends below the top of the address space. -/
theorem acceptPath_entries (L : Layout) (hL : L.WF) (new_char : Nat → Nat)
    (hA : AllocOk L new_char) (junk : Int) (raw : RawBuffer)
    (buffer_size param_count declared_size : Nat) (c : CrossCallParamsEx)
    (h : AcceptPath L new_char junk raw buffer_size param_count declared_size c) :
    ∀ i, i < param_count →
      L.INVALID_TYPE < c.type_ L i ∧ c.type_ L i < L.LAST_TYPE ∧
      L.sizeofCrossCallParamsEx + param_count * L.sizeofParamInfo ≤ c.offset_ L i ∧
      c.offset_ L i + c.size_ L i ≤ declared_size ∧
      c.backing_mem + declared_size < L.wordMod := by
  obtain ⟨_, h9⟩ := acceptPath_count L hL new_char junk raw buffer_size param_count
    declared_size c h
  obtain ⟨_, hmax, _, _, _, _, hds, hmin, _, hmem, hcount, hver⟩ := h
  have hsmall := min_declared_size_small L hL param_count h9
  obtain ⟨hbpos, hbtop⟩ := hA declared_size (by omega)
  rw [← hmem] at hver hbpos hbtop
  intro i hi
  have hm := (verify_eq_true_iff L junk c _ _ param_count 0).mp hver i (Nat.zero_le _) (by omega)
  have hok := (malformed_eq_false_iff L hL junk c _ declared_size i hbpos hbtop hmin
    (by omega)).mp hm
  obtain ⟨t1, t2, o1, o2⟩ := hok
  rw [hsmall] at o1
  exact ⟨t1, t2, o1, o2, hbtop⟩

/-- C1: whenever `CreateFromBuffer` returns a validated call, the count of the
copy is between 1 and 9 and every entry below the count has a type strictly
between `INVALID_TYPE` and `LAST_TYPE`, an offset that is at least
`sizeof(CrossCallParamsEx) + param_count * sizeof(ParamInfo)` and at most the
declared size (the length of the copy), and an end `offset + size` that is at
most the declared size, the sums being taken over the natural numbers; the end
address does not wrap either. -/
theorem CreateFromBuffer_validated_in_bounds (L : Layout) (hL : L.WF) (new_char : Nat → Nat)
    (hA : AllocOk L new_char) (junk : Int) (buffer_base : Option RawBuffer)
    (buffer_size output_size : Nat) (c : CrossCallParamsEx)
    (h : (CreateFromBuffer L new_char junk buffer_base buffer_size output_size).ret = some c) :
    1 ≤ c.GetParamsCount L ∧ c.GetParamsCount L ≤ 9 ∧
    ∀ i, i < c.GetParamsCount L →
      L.INVALID_TYPE < c.type_ L i ∧ c.type_ L i < L.LAST_TYPE ∧
      L.sizeofCrossCallParamsEx + c.GetParamsCount L * L.sizeofParamInfo ≤ c.offset_ L i ∧
      c.offset_ L i ≤ c.bytes.length ∧
      c.offset_ L i + c.size_ L i ≤ c.bytes.length ∧
      c.backing_mem + c.offset_ L i + c.size_ L i < L.wordMod := by
  obtain ⟨raw, param_count, declared_size, _, hp⟩ :=
    CreateFromBuffer_accept_inv L new_char junk buffer_base buffer_size output_size c h
  obtain ⟨h1, h9⟩ := acceptPath_count L hL new_char junk raw buffer_size param_count
    declared_size c hp
  have hent := acceptPath_entries L hL new_char hA junk raw buffer_size param_count
    declared_size c hp
  obtain ⟨_, _, _, _, _, _, _, _, hpeek, _, hcount, _⟩ := hp
  have hlen := peek_length _ _ _ _ hpeek
  rw [hcount]
  refine ⟨h1, h9, ?_⟩
  intro i hi
  obtain ⟨t1, t2, o1, o2, o3⟩ := hent i hi
  refine ⟨t1, t2, o1, by omega, by omega, by omega⟩

theorem CreateFromBuffer_validated_in_bounds_witness :
    layout32.WF ∧ AllocOk layout32 (heapAt 4096) ∧
    (CreateFromBuffer layout32 (heapAt 4096) 0 (some (RawBuffer.ofBytes msgOne)) 92 0).ret =
      some ⟨4096, msgOne⟩ ∧
    (1 ≤ CrossCallParamsEx.GetParamsCount layout32 ⟨4096, msgOne⟩ ∧
     CrossCallParamsEx.GetParamsCount layout32 ⟨4096, msgOne⟩ ≤ 9 ∧
     ∀ i, i < CrossCallParamsEx.GetParamsCount layout32 ⟨4096, msgOne⟩ →
      layout32.INVALID_TYPE < CrossCallParamsEx.type_ layout32 ⟨4096, msgOne⟩ i ∧
      CrossCallParamsEx.type_ layout32 ⟨4096, msgOne⟩ i < layout32.LAST_TYPE ∧
      layout32.sizeofCrossCallParamsEx +
          CrossCallParamsEx.GetParamsCount layout32 ⟨4096, msgOne⟩ * layout32.sizeofParamInfo ≤
        CrossCallParamsEx.offset_ layout32 ⟨4096, msgOne⟩ i ∧
      CrossCallParamsEx.offset_ layout32 ⟨4096, msgOne⟩ i ≤
        (⟨4096, msgOne⟩ : CrossCallParamsEx).bytes.length ∧
      CrossCallParamsEx.offset_ layout32 ⟨4096, msgOne⟩ i +
          CrossCallParamsEx.size_ layout32 ⟨4096, msgOne⟩ i ≤
        (⟨4096, msgOne⟩ : CrossCallParamsEx).bytes.length ∧
      (⟨4096, msgOne⟩ : CrossCallParamsEx).backing_mem +
          CrossCallParamsEx.offset_ layout32 ⟨4096, msgOne⟩ i +
          CrossCallParamsEx.size_ layout32 ⟨4096, msgOne⟩ i < layout32.wordMod) :=
  ⟨by decide, allocOk_heapAt, by decide,
    CreateFromBuffer_validated_in_bounds layout32 (by decide) (heapAt 4096) allocOk_heapAt 0
      (some (RawBuffer.ofBytes msgOne)) 92 0 ⟨4096, msgOne⟩ (by decide)⟩

/-- C2: when the parameter count read from the buffer is 0 or greater than 9,
whatever machine word it is, `CreateFromBuffer` returns `NULL`. -/
theorem CreateFromBuffer_rejects_count_out_of_range (L : Layout) (hL : L.WF)
    (new_char : Nat → Nat) (junk : Int) (raw : RawBuffer) (buffer_size output_size : Nat)
    (param_count : Nat)
    (hread : CrossCallParams.GetParamsCount L raw.atCount = some param_count)
    (hbad : param_count = 0 ∨ 9 < param_count) :
    (CreateFromBuffer L new_char junk (some raw) buffer_size output_size).ret = none := by
  cases hr : (CreateFromBuffer L new_char junk (some raw) buffer_size output_size).ret with
  | none => rfl
  | some c =>
    exfalso
    obtain ⟨raw', pc, d, hraw, hp⟩ :=
      CreateFromBuffer_accept_inv L new_char junk (some raw) buffer_size output_size c hr
    simp only [Option.some.injEq] at hraw
    subst hraw
    have hc := acceptPath_count L hL new_char junk raw buffer_size pc d c hp
    obtain ⟨_, _, h3, _⟩ := hp
    rw [hread] at h3
    simp only [Option.some.injEq] at h3
    omega

theorem CreateFromBuffer_rejects_count_out_of_range_witness :
    (layout32.WF ∧
      CrossCallParams.GetParamsCount layout32 (RawBuffer.ofBytes msgZero).atCount = some 0 ∧
      ((0 : Nat) = 0 ∨ 9 < 0) ∧
      (CreateFromBuffer layout32 (heapAt 4096) 0 (some (RawBuffer.ofBytes msgZero)) 76 0).ret =
        none) ∧
    (CrossCallParams.GetParamsCount layout32 (RawBuffer.ofBytes msgTen).atCount = some 10 ∧
      ((10 : Nat) = 0 ∨ 9 < 10) ∧
      (CreateFromBuffer layout32 (heapAt 4096) 0 (some (RawBuffer.ofBytes msgTen)) 208 0).ret =
        none) ∧
    (CrossCallParams.GetParamsCount layout32 (RawBuffer.ofBytes msgHuge).atCount =
        some 1073741825 ∧
      ((1073741825 : Nat) = 0 ∨ 9 < 1073741825) ∧
      min_declared_size layout32 1073741825 = 88 ∧
      (CreateFromBuffer layout32 (heapAt 4096) 0 (some (RawBuffer.ofBytes msgHuge)) 88 0).ret =
        none) :=
  ⟨⟨by decide, by decide, by decide,
      CreateFromBuffer_rejects_count_out_of_range layout32 (by decide) (heapAt 4096) 0
        (RawBuffer.ofBytes msgZero) 76 0 0 (by decide) (by decide)⟩,
    ⟨by decide, by decide,
      CreateFromBuffer_rejects_count_out_of_range layout32 (by decide) (heapAt 4096) 0
        (RawBuffer.ofBytes msgTen) 208 0 10 (by decide) (by decide)⟩,
    ⟨by decide, by decide, by decide,
      CreateFromBuffer_rejects_count_out_of_range layout32 (by decide) (heapAt 4096) 0
        (RawBuffer.ofBytes msgHuge) 88 0 1073741825 (by decide) (by decide)⟩⟩

/-- Reading a mapped list of bytes gives the corresponding slice. -/
theorem peek_ofList (bs : List Nat) :
    ∀ (n off : Nat), off + n ≤ bs.length →
      peek (fun i => bs[i]?) off n = some ((bs.drop off).take n) := by
  intro n
  induction n with
  | zero =>
    intro off _
    simp [peek]
  | succ n ih =>
    intro off h
    have hlt : off < bs.length := by omega
    simp only [peek, List.getElem?_eq_getElem hlt, ih (off + 1) (by omega), Option.map_some']
    congr 1
    rw [List.drop_eq_getElem_cons hlt, List.take_succ_cons]

/-- The count found in a copy is the count found in the snapshot the copy was taken from. -/
theorem copy_GetParamsCount (L : Layout) (hL : L.WF) (s : Snapshot) (d b : Nat)
    (bs : List Nat) (hpeek : peek s 0 d = some bs) (hd : L.sizeofCrossCallParamsEx ≤ d) :
    CrossCallParams.GetParamsCount L s =
      some (CrossCallParamsEx.GetParamsCount L ⟨b, bs⟩) := by
  obtain ⟨h1, h2, h3, _, _, _⟩ := hL
  have hs := peek_slice s d 0 bs hpeek L.countOffset L.countBytes (by omega)
  rw [Nat.zero_add] at hs
  simp only [CrossCallParams.GetParamsCount, hs, Option.map_some',
    CrossCallParamsEx.GetParamsCount, CrossCallParamsEx.field]

/-- A buffer that nobody rewrites, mapped over `buffer_size` bytes and well formed,
follows the accepting path. -/
theorem acceptPath_of_wellFormed (L : Layout) (hL : L.WF) (new_char : Nat → Nat)
    (hA : AllocOk L new_char) (junk : Int) (bytes : List Nat)
    (buffer_size param_count declared_size : Nat)
    (hhdr : L.sizeofCrossCallParams ≤ buffer_size) (hmax : buffer_size ≤ kMaxBufferSize L)
    (hmapped : buffer_size ≤ bytes.length)
    (hcount : CrossCallParams.GetParamsCount L (RawBuffer.ofBytes bytes).atCount =
      some param_count)
    (h9 : param_count ≤ 9)
    (hsize : GetActualBufferSize L param_count (RawBuffer.ofBytes bytes).atSize =
      some declared_size)
    (hmin : L.sizeofCrossCallParamsEx + param_count * L.sizeofParamInfo ≤ declared_size)
    (hle : declared_size ≤ buffer_size)
    (hparams : ∀ i, i < param_count →
      L.INVALID_TYPE <
          CrossCallParamsEx.type_ L ⟨new_char declared_size, bytes.take declared_size⟩ i ∧
      CrossCallParamsEx.type_ L ⟨new_char declared_size, bytes.take declared_size⟩ i <
          L.LAST_TYPE ∧
      L.sizeofCrossCallParamsEx + param_count * L.sizeofParamInfo ≤
          CrossCallParamsEx.offset_ L ⟨new_char declared_size, bytes.take declared_size⟩ i ∧
      CrossCallParamsEx.offset_ L ⟨new_char declared_size, bytes.take declared_size⟩ i +
          CrossCallParamsEx.size_ L ⟨new_char declared_size, bytes.take declared_size⟩ i ≤
        declared_size) :
    AcceptPath L new_char junk (RawBuffer.ofBytes bytes) buffer_size param_count
      declared_size ⟨new_char declared_size, bytes.take declared_size⟩ := by
  have hsmall := min_declared_size_small L hL param_count h9
  have hpeek : peek (RawBuffer.ofBytes bytes).atCopy 0 declared_size =
      some (bytes.take declared_size) := by
    have := peek_ofList bytes declared_size 0 (by omega)
    simpa [RawBuffer.ofBytes] using this
  have hcopy := copy_GetParamsCount L hL _ declared_size (new_char declared_size) _ hpeek
    (by omega)
  have hsame : (RawBuffer.ofBytes bytes).atCopy = (RawBuffer.ofBytes bytes).atCount := rfl
  rw [hsame, hcount, Option.some.injEq] at hcopy
  obtain ⟨hbpos, hbtop⟩ := hA declared_size (by omega)
  refine ⟨hhdr, hmax, hcount, by omega, by omega, hsize, hle, by omega, hpeek, rfl,
    hcopy.symm, ?_⟩
  rw [verify_eq_true_iff]
  intro j _ hj
  have hj' : j < CrossCallParamsEx.GetParamsCount L
      ⟨new_char declared_size, bytes.take declared_size⟩ := by
    rw [← hcopy]
    omega
  rw [malformed_eq_false_iff L hL junk ⟨new_char declared_size, bytes.take declared_size⟩
    (min_declared_size L param_count) declared_size j hbpos hbtop (by omega) hj', hsmall]
  exact hparams j (by omega)

/-- C3: a buffer that nobody rewrites and that is mapped over at least
`buffer_size` bytes, with `sizeof(CrossCallParams) <= buffer_size <=
kMaxBufferSize`, a parameter count of at most 9 (1 and 9 included; a count of 0
is excluded by the hypothesis on the declared size), a declared size between
`sizeof(CrossCallParamsEx) + param_count * sizeof(ParamInfo)` and
`buffer_size`, and entries whose type lies strictly between `INVALID_TYPE`
and `LAST_TYPE` and whose bytes lie between that minimum and the declared
size, is accepted: `CreateFromBuffer` returns the copy of its first
`declared_size` bytes. -/
theorem CreateFromBuffer_accepts_well_formed (L : Layout) (hL : L.WF) (new_char : Nat → Nat)
    (hA : AllocOk L new_char) (junk : Int) (bytes : List Nat)
    (buffer_size output_size param_count declared_size : Nat)
    (hhdr : L.sizeofCrossCallParams ≤ buffer_size) (hmax : buffer_size ≤ kMaxBufferSize L)
    (hmapped : buffer_size ≤ bytes.length)
    (hcount : CrossCallParams.GetParamsCount L (RawBuffer.ofBytes bytes).atCount =
      some param_count)
    (h9 : param_count ≤ 9)
    (hsize : GetActualBufferSize L param_count (RawBuffer.ofBytes bytes).atSize =
      some declared_size)
    (hmin : L.sizeofCrossCallParamsEx + param_count * L.sizeofParamInfo ≤ declared_size)
    (hle : declared_size ≤ buffer_size)
    (hparams : ∀ i, i < param_count →
      L.INVALID_TYPE <
          CrossCallParamsEx.type_ L ⟨new_char declared_size, bytes.take declared_size⟩ i ∧
      CrossCallParamsEx.type_ L ⟨new_char declared_size, bytes.take declared_size⟩ i <
          L.LAST_TYPE ∧
      L.sizeofCrossCallParamsEx + param_count * L.sizeofParamInfo ≤
          CrossCallParamsEx.offset_ L ⟨new_char declared_size, bytes.take declared_size⟩ i ∧
      CrossCallParamsEx.offset_ L ⟨new_char declared_size, bytes.take declared_size⟩ i +
          CrossCallParamsEx.size_ L ⟨new_char declared_size, bytes.take declared_size⟩ i ≤
        declared_size) :
    (CreateFromBuffer L new_char junk (some (RawBuffer.ofBytes bytes)) buffer_size
        output_size).ret =
      some ⟨new_char declared_size, bytes.take declared_size⟩ := by
  have hpath := acceptPath_of_wellFormed L hL new_char hA junk bytes buffer_size param_count
    declared_size hhdr hmax hmapped hcount h9 hsize hmin hle hparams
  rw [CreateFromBuffer_of_acceptPath L new_char junk _ buffer_size output_size param_count
    declared_size _ hpath]

theorem CreateFromBuffer_accepts_well_formed_witness :
    (layout32.WF ∧ AllocOk layout32 (heapAt 4096) ∧
      CrossCallParams.GetParamsCount layout32 (RawBuffer.ofBytes msgNine).atCount = some 9 ∧
      GetActualBufferSize layout32 9 (RawBuffer.ofBytes msgNine).atSize = some 184 ∧
      msgNine.length = 184 ∧
      (CreateFromBuffer layout32 (heapAt 4096) 0 (some (RawBuffer.ofBytes msgNine)) 184 0).ret =
        some ⟨4096, msgNine.take 184⟩) ∧
    (CrossCallParams.GetParamsCount layout32 (RawBuffer.ofBytes msgOne).atCount = some 1 ∧
      GetActualBufferSize layout32 1 (RawBuffer.ofBytes msgOne).atSize = some 92 ∧
      msgOne.length = 92 ∧
      (CreateFromBuffer layout32 (heapAt 4096) 0 (some (RawBuffer.ofBytes msgOne)) 92 0).ret =
        some ⟨4096, msgOne.take 92⟩) :=
  ⟨⟨by decide, allocOk_heapAt, by decide, by decide, by decide,
      CreateFromBuffer_accepts_well_formed layout32 (by decide) (heapAt 4096) allocOk_heapAt 0
        msgNine 184 0 9 184 (by decide) (by decide) (by decide) (by decide) (by decide)
        (by decide) (by decide) (by decide) (by decide)⟩,
    ⟨by decide, by decide, by decide,
      CreateFromBuffer_accepts_well_formed layout32 (by decide) (heapAt 4096) allocOk_heapAt 0
        msgOne 92 0 1 92 (by decide) (by decide) (by decide) (by decide) (by decide)
        (by decide) (by decide) (by decide) (by decide)⟩⟩

/-- C6: when the buffer pointer is null, or `buffer_size` is below
`sizeof(CrossCallParams)`, or `buffer_size` is above `kMaxBufferSize`,
`CreateFromBuffer` returns `NULL` at once: `*output_size` keeps its value and
the trace is empty, so no byte of the buffer was read and nothing was allocated. -/
theorem CreateFromBuffer_rejects_immediately (L : Layout) (new_char : Nat → Nat) (junk : Int)
    (buffer_base : Option RawBuffer) (buffer_size output_size : Nat)
    (h : buffer_base = none ∨ buffer_size < L.sizeofCrossCallParams ∨
      buffer_size > kMaxBufferSize L) :
    CreateFromBuffer L new_char junk buffer_base buffer_size output_size =
      ⟨none, output_size, []⟩ := by
  unfold CreateFromBuffer
  cases buffer_base with
  | none => rfl
  | some raw =>
    simp only
    rcases h with h | h | h
    · simp at h
    · simp only [h, if_true]
    · simp only [h, if_true, ite_self]

theorem CreateFromBuffer_rejects_immediately_witness :
    (((none : Option RawBuffer) = none ∨ 92 < layout32.sizeofCrossCallParams ∨
        92 > kMaxBufferSize layout32) ∧
      CreateFromBuffer layout32 (heapAt 4096) 0 none 92 5 = ⟨none, 5, []⟩) ∧
    ((some (RawBuffer.ofBytes msgOne) = none ∨ 63 < layout32.sizeofCrossCallParams ∨
        63 > kMaxBufferSize layout32) ∧
      CreateFromBuffer layout32 (heapAt 4096) 0 (some (RawBuffer.ofBytes msgOne)) 63 5 =
        ⟨none, 5, []⟩) ∧
    ((some (RawBuffer.ofBytes msgOne) = none ∨ 1025 < layout32.sizeofCrossCallParams ∨
        1025 > kMaxBufferSize layout32) ∧
      CreateFromBuffer layout32 (heapAt 4096) 0 (some (RawBuffer.ofBytes msgOne)) 1025 5 =
        ⟨none, 5, []⟩) :=
  ⟨⟨Or.inl rfl, CreateFromBuffer_rejects_immediately layout32 (heapAt 4096) 0 none 92 5
      (Or.inl rfl)⟩,
    ⟨Or.inr (Or.inl (by decide)),
      CreateFromBuffer_rejects_immediately layout32 (heapAt 4096) 0
        (some (RawBuffer.ofBytes msgOne)) 63 5 (Or.inr (Or.inl (by decide)))⟩,
    ⟨Or.inr (Or.inr (by decide)),
      CreateFromBuffer_rejects_immediately layout32 (heapAt 4096) 0
        (some (RawBuffer.ofBytes msgOne)) 1025 5 (Or.inr (Or.inr (by decide)))⟩⟩

/-- C7: for every parameter count read from the buffer, with the minimum
size computed in machine arithmetic (`min_declared_size`, modulo `2 ^ wordBits`),
`CreateFromBuffer` returns `NULL` when `buffer_size` is below that minimum or
when the minimum is below `sizeof(CrossCallParamsEx)`, which is what a wrapped
sum or product gives. -/
theorem CreateFromBuffer_rejects_small_or_wrapped_min (L : Layout) (new_char : Nat → Nat)
    (junk : Int) (raw : RawBuffer) (buffer_size output_size param_count : Nat)
    (hread : CrossCallParams.GetParamsCount L raw.atCount = some param_count)
    (h : buffer_size < min_declared_size L param_count ∨
      min_declared_size L param_count < L.sizeofCrossCallParamsEx) :
    (CreateFromBuffer L new_char junk (some raw) buffer_size output_size).ret = none := by
  cases hr : (CreateFromBuffer L new_char junk (some raw) buffer_size output_size).ret with
  | none => rfl
  | some c =>
    exfalso
    obtain ⟨raw', pc, d, hraw, hp⟩ :=
      CreateFromBuffer_accept_inv L new_char junk (some raw) buffer_size output_size c hr
    simp only [Option.some.injEq] at hraw
    subst hraw
    obtain ⟨_, _, h3, h4, h5, _⟩ := hp
    rw [hread] at h3
    simp only [Option.some.injEq] at h3
    subst h3
    omega

theorem CreateFromBuffer_rejects_small_or_wrapped_min_witness :
    (CrossCallParams.GetParamsCount layout32 (RawBuffer.ofBytes msgOne).atCount = some 1 ∧
      (80 < min_declared_size layout32 1 ∨
        min_declared_size layout32 1 < layout32.sizeofCrossCallParamsEx) ∧
      (CreateFromBuffer layout32 (heapAt 4096) 0 (some (RawBuffer.ofBytes msgOne)) 80 0).ret =
        none) ∧
    (CrossCallParams.GetParamsCount layout32 (RawBuffer.ofBytes msgWrapCount).atCount =
        some 1073741823 ∧
      min_declared_size layout32 1073741823 = 64 ∧
      (1024 < min_declared_size layout32 1073741823 ∨
        min_declared_size layout32 1073741823 < layout32.sizeofCrossCallParamsEx) ∧
      (CreateFromBuffer layout32 (heapAt 4096) 0 (some (RawBuffer.ofBytes msgWrapCount)) 1024
        0).ret = none) :=
  ⟨⟨by decide, by decide,
      CreateFromBuffer_rejects_small_or_wrapped_min layout32 (heapAt 4096) 0
        (RawBuffer.ofBytes msgOne) 80 0 1 (by decide) (by decide)⟩,
    ⟨by decide, by decide, by decide,
      CreateFromBuffer_rejects_small_or_wrapped_min layout32 (heapAt 4096) 0
        (RawBuffer.ofBytes msgWrapCount) 1024 0 1073741823 (by decide) (by decide)⟩⟩

/-- C4: when the declared size read from the buffer is greater than
`buffer_size`, or smaller than the minimum size (as the machine computes it, or
as the sum `sizeof(CrossCallParamsEx) + param_count * sizeof(ParamInfo)` over
the natural numbers), `CreateFromBuffer` returns `NULL`, leaves `*output_size`
alone, and its trace holds nothing but reads of header fields: no block was
allocated and no byte was copied. -/
theorem CreateFromBuffer_rejects_bad_declared_size (L : Layout) (hL : L.WF)
    (new_char : Nat → Nat) (junk : Int) (raw : RawBuffer)
    (buffer_size output_size param_count declared_size : Nat)
    (hread : CrossCallParams.GetParamsCount L raw.atCount = some param_count)
    (hsize : GetActualBufferSize L param_count raw.atSize = some declared_size)
    (hbad : declared_size > buffer_size ∨
      declared_size < min_declared_size L param_count ∨
      declared_size < L.sizeofCrossCallParamsEx + param_count * L.sizeofParamInfo) :
    (CreateFromBuffer L new_char junk (some raw) buffer_size output_size).ret = none ∧
    (CreateFromBuffer L new_char junk (some raw) buffer_size output_size).output_size =
      output_size ∧
    ∀ e, e ∈ (CreateFromBuffer L new_char junk (some raw) buffer_size output_size).trace →
      ∃ off len, e = Event.read off len := by
  have hpos := headerSize_pos L hL
  have hbad' : declared_size > buffer_size ∨ declared_size < min_declared_size L param_count ∨
      L.sizeofCrossCallParamsEx > min_declared_size L param_count := by
    rcases hbad with h | h | h
    · exact Or.inl h
    · exact Or.inr (Or.inl h)
    · by_cases h9 : param_count ≤ 9
      · rw [min_declared_size_small L hL param_count h9]
        omega
      · rw [GetActualBufferSize_out_of_range L param_count raw.atSize (by omega)] at hsize
        simp only [Option.some.injEq] at hsize
        omega
  have htouched : ∀ e, e ∈ GetActualBufferSize.touched L param_count →
      ∃ off len, e = Event.read off len := by
    intro e he
    unfold GetActualBufferSize.touched at he
    split at he
    · simp only [List.mem_singleton] at he
      exact ⟨_, _, he⟩
    · simp at he
  unfold CreateFromBuffer
  simp only [hread, hsize]
  split
  · simp
  split
  · simp
  split
  · simp
  · rename_i hmin
    have hcond : declared_size > buffer_size ∨
        declared_size < min_declared_size L param_count := by omega
    simp only [hcond, if_true, true_and]
    intro e he
    simp only [List.singleton_append, List.mem_cons] at he
    rcases he with rfl | he
    · exact ⟨_, _, rfl⟩
    · exact htouched e he

theorem CreateFromBuffer_rejects_bad_declared_size_witness :
    (layout32.WF ∧
      CrossCallParams.GetParamsCount layout32 (RawBuffer.ofBytes msgOverclaim).atCount =
        some 1 ∧
      GetActualBufferSize layout32 1 (RawBuffer.ofBytes msgOverclaim).atSize = some 200 ∧
      CreateFromBuffer layout32 (heapAt 4096) 0 (some (RawBuffer.ofBytes msgOverclaim)) 92 5 =
        ⟨none, 5, [Event.read 60 4, Event.read 80 4]⟩) ∧
    (CrossCallParams.GetParamsCount layout32 (RawBuffer.ofBytes msgUnderclaim).atCount =
        some 1 ∧
      GetActualBufferSize layout32 1 (RawBuffer.ofBytes msgUnderclaim).atSize = some 80 ∧
      min_declared_size layout32 1 = 88 ∧
      (CreateFromBuffer layout32 (heapAt 4096) 0 (some (RawBuffer.ofBytes msgUnderclaim)) 92
        5).ret = none) :=
  ⟨⟨by decide, by decide, by decide, by decide⟩,
    ⟨by decide, by decide, by decide,
      (CreateFromBuffer_rejects_bad_declared_size layout32 (by decide) (heapAt 4096) 0
        (RawBuffer.ofBytes msgUnderclaim) 92 5 1 80 (by decide) (by decide)
        (Or.inr (Or.inl (by decide)))).1⟩⟩

/-- C5: when some entry below the count, at whatever position, has an offset
and a size whose sum reaches `2 ^ wordBits` (so it wraps as a machine word), or
whose end address `backing_mem + offset + size` does, `CreateFromBuffer`
returns `NULL`.  The entry is read in the bytes that `memcpy` copies. -/
theorem CreateFromBuffer_rejects_wrapping_entry (L : Layout) (hL : L.WF)
    (new_char : Nat → Nat) (hA : AllocOk L new_char) (junk : Int) (raw : RawBuffer)
    (buffer_size output_size param_count declared_size : Nat) (bytes : List Nat) (i : Nat)
    (hread : CrossCallParams.GetParamsCount L raw.atCount = some param_count)
    (hsize : GetActualBufferSize L param_count raw.atSize = some declared_size)
    (hcopy : peek raw.atCopy 0 declared_size = some bytes)
    (hi : i < param_count)
    (hwrap :
      L.wordMod ≤ CrossCallParamsEx.offset_ L ⟨new_char declared_size, bytes⟩ i +
        CrossCallParamsEx.size_ L ⟨new_char declared_size, bytes⟩ i ∨
      L.wordMod ≤ new_char declared_size +
        CrossCallParamsEx.offset_ L ⟨new_char declared_size, bytes⟩ i +
        CrossCallParamsEx.size_ L ⟨new_char declared_size, bytes⟩ i) :
    (CreateFromBuffer L new_char junk (some raw) buffer_size output_size).ret = none := by
  cases hr : (CreateFromBuffer L new_char junk (some raw) buffer_size output_size).ret with
  | none => rfl
  | some c =>
    exfalso
    obtain ⟨raw', pc, d, hraw, hp⟩ :=
      CreateFromBuffer_accept_inv L new_char junk (some raw) buffer_size output_size c hr
    simp only [Option.some.injEq] at hraw
    subst hraw
    have hent := acceptPath_entries L hL new_char hA junk raw buffer_size pc d c hp
    obtain ⟨_, _, h3, _, _, h6, _, _, h9, h10, _, _⟩ := hp
    rw [hread, Option.some.injEq] at h3
    subst h3
    rw [hsize, Option.some.injEq] at h6
    subst h6
    rw [hcopy, Option.some.injEq] at h9
    have hc : c = ⟨new_char declared_size, bytes⟩ := by
      cases c
      simp only at h9 h10
      rw [h9, h10]
    subst hc
    obtain ⟨_, _, _, o2, o3⟩ := hent i hi
    simp only at o3
    omega

theorem CreateFromBuffer_rejects_wrapping_entry_witness :
    layout32.WF ∧ AllocOk layout32 (heapAt 4096) ∧
    CrossCallParams.GetParamsCount layout32 (RawBuffer.ofBytes msgWrap).atCount = some 3 ∧
    GetActualBufferSize layout32 3 (RawBuffer.ofBytes msgWrap).atSize = some 116 ∧
    peek (RawBuffer.ofBytes msgWrap).atCopy 0 116 = some msgWrap ∧
    CrossCallParamsEx.offset_ layout32 ⟨heapAt 4096 116, msgWrap⟩ 1 = 4294967294 ∧
    CrossCallParamsEx.size_ layout32 ⟨heapAt 4096 116, msgWrap⟩ 1 = 10 ∧
    (CreateFromBuffer layout32 (heapAt 4096) 0 (some (RawBuffer.ofBytes msgWrap)) 116 0).ret =
      none :=
  ⟨by decide, allocOk_heapAt, by decide, by decide, by decide, by decide, by decide,
    CreateFromBuffer_rejects_wrapping_entry layout32 (by decide) (heapAt 4096) allocOk_heapAt 0
      (RawBuffer.ofBytes msgWrap) 116 0 3 116 msgWrap 1 (by decide) (by decide) (by decide)
      (by decide) (Or.inl (by decide))⟩

/-- C8: when `CreateFromBuffer` succeeds, the copy has exactly `declared_size`
bytes, the value `GetActualBufferSize` returned; byte `i` of the copy is byte
`i` of the raw buffer as `memcpy` saw it, for every `i < declared_size`; and
`*output_size` is `declared_size`. -/
theorem CreateFromBuffer_copy_exact (L : Layout) (new_char : Nat → Nat) (junk : Int)
    (raw : RawBuffer) (buffer_size output_size : Nat) (c : CrossCallParamsEx)
    (h : (CreateFromBuffer L new_char junk (some raw) buffer_size output_size).ret = some c) :
    ∃ param_count declared_size,
      CrossCallParams.GetParamsCount L raw.atCount = some param_count ∧
      GetActualBufferSize L param_count raw.atSize = some declared_size ∧
      c.bytes.length = declared_size ∧
      (∀ i, i < declared_size → c.bytes[i]? = raw.atCopy i) ∧
      (CreateFromBuffer L new_char junk (some raw) buffer_size output_size).output_size =
        declared_size := by
  obtain ⟨raw', pc, d, hraw, hp⟩ :=
    CreateFromBuffer_accept_inv L new_char junk (some raw) buffer_size output_size c h
  simp only [Option.some.injEq] at hraw
  subst hraw
  have hout := CreateFromBuffer_of_acceptPath L new_char junk raw buffer_size output_size pc d
    c hp
  obtain ⟨_, _, h3, _, _, h6, _, _, h9, _, _, _⟩ := hp
  refine ⟨pc, d, h3, h6, peek_length _ _ _ _ h9, ?_, ?_⟩
  · intro i hi
    have := peek_get _ _ _ _ h9 i hi
    rwa [Nat.zero_add] at this
  · rw [hout]

theorem CreateFromBuffer_copy_exact_witness :
    (CreateFromBuffer layout32 (heapAt 4096) 0 (some (RawBuffer.ofBytes (msgOne ++ [9, 9])))
        94 0).ret = some ⟨4096, msgOne⟩ ∧
    ∃ param_count declared_size,
      CrossCallParams.GetParamsCount layout32 (RawBuffer.ofBytes (msgOne ++ [9, 9])).atCount =
        some param_count ∧
      GetActualBufferSize layout32 param_count (RawBuffer.ofBytes (msgOne ++ [9, 9])).atSize =
        some declared_size ∧
      (⟨4096, msgOne⟩ : CrossCallParamsEx).bytes.length = declared_size ∧
      (∀ i, i < declared_size → (⟨4096, msgOne⟩ : CrossCallParamsEx).bytes[i]? =
        (RawBuffer.ofBytes (msgOne ++ [9, 9])).atCopy i) ∧
      (CreateFromBuffer layout32 (heapAt 4096) 0 (some (RawBuffer.ofBytes (msgOne ++ [9, 9])))
        94 0).output_size = declared_size :=
  ⟨by decide,
    CreateFromBuffer_copy_exact layout32 (heapAt 4096) 0 (RawBuffer.ofBytes (msgOne ++ [9, 9]))
      94 0 ⟨4096, msgOne⟩ (by decide)⟩

/-- C10: when the parameter count in the bytes seen by `memcpy` differs from
the parameter count seen by the first read of the header (a faulting read
counts as different), `CreateFromBuffer` returns `NULL`. -/
theorem CreateFromBuffer_rejects_count_change (L : Layout) (hL : L.WF) (new_char : Nat → Nat)
    (junk : Int) (raw : RawBuffer) (buffer_size output_size : Nat)
    (hdiff : CrossCallParams.GetParamsCount L raw.atCopy ≠
      CrossCallParams.GetParamsCount L raw.atCount) :
    (CreateFromBuffer L new_char junk (some raw) buffer_size output_size).ret = none := by
  cases hr : (CreateFromBuffer L new_char junk (some raw) buffer_size output_size).ret with
  | none => rfl
  | some c =>
    exfalso
    obtain ⟨raw', pc, d, hraw, hp⟩ :=
      CreateFromBuffer_accept_inv L new_char junk (some raw) buffer_size output_size c hr
    simp only [Option.some.injEq] at hraw
    subst hraw
    obtain ⟨_, _, h3, _, h5, _, _, h8, h9, _, h11, _⟩ := hp
    have hcopy := copy_GetParamsCount L hL raw.atCopy d c.backing_mem c.bytes h9 (by omega)
    apply hdiff
    rw [hcopy, h3, h11]

theorem CreateFromBuffer_rejects_count_change_witness :
    layout32.WF ∧
    (CreateFromBuffer layout32 (heapAt 4096) 0 (some (RawBuffer.ofBytes msgOne)) 104 0).ret =
      some ⟨4096, msgOne⟩ ∧
    (CreateFromBuffer layout32 (heapAt 4096) 0 (some (RawBuffer.ofBytes msgTwo)) 104 0).ret =
      some ⟨4096, msgTwo⟩ ∧
    CrossCallParams.GetParamsCount layout32 (fun i => msgOne[i]?) = some 1 ∧
    CrossCallParams.GetParamsCount layout32 (fun i => msgTwo[i]?) = some 2 ∧
    (CreateFromBuffer layout32 (heapAt 4096) 0
      (some ⟨fun i => msgOne[i]?, fun i => msgOne[i]?, fun i => msgTwo[i]?⟩) 104 0).ret = none :=
  ⟨by decide, by decide, by decide, by decide, by decide,
    CreateFromBuffer_rejects_count_change layout32 (by decide) (heapAt 4096) 0
      ⟨fun i => msgOne[i]?, fun i => msgOne[i]?, fun i => msgTwo[i]?⟩ 104 0 (by decide)⟩

/-- What holds once line 137 is reached. -/
theorem alloc_in_trace (L : Layout) (new_char : Nat → Nat) (junk : Int)
    (buffer_base : Option RawBuffer) (buffer_size output_size addr n : Nat)
    (h : Event.alloc addr n ∈
      (CreateFromBuffer L new_char junk buffer_base buffer_size output_size).trace) :
    ∃ raw param_count, buffer_base = some raw ∧
      L.sizeofCrossCallParams ≤ buffer_size ∧ buffer_size ≤ kMaxBufferSize L ∧
      CrossCallParams.GetParamsCount L raw.atCount = some param_count ∧
      min_declared_size L param_count ≤ buffer_size ∧
      L.sizeofCrossCallParamsEx ≤ min_declared_size L param_count ∧
      GetActualBufferSize L param_count raw.atSize = some n ∧
      n ≤ buffer_size ∧ min_declared_size L param_count ≤ n ∧ addr = new_char n := by
  have htouched : ∀ pc, Event.alloc addr n ∉ GetActualBufferSize.touched L pc := by
    intro pc he
    unfold GetActualBufferSize.touched at he
    split at he <;> simp at he
  unfold CreateFromBuffer at h
  split at h
  · simp at h
  rename_i raw
  split at h
  · simp at h
  split at h
  · simp at h
  split at h
  · simp at h
  rename_i param_count hpc
  simp only at h
  split at h
  · simp at h
  split at h
  · simp only [List.singleton_append, List.mem_cons, reduceCtorEq, false_or] at h
    exact absurd h (htouched _)
  rename_i declared_size hds
  split at h
  · simp only [List.singleton_append, List.mem_cons, reduceCtorEq, false_or] at h
    exact absurd h (htouched _)
  have hmem : Event.alloc addr n ∈ [Event.read L.countOffset L.countBytes] ++
      GetActualBufferSize.touched L param_count ++
      [Event.alloc (new_char declared_size) declared_size, Event.copy declared_size] ++
      [Event.free (new_char declared_size)] := by
    split at h
    · exact h
    split at h
    · exact h
    split at h
    · simp only [List.append_assoc, List.mem_append] at h ⊢
      rcases h with h | h | h
      · exact Or.inl h
      · exact Or.inr (Or.inl h)
      · exact Or.inr (Or.inr (Or.inl h))
    · exact h
  simp only [List.append_assoc, List.singleton_append, List.mem_cons, List.mem_append,
    reduceCtorEq, false_or, Event.alloc.injEq, List.cons_append, List.nil_append,
    List.mem_singleton, or_false] at hmem
  rcases hmem with hmem | ⟨rfl, rfl⟩ | hmem
  · exact absurd hmem (htouched _)
  · exact ⟨raw, param_count, rfl, by omega, by omega, hpc, by omega, by omega, hds, by omega,
      by omega, rfl⟩
  · simp at hmem

/-- C9: whenever `CreateFromBuffer` allocates a block of `n` bytes, and in
particular whenever it returns a copy of `n` bytes, `n` is the declared size
read from the buffer, the parameter count is between 1 and 9, the minimum size
did not wrap, and `sizeof(CrossCallParamsEx) <= min_declared_size <= n <=
buffer_size <= kMaxBufferSize`. -/
theorem CreateFromBuffer_alloc_bounded (L : Layout) (hL : L.WF) (new_char : Nat → Nat)
    (junk : Int) (buffer_base : Option RawBuffer) (buffer_size output_size n : Nat)
    (h : (∃ addr, Event.alloc addr n ∈
        (CreateFromBuffer L new_char junk buffer_base buffer_size output_size).trace) ∨
      (∃ c, (CreateFromBuffer L new_char junk buffer_base buffer_size output_size).ret =
        some c ∧ c.bytes.length = n)) :
    ∃ raw param_count, buffer_base = some raw ∧
      CrossCallParams.GetParamsCount L raw.atCount = some param_count ∧
      GetActualBufferSize L param_count raw.atSize = some n ∧
      1 ≤ param_count ∧ param_count ≤ 9 ∧
      min_declared_size L param_count =
        L.sizeofCrossCallParamsEx + param_count * L.sizeofParamInfo ∧
      L.sizeofCrossCallParamsEx ≤ min_declared_size L param_count ∧
      min_declared_size L param_count ≤ n ∧
      n ≤ buffer_size ∧ buffer_size ≤ kMaxBufferSize L := by
  have hpos := headerSize_pos L hL
  have key : ∀ raw param_count, buffer_base = some raw →
      buffer_size ≤ kMaxBufferSize L →
      CrossCallParams.GetParamsCount L raw.atCount = some param_count →
      L.sizeofCrossCallParamsEx ≤ min_declared_size L param_count →
      GetActualBufferSize L param_count raw.atSize = some n →
      n ≤ buffer_size → min_declared_size L param_count ≤ n →
      ∃ raw param_count, buffer_base = some raw ∧
        CrossCallParams.GetParamsCount L raw.atCount = some param_count ∧
        GetActualBufferSize L param_count raw.atSize = some n ∧
        1 ≤ param_count ∧ param_count ≤ 9 ∧
        min_declared_size L param_count =
          L.sizeofCrossCallParamsEx + param_count * L.sizeofParamInfo ∧
        L.sizeofCrossCallParamsEx ≤ min_declared_size L param_count ∧
        min_declared_size L param_count ≤ n ∧
        n ≤ buffer_size ∧ buffer_size ≤ kMaxBufferSize L := by
    intro raw pc hraw hmax hpc hex hds hle hmin
    have hrange : 1 ≤ pc ∧ pc ≤ 9 := by
      by_contra hcon
      rw [GetActualBufferSize_out_of_range L pc raw.atSize (by omega)] at hds
      simp only [Option.some.injEq] at hds
      omega
    exact ⟨raw, pc, hraw, hpc, hds, hrange.1, hrange.2,
      min_declared_size_small L hL pc hrange.2, hex, hmin, hle, hmax⟩
  rcases h with ⟨addr, h⟩ | ⟨c, h, hlen⟩
  · obtain ⟨raw, pc, hraw, _, hmax, hpc, _, hex, hds, hle, hmin, _⟩ :=
      alloc_in_trace L new_char junk buffer_base buffer_size output_size addr n h
    exact key raw pc hraw hmax hpc hex hds hle hmin
  · obtain ⟨raw, pc, d, hraw, hp⟩ :=
      CreateFromBuffer_accept_inv L new_char junk buffer_base buffer_size output_size c h
    obtain ⟨_, hmax, hpc, _, hex, hds, hle, hmin, hpeek, _, _, _⟩ := hp
    have := peek_length _ _ _ _ hpeek
    rw [hlen] at this
    subst this
    exact key raw pc hraw hmax hpc hex hds hle hmin

theorem CreateFromBuffer_alloc_bounded_witness :
    layout32.WF ∧
    Event.alloc 4096 92 ∈
      (CreateFromBuffer layout32 (heapAt 4096) 0 (some (RawBuffer.ofBytes msgOne)) 100 0).trace ∧
    ∃ raw param_count, some (RawBuffer.ofBytes msgOne) = some raw ∧
      CrossCallParams.GetParamsCount layout32 raw.atCount = some param_count ∧
      GetActualBufferSize layout32 param_count raw.atSize = some 92 ∧
      1 ≤ param_count ∧ param_count ≤ 9 ∧
      min_declared_size layout32 param_count =
        layout32.sizeofCrossCallParamsEx + param_count * layout32.sizeofParamInfo ∧
      layout32.sizeofCrossCallParamsEx ≤ min_declared_size layout32 param_count ∧
      min_declared_size layout32 param_count ≤ 92 ∧
      92 ≤ 100 ∧ 100 ≤ kMaxBufferSize layout32 :=
  ⟨by decide, by decide,
    CreateFromBuffer_alloc_bounded layout32 (by decide) (heapAt 4096) 0
      (some (RawBuffer.ofBytes msgOne)) 100 0 92 (Or.inl ⟨4096, by decide⟩)⟩

/-! ## Lemmas on the typed accessors -/

/-- A validated copy satisfies the bounds of `Bounded`. -/
theorem validated_bounded (L : Layout) (hL : L.WF) (new_char : Nat → Nat)
    (hA : AllocOk L new_char) (c : CrossCallParamsEx) (hv : Validated L new_char c) :
    Bounded L c := by
  obtain ⟨junk, buffer_base, buffer_size, output_size, h⟩ := hv
  obtain ⟨raw, param_count, declared_size, _, hp⟩ :=
    CreateFromBuffer_accept_inv L new_char junk buffer_base buffer_size output_size c h
  obtain ⟨h1, h9⟩ := acceptPath_count L hL new_char junk raw buffer_size param_count
    declared_size c hp
  have hent := acceptPath_entries L hL new_char hA junk raw buffer_size param_count
    declared_size c hp
  obtain ⟨_, hmax, _, _, _, _, hds, _, hpeek, hmem, hcount, _⟩ := hp
  have hlen := peek_length _ _ _ _ hpeek
  obtain ⟨hbpos, hbtop⟩ := hA declared_size (by omega)
  rw [← hmem] at hbpos hbtop
  rw [← hlen] at hbtop
  refine ⟨hbpos, hbtop, by omega, by omega, ?_⟩
  rw [hcount]
  intro i hi
  obtain ⟨t1, t2, o1, o2, _⟩ := hent i hi
  exact ⟨t1, t2, o1, by omega⟩

/-- Out of range, `GetRawParameter` returns `NULL` and writes nothing. -/
theorem GetRawParameter_out (L : Layout) (c : CrossCallParamsEx) (index size : Nat)
    (type : Int) (h : c.GetParamsCount L ≤ index) :
    c.GetRawParameter L index size type = (0, size, type) := by
  unfold CrossCallParamsEx.GetRawParameter
  rw [if_pos h]

/-- In range, `GetRawParameter` returns the three members of the entry, in machine arithmetic. -/
theorem GetRawParameter_in (L : Layout) (hL : L.WF) (c : CrossCallParamsEx)
    (index size : Nat) (type : Int) (h : index < c.GetParamsCount L) :
    c.GetRawParameter L index size type =
      ((c.backing_mem + c.offset_ L index) % L.wordMod, c.size_ L index, c.type_ L index) := by
  obtain ⟨_, _, _, _, _, h6⟩ := hL
  have hs : c.size_ L index < L.wordMod := field_lt c _ _ _ h6
  unfold CrossCallParamsEx.GetRawParameter
  rw [if_neg (by omega), Nat.mod_eq_of_lt hs, Nat.add_comm]

/-- On a bounded copy the address of an entry is the exact sum, and it is not `NULL`. -/
theorem GetRawParameter_bounded (L : Layout) (hL : L.WF) (c : CrossCallParamsEx)
    (hb : Bounded L c) (index size : Nat) (type : Int) (h : index < c.GetParamsCount L) :
    c.GetRawParameter L index size type =
      (c.backing_mem + c.offset_ L index, c.size_ L index, c.type_ L index) ∧
    0 < c.backing_mem + c.offset_ L index := by
  obtain ⟨hpos, htop, _, _, hent⟩ := hb
  obtain ⟨_, _, _, ho⟩ := hent index h
  rw [GetRawParameter_in L hL c index size type h, Nat.mod_eq_of_lt (by omega)]
  exact ⟨rfl, by omega⟩

/-- A read inside the block returns the bytes stored there. -/
theorem load_inside (c : CrossCallParamsEx) (off n : Nat) (h : off + n ≤ c.bytes.length) :
    c.load (c.backing_mem + off) n = some ((c.bytes.drop off).take n) := by
  unfold CrossCallParamsEx.load
  rw [if_pos ⟨by omega, by omega⟩, Nat.add_sub_cancel_left]

/-- Reading back the bytes of a value that fits gives the value. -/
theorem readLE_toLE : ∀ (n v : Nat), v < 256 ^ n → readLE (toLE n v) = v := by
  intro n
  induction n with
  | zero =>
    intro v hv
    simp only [pow_zero, Nat.lt_one_iff] at hv
    simp [toLE, readLE, hv]
  | succ n ih =>
    intro v hv
    have hdiv : v / 256 < 256 ^ n := by
      rw [Nat.div_lt_iff_lt_mul (by decide)]
      rw [pow_succ] at hv
      exact hv
    simp only [toLE, readLE, ih _ hdiv, Nat.mod_mod]
    omega

/-- Reading back the bytes of 16-bit code units gives the code units. -/
theorem wchars_wcharBytes : ∀ (s : List Nat), (∀ u, u ∈ s → u < 2 ^ 16) →
    wchars (wcharBytes s) = s := by
  intro s
  induction s with
  | nil =>
    intro _
    rfl
  | cons u rest ih =>
    intro h
    have hu : u < 2 ^ 16 := h u (List.mem_cons_self _ _)
    have hrest := ih (fun x hx => h x (List.mem_cons_of_mem _ hx))
    simp only [wcharBytes, toLE, List.cons_append, List.nil_append, wchars, hrest, Nat.mod_mod]
    congr 1
    norm_num at hu
    omega

/-- A run of `2 * k` bytes holds `k` values of type `wchar_t`. -/
theorem wchars_length : ∀ (k : Nat) (bs : List Nat), bs.length = 2 * k →
    (wchars bs).length = k := by
  intro k
  induction k with
  | zero =>
    intro bs h
    have : bs = [] := List.length_eq_zero.mp (by omega)
    subst this
    rfl
  | succ k ih =>
    intro bs h
    match bs, h with
    | b0 :: b1 :: rest, h =>
      simp only [List.length_cons] at h
      simp only [wchars, List.length_cons, ih rest (by omega)]

/-- The value of index `k` of a run held by bytes is made of the bytes of
indices `2 * k` and `2 * k + 1`. -/
theorem wchars_get : ∀ (k : Nat) (bs : List Nat), 2 * k + 2 ≤ bs.length →
    ∃ b0 b1, bs[2 * k]? = some b0 ∧ bs[2 * k + 1]? = some b1 ∧
      (wchars bs)[k]? = some (b0 % 256 + 256 * (b1 % 256)) := by
  intro k
  induction k with
  | zero =>
    intro bs h
    match bs, h with
    | b0 :: b1 :: rest, _ => exact ⟨b0, b1, by simp, by simp, by simp [wchars]⟩
  | succ k ih =>
    intro bs h
    match bs, h with
    | b0 :: b1 :: rest, h =>
      simp only [List.length_cons] at h
      obtain ⟨x0, x1, h0, h1, hw⟩ := ih rest (by omega)
      refine ⟨x0, x1, ?_, ?_, ?_⟩
      · rw [show 2 * (k + 1) = 2 * k + 1 + 1 by omega]
        simpa using h0
      · rw [show 2 * (k + 1) + 1 = (2 * k + 1) + 1 + 1 by omega]
        simpa using h1
      · simpa [wchars] using hw

/-- On a bounded copy `GetParameter32` tests the index, the size and the type, and reads inside the copy. -/
theorem GetParameter32_bounded (L : Layout) (hL : L.WF) (c : CrossCallParamsEx)
    (hb : Bounded L c) (junk : Int) (index param : Nat) :
    c.GetParameter32 L junk index param =
      if index < c.GetParamsCount L ∧ c.size_ L index = 4 ∧ c.type_ L index = L.ULONG_TYPE then
        some (true, c.field (c.offset_ L index) 4)
      else some (false, param) := by
  unfold CrossCallParamsEx.GetParameter32
  by_cases hi : index < c.GetParamsCount L
  · obtain ⟨hraw, hpos⟩ := GetRawParameter_bounded L hL c hb index 0 junk hi
    obtain ⟨_, _, _, _, hent⟩ := hb
    obtain ⟨_, _, _, ho⟩ := hent index hi
    rw [hraw]
    simp only
    by_cases hc : c.size_ L index = 4 ∧ c.type_ L index = L.ULONG_TYPE
    · obtain ⟨hs, ht⟩ := hc
      rw [if_neg (by omega), if_pos ⟨hi, hs, ht⟩, load_inside c _ 4 (by omega)]
      rfl
    · rw [if_pos (by omega), if_neg (by tauto)]
  · rw [GetRawParameter_out L c index 0 junk (by omega)]
    simp only [true_or, if_true]
    rw [if_neg (by tauto)]

/-- On a bounded copy `GetParameterVoidPtr` tests the index, the size and the type, and reads inside the copy. -/
theorem GetParameterVoidPtr_bounded (L : Layout) (hL : L.WF) (c : CrossCallParamsEx)
    (hb : Bounded L c) (junk : Int) (index param : Nat) :
    c.GetParameterVoidPtr L junk index param =
      if index < c.GetParamsCount L ∧ c.size_ L index = L.sizeofVoidPtr ∧
          c.type_ L index = L.VOIDPTR_TYPE then
        some (true, c.field (c.offset_ L index) L.sizeofVoidPtr)
      else some (false, param) := by
  unfold CrossCallParamsEx.GetParameterVoidPtr
  by_cases hi : index < c.GetParamsCount L
  · obtain ⟨hraw, hpos⟩ := GetRawParameter_bounded L hL c hb index 0 junk hi
    obtain ⟨_, _, _, _, hent⟩ := hb
    obtain ⟨_, _, _, ho⟩ := hent index hi
    rw [hraw]
    simp only
    by_cases hc : c.size_ L index = L.sizeofVoidPtr ∧ c.type_ L index = L.VOIDPTR_TYPE
    · obtain ⟨hs, ht⟩ := hc
      rw [if_neg (by omega), if_pos ⟨hi, hs, ht⟩, load_inside c _ _ (by omega)]
      rfl
    · rw [if_pos (by omega), if_neg (by tauto)]
  · rw [GetRawParameter_out L c index 0 junk (by omega)]
    simp only [true_or, if_true]
    rw [if_neg (by tauto)]

/-- On a bounded copy and an index in range, `GetParameterStr` tests the type
and the parity of the size, and reads inside the copy. -/
theorem GetParameterStr_bounded (L : Layout) (hL : L.WF) (c : CrossCallParamsEx)
    (hb : Bounded L c) (junk : Int) (index : Nat) (string : List Nat)
    (hi : index < c.GetParamsCount L) :
    c.GetParameterStr L junk index string =
      if c.type_ L index ≠ L.WCHAR_TYPE then some (false, string)
      else if c.size_ L index = 0 then some (true, [])
      else if c.size_ L index % 2 ≠ 0 then some (false, string)
      else some (true, string ++
        wchars ((c.bytes.drop (c.offset_ L index)).take (c.size_ L index))) := by
  unfold CrossCallParamsEx.GetParameterStr
  obtain ⟨hraw, hpos⟩ := GetRawParameter_bounded L hL c hb index 0 junk hi
  obtain ⟨_, _, _, _, hent⟩ := hb
  obtain ⟨_, _, _, ho⟩ := hent index hi
  rw [hraw]
  simp only [sizeof_wchar_t]
  by_cases ht : c.type_ L index = L.WCHAR_TYPE
  · simp only [ht, ne_eq, not_true_eq_false, if_false]
    by_cases hz : c.size_ L index = 0
    · simp only [hz, if_true]
    · simp only [hz, if_false]
      by_cases hodd : c.size_ L index % 2 = 0
      · have hev : c.size_ L index / 2 * 2 = c.size_ L index := by omega
        have hne : ¬ (c.backing_mem + c.offset_ L index = 0) := by omega
        simp only [hodd, hne, not_true_eq_false, or_self, if_false, hev,
          load_inside c _ _ ho, Option.map_some']
      · simp only [hodd, not_false_eq_true, or_true, if_true]
  · have ht' : L.WCHAR_TYPE ≠ c.type_ L index := fun h => ht h.symm
    simp only [ne_eq, ht, ht', not_false_eq_true, if_true]

/-- Out of range, `GetParameterStr` decides on the value found in its uninitialised local. -/
theorem GetParameterStr_out (L : Layout) (c : CrossCallParamsEx) (junk : Int)
    (index : Nat) (string : List Nat) (hi : c.GetParamsCount L ≤ index) :
    c.GetParameterStr L junk index string =
      if L.WCHAR_TYPE ≠ junk then some (false, string) else some (true, []) := by
  unfold CrossCallParamsEx.GetParameterStr
  rw [GetRawParameter_out L c index 0 junk hi]
  simp only [if_true]

/-- On a bounded copy `GetParameterPtr` tests the index, the size and the type. -/
theorem GetParameterPtr_bounded (L : Layout) (hL : L.WF) (c : CrossCallParamsEx)
    (hb : Bounded L c) (junk : Int) (index expected_size pointer : Nat) :
    c.GetParameterPtr L junk index expected_size pointer =
      if index < c.GetParamsCount L ∧ c.size_ L index = expected_size ∧
          c.type_ L index = L.INOUTPTR_TYPE then
        (true, c.backing_mem + c.offset_ L index)
      else (false, pointer) := by
  unfold CrossCallParamsEx.GetParameterPtr
  by_cases hi : index < c.GetParamsCount L
  · obtain ⟨hraw, hpos⟩ := GetRawParameter_bounded L hL c hb index 0 junk hi
    rw [hraw]
    simp only
    have hne : ¬ (c.backing_mem + c.offset_ L index = 0) := by omega
    by_cases hs : c.size_ L index = expected_size
    · by_cases ht : c.type_ L index = L.INOUTPTR_TYPE
      · simp only [hs, ht, hi, ne_eq, not_true_eq_false, or_self, if_false, hne, and_self,
          if_true]
      · have ht' : L.INOUTPTR_TYPE ≠ c.type_ L index := fun h => ht h.symm
        simp only [ne_eq, ht, ht', not_false_eq_true, or_true, if_true, and_false, if_false]
    · simp only [ne_eq, hs, not_false_eq_true, true_or, if_true, false_and, and_false,
        if_false]
  · have hcond : ¬ (index < c.GetParamsCount L ∧ c.size_ L index = expected_size ∧
        c.type_ L index = L.INOUTPTR_TYPE) := fun h => hi h.1
    rw [GetRawParameter_out L c index 0 junk (by omega)]
    simp only [if_true, ite_self, hcond, if_false]

/-- The copy of `msgThree` at address 4096 is validated. -/
theorem validated_msgThree : Validated layout32 (heapAt 4096) ⟨4096, msgThree⟩ :=
  ⟨0, some (RawBuffer.ofBytes msgThree), 124, 0, by decide⟩

/-- The copy of `msgMixed` at address 4096 is validated. -/
theorem validated_msgMixed : Validated layout32 (heapAt 4096) ⟨4096, msgMixed⟩ :=
  ⟨0, some (RawBuffer.ofBytes msgMixed), 132, 0, by decide⟩

/-- An entry that carries a value has a type that the validator accepts. -/
theorem carries_type (L : Layout) (hT : L.TypesOk) (c : CrossCallParamsEx) (i : Nat)
    (v : Value) (h : Carries L c i v) :
    L.INVALID_TYPE < c.type_ L i ∧ c.type_ L i < L.LAST_TYPE := by
  obtain ⟨hw, hu, hp, _⟩ := hT
  cases v with
  | ulong v =>
    obtain ⟨ht, _⟩ := h
    rw [ht]
    exact hu
  | wchar s =>
    obtain ⟨ht, _⟩ := h
    rw [ht]
    exact hw
  | voidptr p =>
    obtain ⟨ht, _⟩ := h
    rw [ht]
    exact hp

/-- On a bounded copy, the accessor of a carried value returns the value. -/
theorem carries_readsBack (L : Layout) (hL : L.WF) (c : CrossCallParamsEx)
    (hb : Bounded L c) (junk : Int) (out i : Nat) (hi : i < c.GetParamsCount L) (v : Value)
    (h : Carries L c i v) : ReadsBack L c junk out i v := by
  cases v with
  | ulong v =>
    obtain ⟨ht, hs, hv, hbytes⟩ := h
    have hv' : v < 256 ^ 4 := by
      norm_num at hv ⊢
      exact hv
    show c.GetParameter32 L junk i out = some (true, v)
    rw [GetParameter32_bounded L hL c hb junk i out, if_pos ⟨hi, hs, ht⟩]
    unfold CrossCallParamsEx.field
    rw [hbytes, readLE_toLE 4 v hv']
  | wchar s =>
    obtain ⟨ht, hs, hu, hbytes⟩ := h
    show c.GetParameterStr L junk i [] = some (true, s)
    rw [GetParameterStr_bounded L hL c hb junk i [] hi, if_neg (fun hne => hne ht)]
    by_cases hz : c.size_ L i = 0
    · rw [if_pos hz]
      have : s = [] := List.length_eq_zero.mp (by omega)
      rw [this]
    · rw [if_neg hz, if_neg (by omega), hs, hbytes, wchars_wcharBytes s hu, List.nil_append]
  | voidptr p =>
    obtain ⟨ht, hs, hp, hbytes⟩ := h
    show c.GetParameterVoidPtr L junk i out = some (true, p)
    rw [GetParameterVoidPtr_bounded L hL c hb junk i out, if_pos ⟨hi, hs, ht⟩]
    unfold CrossCallParamsEx.field
    rw [hbytes, readLE_toLE _ p hp]

/-! ## Properties of the typed accessors -/

/-- C11: round trip.  Take a list of at most 9 typed values (a buffer with
none is not well formed) and a buffer that nobody rewrites, well formed as in
C3, whose entry `i` carries the `i`-th value: the type and size of the value
and, at its offset, the bytes of the value.  Then `CreateFromBuffer` accepts
the buffer and, at each index, the accessor of the value's type
(`GetParameter32`, `GetParameterStr` into an empty string,
`GetParameterVoidPtr`) succeeds and returns the value. -/
theorem round_trip (L : Layout) (hL : L.WF) (hT : L.TypesOk) (new_char : Nat → Nat)
    (hA : AllocOk L new_char) (junk junk2 : Int) (out : Nat) (bytes : List Nat)
    (vals : List Value) (buffer_size output_size declared_size : Nat)
    (hhdr : L.sizeofCrossCallParams ≤ buffer_size) (hmax : buffer_size ≤ kMaxBufferSize L)
    (hmapped : buffer_size ≤ bytes.length)
    (hcount : CrossCallParams.GetParamsCount L (RawBuffer.ofBytes bytes).atCount =
      some vals.length)
    (h9 : vals.length ≤ 9)
    (hsize : GetActualBufferSize L vals.length (RawBuffer.ofBytes bytes).atSize =
      some declared_size)
    (hmin : L.sizeofCrossCallParamsEx + vals.length * L.sizeofParamInfo ≤ declared_size)
    (hle : declared_size ≤ buffer_size)
    (hvals : ∀ (i : Nat) (h : i < vals.length),
      Carries L ⟨new_char declared_size, bytes.take declared_size⟩ i (vals.get ⟨i, h⟩) ∧
      L.sizeofCrossCallParamsEx + vals.length * L.sizeofParamInfo ≤
        CrossCallParamsEx.offset_ L ⟨new_char declared_size, bytes.take declared_size⟩ i ∧
      CrossCallParamsEx.offset_ L ⟨new_char declared_size, bytes.take declared_size⟩ i +
          CrossCallParamsEx.size_ L ⟨new_char declared_size, bytes.take declared_size⟩ i ≤
        declared_size) :
    (CreateFromBuffer L new_char junk (some (RawBuffer.ofBytes bytes)) buffer_size
        output_size).ret = some ⟨new_char declared_size, bytes.take declared_size⟩ ∧
    ∀ (i : Nat) (h : i < vals.length),
      ReadsBack L ⟨new_char declared_size, bytes.take declared_size⟩ junk2 out i
        (vals.get ⟨i, h⟩) := by
  have hparams : ∀ i, i < vals.length →
      L.INVALID_TYPE <
          CrossCallParamsEx.type_ L ⟨new_char declared_size, bytes.take declared_size⟩ i ∧
      CrossCallParamsEx.type_ L ⟨new_char declared_size, bytes.take declared_size⟩ i <
          L.LAST_TYPE ∧
      L.sizeofCrossCallParamsEx + vals.length * L.sizeofParamInfo ≤
          CrossCallParamsEx.offset_ L ⟨new_char declared_size, bytes.take declared_size⟩ i ∧
      CrossCallParamsEx.offset_ L ⟨new_char declared_size, bytes.take declared_size⟩ i +
          CrossCallParamsEx.size_ L ⟨new_char declared_size, bytes.take declared_size⟩ i ≤
        declared_size := by
    intro i hi
    obtain ⟨hc, o1, o2⟩ := hvals i hi
    obtain ⟨t1, t2⟩ := carries_type L hT _ i _ hc
    exact ⟨t1, t2, o1, o2⟩
  have hpath := acceptPath_of_wellFormed L hL new_char hA junk bytes buffer_size vals.length
    declared_size hhdr hmax hmapped hcount h9 hsize hmin hle hparams
  have hret := CreateFromBuffer_of_acceptPath L new_char junk _ buffer_size output_size
    vals.length declared_size _ hpath
  have hv : Validated L new_char ⟨new_char declared_size, bytes.take declared_size⟩ :=
    ⟨junk, some (RawBuffer.ofBytes bytes), buffer_size, output_size, by rw [hret]⟩
  have hb := validated_bounded L hL new_char hA _ hv
  have hcnt : CrossCallParamsEx.GetParamsCount L
      ⟨new_char declared_size, bytes.take declared_size⟩ = vals.length := hpath.2.2.2.2.2.2.2.2.2.2.1
  refine ⟨by rw [hret], ?_⟩
  intro i hi
  exact carries_readsBack L hL _ hb junk2 out i (by omega) _ (hvals i hi).1

theorem round_trip_witness :
    layout32.WF ∧ layout32.TypesOk ∧ AllocOk layout32 (heapAt 4096) ∧
    valuesThree = [Value.ulong 42, Value.wchar [104, 105], Value.voidptr 3735928559] ∧
    (CreateFromBuffer layout32 (heapAt 4096) 0 (some (RawBuffer.ofBytes msgThree)) 124
        0).ret = some ⟨4096, msgThree.take 124⟩ ∧
    CrossCallParamsEx.GetParameter32 layout32 ⟨4096, msgThree.take 124⟩ 0 0 0 =
      some (true, 42) ∧
    CrossCallParamsEx.GetParameterStr layout32 ⟨4096, msgThree.take 124⟩ 0 1 [] =
      some (true, [104, 105]) ∧
    CrossCallParamsEx.GetParameterVoidPtr layout32 ⟨4096, msgThree.take 124⟩ 0 2 0 =
      some (true, 3735928559) ∧
    ∀ (i : Nat) (h : i < valuesThree.length),
      ReadsBack layout32 ⟨heapAt 4096 124, msgThree.take 124⟩ 0 0 i (valuesThree.get ⟨i, h⟩) :=
  ⟨by decide, by decide, allocOk_heapAt, rfl, by decide, by decide, by decide, by decide,
    (round_trip layout32 (by decide) (by decide) (heapAt 4096) allocOk_heapAt 0 0 0 msgThree
      valuesThree 124 0 124 (by decide) (by decide) (by decide) (by decide) (by decide)
      (by decide) (by decide) (by decide)
      (by
        intro i h
        have h3 : i < 3 := h
        interval_cases i
        · exact ⟨⟨by decide, by decide, by decide, by decide⟩, by decide, by decide⟩
        · exact ⟨⟨by decide, by decide, by decide, by decide⟩, by decide, by decide⟩
        · exact ⟨⟨by decide, by decide, by decide, by decide⟩, by decide, by decide⟩)).2⟩

/-- C12: on a validated call no accessor reads outside the copy, and whenever
one succeeds on an entry, the bytes it read or handed out, `size` bytes from
`offset`, lie between `sizeof(CrossCallParamsEx) + param_count *
sizeof(ParamInfo)` and the length of the copy, which is the declared size.
The one success that is not on an entry, `GetParameterStr` past the count,
returns the empty string and reads nothing. -/
theorem accessors_stay_inside (L : Layout) (hL : L.WF) (new_char : Nat → Nat)
    (hA : AllocOk L new_char) (c : CrossCallParamsEx) (hv : Validated L new_char c)
    (junk : Int) (index expected_size param pointer : Nat) (string : List Nat) :
    (c.GetParameter32 L junk index param ≠ none ∧
      c.GetParameterVoidPtr L junk index param ≠ none ∧
      c.GetParameterStr L junk index string ≠ none) ∧
    (∀ v, c.GetParameter32 L junk index param = some (true, v) →
      index < c.GetParamsCount L ∧ c.size_ L index = 4 ∧
      L.sizeofCrossCallParamsEx + c.GetParamsCount L * L.sizeofParamInfo ≤ c.offset_ L index ∧
      c.offset_ L index + 4 ≤ c.bytes.length) ∧
    (∀ v, c.GetParameterVoidPtr L junk index param = some (true, v) →
      index < c.GetParamsCount L ∧ c.size_ L index = L.sizeofVoidPtr ∧
      L.sizeofCrossCallParamsEx + c.GetParamsCount L * L.sizeofParamInfo ≤ c.offset_ L index ∧
      c.offset_ L index + L.sizeofVoidPtr ≤ c.bytes.length) ∧
    (∀ s, c.GetParameterStr L junk index string = some (true, s) →
      (index < c.GetParamsCount L ∧
        L.sizeofCrossCallParamsEx + c.GetParamsCount L * L.sizeofParamInfo ≤
          c.offset_ L index ∧
        c.offset_ L index + c.size_ L index ≤ c.bytes.length) ∨
      (c.GetParamsCount L ≤ index ∧ s = [])) ∧
    (∀ p, c.GetParameterPtr L junk index expected_size pointer = (true, p) →
      index < c.GetParamsCount L ∧ c.size_ L index = expected_size ∧
      p = c.backing_mem + c.offset_ L index ∧
      L.sizeofCrossCallParamsEx + c.GetParamsCount L * L.sizeofParamInfo ≤ c.offset_ L index ∧
      c.offset_ L index + expected_size ≤ c.bytes.length) := by
  have hb := validated_bounded L hL new_char hA c hv
  have h32 := GetParameter32_bounded L hL c hb junk index param
  have hvp := GetParameterVoidPtr_bounded L hL c hb junk index param
  have hpt := GetParameterPtr_bounded L hL c hb junk index expected_size pointer
  have hent := hb.2.2.2.2
  refine ⟨⟨?_, ?_, ?_⟩, ?_, ?_, ?_, ?_⟩
  · rw [h32]
    split <;> simp
  · rw [hvp]
    split <;> simp
  · by_cases hi : index < c.GetParamsCount L
    · rw [GetParameterStr_bounded L hL c hb junk index string hi]
      split
      · simp
      split
      · simp
      split <;> simp
    · rw [GetParameterStr_out L c junk index string (by omega)]
      split <;> simp
  · intro v hv'
    rw [h32] at hv'
    split at hv'
    · rename_i hc
      obtain ⟨hi, hs, _⟩ := hc
      obtain ⟨_, _, o1, o2⟩ := hent index hi
      exact ⟨hi, hs, o1, by omega⟩
    · simp at hv'
  · intro v hv'
    rw [hvp] at hv'
    split at hv'
    · rename_i hc
      obtain ⟨hi, hs, _⟩ := hc
      obtain ⟨_, _, o1, o2⟩ := hent index hi
      exact ⟨hi, hs, o1, by omega⟩
    · simp at hv'
  · intro s hs
    by_cases hi : index < c.GetParamsCount L
    · obtain ⟨_, _, o1, o2⟩ := hent index hi
      exact Or.inl ⟨hi, o1, o2⟩
    · rw [GetParameterStr_out L c junk index string (by omega)] at hs
      split at hs
      · simp at hs
      · simp only [Option.some.injEq, Prod.mk.injEq, true_and] at hs
        exact Or.inr ⟨by omega, hs.symm⟩
  · intro p hp
    rw [hpt] at hp
    split at hp
    · rename_i hc
      obtain ⟨hi, hs, _⟩ := hc
      obtain ⟨_, _, o1, o2⟩ := hent index hi
      simp only [Prod.mk.injEq, true_and] at hp
      exact ⟨hi, hs, hp.symm, o1, by omega⟩
    · simp at hp

theorem accessors_stay_inside_witness :
    layout32.WF ∧ AllocOk layout32 (heapAt 4096) ∧
    Validated layout32 (heapAt 4096) ⟨4096, msgMixed⟩ ∧
    CrossCallParamsEx.GetParameterStr layout32 ⟨4096, msgMixed⟩ 0 2 [] =
      some (true, [97, 0, 98]) ∧
    (CrossCallParamsEx.GetParameter32 layout32 ⟨4096, msgMixed⟩ 0 2 7 ≠ none ∧
      CrossCallParamsEx.GetParameterVoidPtr layout32 ⟨4096, msgMixed⟩ 0 2 7 ≠ none ∧
      CrossCallParamsEx.GetParameterStr layout32 ⟨4096, msgMixed⟩ 0 2 [] ≠ none) :=
  ⟨by decide, allocOk_heapAt, validated_msgMixed, by decide,
    (accessors_stay_inside layout32 (by decide) (heapAt 4096) allocOk_heapAt
      ⟨4096, msgMixed⟩ validated_msgMixed 0 2 8 7 9 []).1⟩

/-- C13: `GetRawParameter` returns `NULL` and writes neither `*size` nor
`*type` when the index is at or past the count; otherwise it returns the sum
of the address of the object and `offset_`, as a machine word, with `size_` and
`type_` of the entry of that index.  When the sum does not wrap it is the
exact sum. -/
theorem GetRawParameter_yields (L : Layout) (hL : L.WF) (c : CrossCallParamsEx)
    (index size : Nat) (type : Int) :
    (c.GetParamsCount L ≤ index → c.GetRawParameter L index size type = (0, size, type)) ∧
    (index < c.GetParamsCount L →
      c.GetRawParameter L index size type =
        ((c.backing_mem + c.offset_ L index) % L.wordMod, c.size_ L index,
          c.type_ L index)) ∧
    (index < c.GetParamsCount L → c.backing_mem + c.offset_ L index < L.wordMod →
      c.GetRawParameter L index size type =
        (c.backing_mem + c.offset_ L index, c.size_ L index, c.type_ L index)) := by
  refine ⟨GetRawParameter_out L c index size type, GetRawParameter_in L hL c index size type,
    ?_⟩
  intro hi hlt
  rw [GetRawParameter_in L hL c index size type hi, Nat.mod_eq_of_lt hlt]

theorem GetRawParameter_yields_witness :
    layout32.WF ∧
    CrossCallParamsEx.GetParamsCount layout32 ⟨4096, msgMixed⟩ = 3 ∧
    CrossCallParamsEx.GetRawParameter layout32 ⟨4096, msgMixed⟩ 1 0 0 = (4212, 8, 6) ∧
    CrossCallParamsEx.GetRawParameter layout32 ⟨4096, msgMixed⟩ 3 5 9 = (0, 5, 9) ∧
    ((3 ≤ 1 → CrossCallParamsEx.GetRawParameter layout32 ⟨4096, msgMixed⟩ 1 0 0 = (0, 0, 0)) ∧
      (1 < 3 → CrossCallParamsEx.GetRawParameter layout32 ⟨4096, msgMixed⟩ 1 0 0 =
        ((4096 + 116) % layout32.wordMod, 8, 6)) ∧
      (1 < 3 → 4096 + 116 < layout32.wordMod →
        CrossCallParamsEx.GetRawParameter layout32 ⟨4096, msgMixed⟩ 1 0 0 =
          (4096 + 116, 8, 6))) :=
  ⟨by decide, by decide, by decide, by decide,
    GetRawParameter_yields layout32 (by decide) ⟨4096, msgMixed⟩ 1 0 0⟩

/-- A store that touches no address of the block leaves its bytes alone. -/
theorem pokeBytes_outside (base : Nat) (bytes : List Nat) :
    ∀ (data : List Nat) (addr : Nat),
      (addr + data.length ≤ base ∨ base + bytes.length ≤ addr) →
      pokeBytes base bytes addr data = bytes := by
  intro data
  induction data with
  | nil =>
    intro addr _
    rfl
  | cons b rest ih =>
    intro addr h
    simp only [List.length_cons] at h
    have hno : ¬ (base ≤ addr ∧ addr < base + bytes.length) := by omega
    simp only [pokeBytes, hno, if_false]
    exact ih (addr + 1) (by omega)

/-- A store through a pointer to a variable outside the copy leaves the object alone. -/
theorem store_outside (c : CrossCallParamsEx) (addr : Nat) (data : List Nat)
    (h : c.Outside addr data.length) : c.store addr data = c := by
  unfold CrossCallParamsEx.store
  rw [pokeBytes_outside c.backing_mem c.bytes data addr h]

/-- A value written on `n` bytes takes `n` bytes. -/
theorem toLE_length : ∀ (n v : Nat), (toLE n v).length = n := by
  intro n
  induction n with
  | zero =>
    intro v
    rfl
  | succ n ih =>
    intro v
    simp only [toLE, List.length_cons, ih]

/-- Bytes stored outside the copy, one by one, leave the object alone. -/
theorem storeAll_outside (c : CrossCallParamsEx) :
    ∀ (storage : List (Nat × Nat)), (∀ w, w ∈ storage → c.Outside w.1 1) →
      c.storeAll storage = c := by
  intro storage
  induction storage with
  | nil =>
    intro _
    rfl
  | cons w rest ih =>
    intro h
    have hw : c.store w.1 [w.2] = c :=
      store_outside c w.1 [w.2] (h w (List.mem_cons_self _ _))
    simp only [CrossCallParamsEx.storeAll, hw]
    exact ih (fun x hx => h x (List.mem_cons_of_mem _ hx))

/-- With both pointers outside the copy, `GetRawParameter` in memory returns
what the entry holds and leaves the object alone. -/
theorem GetRawParameterAt_outside (L : Layout) (hL : L.WF) (c : CrossCallParamsEx)
    (index size type : Nat) (hs : c.Outside size L.sizeofVoidPtr)
    (ht : c.Outside type L.typeBytes) :
    c.GetRawParameterAt L index size type =
      (if index ≥ c.GetParamsCount L then (0, none)
        else ((c.offset_ L index + c.backing_mem) % L.wordMod,
          some (c.size_ L index, c.type_ L index)), c) := by
  obtain ⟨_, _, _, _, _, h6⟩ := hL
  have hsz : c.size_ L index < L.wordMod := field_lt c _ _ _ h6
  unfold CrossCallParamsEx.GetRawParameterAt
  by_cases hi : index ≥ c.GetParamsCount L
  · rw [if_pos hi, if_pos hi]
  · rw [if_neg hi, if_neg hi]
    have e1 : c.store size (toLE L.sizeofVoidPtr (c.size_ L index % L.wordMod)) = c :=
      store_outside c size _ (by rw [toLE_length]; exact hs)
    simp only [e1]
    have e2 : c.store type (toLE L.typeBytes
        (c.field (L.paramInfoOffset + index * L.sizeofParamInfo + L.typeOffset)
          L.typeBytes)) = c :=
      store_outside c type _ (by rw [toLE_length]; exact ht)
    simp only [e2, Nat.mod_eq_of_lt hsz]

/-- On a bounded copy, a call whose output variables are outside the copy
reads inside the copy and leaves the object alone. -/
theorem run_apart (L : Layout) (hL : L.WF) (c : CrossCallParamsEx) (hb : Bounded L c)
    (call : AccessorCall) (h : call.Apart L c) : call.run L c = some c := by
  cases call with
  | GetRawParameter index size type =>
    obtain ⟨hs, ht⟩ := h
    simp only [AccessorCall.run, GetRawParameterAt_outside L hL c index size type hs ht]
  | GetParameter32 junk index param =>
    have hp : c.Outside param 4 := h
    simp only [AccessorCall.run, GetParameter32_bounded L hL c hb junk index 0]
    by_cases hc : index < c.GetParamsCount L ∧ c.size_ L index = 4 ∧
        c.type_ L index = L.ULONG_TYPE
    · rw [if_pos hc]
      simp only
      rw [store_outside c param _ (by rw [toLE_length]; exact hp)]
    · rw [if_neg hc]
  | GetParameterVoidPtr junk index param =>
    have hp : c.Outside param L.sizeofVoidPtr := h
    simp only [AccessorCall.run, GetParameterVoidPtr_bounded L hL c hb junk index 0]
    by_cases hc : index < c.GetParamsCount L ∧ c.size_ L index = L.sizeofVoidPtr ∧
        c.type_ L index = L.VOIDPTR_TYPE
    · rw [if_pos hc]
      simp only
      rw [store_outside c param _ (by rw [toLE_length]; exact hp)]
    · rw [if_neg hc]
  | GetParameterStr junk index storage =>
    have hp : ∀ w, w ∈ storage → c.Outside w.1 1 := h
    have hst := storeAll_outside c storage hp
    simp only [AccessorCall.run]
    by_cases hi : index < c.GetParamsCount L
    · rw [GetParameterStr_bounded L hL c hb junk index [] hi]
      by_cases h1 : c.type_ L index ≠ L.WCHAR_TYPE
      · rw [if_pos h1]
      · rw [if_neg h1]
        by_cases h2 : c.size_ L index = 0
        · rw [if_pos h2]
          simp only [hst]
        · rw [if_neg h2]
          by_cases h3 : c.size_ L index % 2 ≠ 0
          · rw [if_pos h3]
          · rw [if_neg h3]
            simp only [hst]
    · rw [GetParameterStr_out L c junk index [] (by omega)]
      by_cases h1 : L.WCHAR_TYPE ≠ junk
      · rw [if_pos h1]
      · rw [if_neg h1]
        simp only [hst]
  | GetParameterPtr junk index expected_size pointer =>
    have hp : c.Outside pointer L.sizeofVoidPtr := h
    simp only [AccessorCall.run, GetParameterPtr_bounded L hL c hb junk index expected_size 0]
    by_cases hc : index < c.GetParamsCount L ∧ c.size_ L index = expected_size ∧
        c.type_ L index = L.INOUTPTR_TYPE
    · rw [if_pos hc]
      simp only
      rw [store_outside c pointer _ (by rw [toLE_length]; exact hp)]
    · rw [if_neg hc]

/-- A sequence of such calls leaves the object alone. -/
theorem runCalls_apart (L : Layout) (hL : L.WF) (c : CrossCallParamsEx) (hb : Bounded L c) :
    ∀ (calls : List AccessorCall), (∀ call, call ∈ calls → call.Apart L c) →
      runCalls L c calls = some c := by
  intro calls
  induction calls with
  | nil =>
    intro _
    rfl
  | cons call rest ih =>
    intro h
    simp only [runCalls, run_apart L hL c hb call (h call (List.mem_cons_self _ _))]
    exact ih (fun x hx => h x (List.mem_cons_of_mem _ hx))

/-- C14: on a validated call, with the output variables of every call outside
the block of the copy, a call of `GetRawParameter` leaves every byte of the
object as it was, so do the accessor calls made after it, whichever they are
and however many, and a second call of `GetRawParameter` with the same index
then returns the address that the first returned and stores the same size and
type, leaving the object as it was.  Below the count the result is
`(backing_mem + offset_, size_, type_)` of the entry; at or past the count both
calls return `NULL` and store nothing. -/
theorem GetRawParameter_repeatable (L : Layout) (hL : L.WF) (new_char : Nat → Nat)
    (hA : AllocOk L new_char) (c : CrossCallParamsEx) (hv : Validated L new_char c)
    (index size1 type1 size2 type2 : Nat) (between : List AccessorCall)
    (h1 : c.Outside size1 L.sizeofVoidPtr ∧ c.Outside type1 L.typeBytes)
    (h2 : c.Outside size2 L.sizeofVoidPtr ∧ c.Outside type2 L.typeBytes)
    (hbetween : ∀ call, call ∈ between → call.Apart L c) :
    (c.GetRawParameterAt L index size1 type1).2 = c ∧
    ∃ c2, runCalls L (c.GetRawParameterAt L index size1 type1).2 between = some c2 ∧
      c2 = c ∧
      (c2.GetRawParameterAt L index size2 type2).1 =
        (c.GetRawParameterAt L index size1 type1).1 ∧
      (c2.GetRawParameterAt L index size2 type2).2 = c ∧
      (index < c.GetParamsCount L →
        (c.GetRawParameterAt L index size1 type1).1 =
          (c.backing_mem + c.offset_ L index, some (c.size_ L index, c.type_ L index))) ∧
      (c.GetParamsCount L ≤ index →
        (c.GetRawParameterAt L index size1 type1).1 = (0, none)) := by
  have hb := validated_bounded L hL new_char hA c hv
  have e1 := GetRawParameterAt_outside L hL c index size1 type1 h1.1 h1.2
  have e2 := GetRawParameterAt_outside L hL c index size2 type2 h2.1 h2.2
  have hrun := runCalls_apart L hL c hb between hbetween
  refine ⟨by rw [e1], c, ?_, rfl, ?_, ?_, ?_, ?_⟩
  · rw [e1]
    exact hrun
  · rw [e1, e2]
  · rw [e2]
  · intro hi
    obtain ⟨hpos, htop, _, _, hent⟩ := hb
    obtain ⟨_, _, _, ho⟩ := hent index hi
    rw [e1]
    simp only [ge_iff_le, if_neg (Nat.not_le.mpr hi)]
    rw [Nat.mod_eq_of_lt (by omega), Nat.add_comm]
  · intro hi
    rw [e1]
    simp only [ge_iff_le, if_pos hi]

theorem GetRawParameter_repeatable_witness :
    layout32.WF ∧ AllocOk layout32 (heapAt 4096) ∧
    Validated layout32 (heapAt 4096) ⟨4096, msgThree⟩ ∧
    (∀ call, call ∈ callsBetween → call.Apart layout32 ⟨4096, msgThree⟩) ∧
    CrossCallParamsEx.GetRawParameterAt layout32 ⟨4096, msgThree⟩ 1 600 608 =
      ((4212, some (4, 1)), ⟨4096, msgThree⟩) ∧
    runCalls layout32 ⟨4096, msgThree⟩ callsBetween = some ⟨4096, msgThree⟩ ∧
    CrossCallParamsEx.GetRawParameterAt layout32 ⟨4096, msgThree⟩ 1 700 708 =
      ((4212, some (4, 1)), ⟨4096, msgThree⟩) ∧
    ∃ c2, runCalls layout32
        (CrossCallParamsEx.GetRawParameterAt layout32 ⟨4096, msgThree⟩ 1 600 608).2
        callsBetween = some c2 ∧
      (c2.GetRawParameterAt layout32 1 700 708).1 =
        (CrossCallParamsEx.GetRawParameterAt layout32 ⟨4096, msgThree⟩ 1 600 608).1 ∧
      (c2.GetRawParameterAt layout32 1 700 708).2 = ⟨4096, msgThree⟩ :=
  have hcalls : ∀ call, call ∈ callsBetween → call.Apart layout32 ⟨4096, msgThree⟩ := by
    intro call hc
    simp only [callsBetween, List.mem_cons, List.mem_singleton, List.not_mem_nil,
      or_false] at hc
    rcases hc with rfl | rfl | rfl | rfl | rfl
    · exact show CrossCallParamsEx.Outside ⟨4096, msgThree⟩ 100 4 by decide
    · intro w hw
      simp only [List.mem_cons, List.mem_singleton, List.not_mem_nil, or_false] at hw
      rcases hw with rfl | rfl | rfl <;> decide
    · exact show CrossCallParamsEx.Outside ⟨4096, msgThree⟩ 300 layout32.sizeofVoidPtr by
        decide
    · exact show CrossCallParamsEx.Outside ⟨4096, msgThree⟩ 400 layout32.sizeofVoidPtr by
        decide
    · exact ⟨by decide, by decide⟩
  ⟨by decide, allocOk_heapAt, validated_msgThree, hcalls, by decide, by decide, by decide,
    (GetRawParameter_repeatable layout32 (by decide) (heapAt 4096) allocOk_heapAt
      ⟨4096, msgThree⟩ validated_msgThree 1 600 608 700 708 callsBetween
      ⟨by decide, by decide⟩ ⟨by decide, by decide⟩ hcalls).2.imp
      (fun _ h => ⟨h.1, h.2.2.1, h.2.2.2.1⟩)⟩

/-- The stores of the accessors are stores into memory: `GetParameter32` called
with an output pointer to the `size_` field of entry 0 of `msgThree`, which is
inside the block, writes the value 42 there, and `GetRawParameter` then reports
size 42 for that entry instead of 4. -/
theorem aliased_output_changes_object :
    CrossCallParamsEx.GetRawParameter layout32 ⟨4096, msgThree⟩ 0 0 0 = (4208, 4, 2) ∧
    ¬ CrossCallParamsEx.Outside ⟨4096, msgThree⟩ 4168 4 ∧
    ((AccessorCall.GetParameter32 0 0 4168).run layout32 ⟨4096, msgThree⟩).map
      (fun c => c.GetRawParameter layout32 0 0 0) = some (4208, 42, 2) := by
  refine ⟨?_, ?_, ?_⟩ <;> decide


/-- C15: on a validated call `GetParameter32` succeeds exactly when the index
is below the count, the type of the entry is `ULONG_TYPE` and its size is 4;
the value it then returns is the little-endian integer of the 4 bytes of the
copy at the offset of the entry, which lie inside the copy; otherwise it
returns `false` and leaves `*param` alone. -/
theorem GetParameter32_succeeds_iff (L : Layout) (hL : L.WF) (new_char : Nat → Nat)
    (hA : AllocOk L new_char) (c : CrossCallParamsEx) (hv : Validated L new_char c)
    (junk : Int) (index param : Nat) :
    ((∃ v, c.GetParameter32 L junk index param = some (true, v)) ↔
      (index < c.GetParamsCount L ∧ c.type_ L index = L.ULONG_TYPE ∧ c.size_ L index = 4)) ∧
    (∀ v, c.GetParameter32 L junk index param = some (true, v) →
      v = readLE ((c.bytes.drop (c.offset_ L index)).take 4) ∧
      c.offset_ L index + 4 ≤ c.bytes.length) ∧
    (¬ (index < c.GetParamsCount L ∧ c.type_ L index = L.ULONG_TYPE ∧ c.size_ L index = 4) →
      c.GetParameter32 L junk index param = some (false, param)) := by
  have hb := validated_bounded L hL new_char hA c hv
  have hchar := GetParameter32_bounded L hL c hb junk index param
  by_cases hc : index < c.GetParamsCount L ∧ c.size_ L index = 4 ∧
      c.type_ L index = L.ULONG_TYPE
  · rw [if_pos hc] at hchar
    obtain ⟨hi, hs, ht⟩ := hc
    obtain ⟨_, _, _, _, hent⟩ := hb
    obtain ⟨_, _, _, ho⟩ := hent index hi
    refine ⟨⟨fun _ => ⟨hi, ht, hs⟩, fun _ => ⟨_, hchar⟩⟩, ?_, fun hn => absurd ⟨hi, ht, hs⟩ hn⟩
    intro v hv'
    rw [hchar] at hv'
    simp only [Option.some.injEq, Prod.mk.injEq, true_and] at hv'
    exact ⟨hv'.symm, by omega⟩
  · rw [if_neg hc] at hchar
    refine ⟨⟨?_, fun h => absurd ⟨h.1, h.2.2, h.2.1⟩ hc⟩, ?_, fun _ => hchar⟩
    · rintro ⟨v, hv'⟩
      rw [hchar] at hv'
      simp at hv'
    · intro v hv'
      rw [hchar] at hv'
      simp at hv'

theorem GetParameter32_succeeds_iff_witness :
    layout32.WF ∧ AllocOk layout32 (heapAt 4096) ∧
    Validated layout32 (heapAt 4096) ⟨4096, msgThree⟩ ∧
    CrossCallParamsEx.GetParameter32 layout32 ⟨4096, msgThree⟩ 0 0 7 = some (true, 42) ∧
    CrossCallParamsEx.GetParameter32 layout32 ⟨4096, msgThree⟩ 0 1 7 = some (false, 7) ∧
    CrossCallParamsEx.GetParameter32 layout32 ⟨4096, msgThree⟩ 2 3 7 = some (false, 7) ∧
    ((∃ v, CrossCallParamsEx.GetParameter32 layout32 ⟨4096, msgThree⟩ 0 0 7 = some (true, v)) ↔
      (0 < CrossCallParamsEx.GetParamsCount layout32 ⟨4096, msgThree⟩ ∧
        CrossCallParamsEx.type_ layout32 ⟨4096, msgThree⟩ 0 = layout32.ULONG_TYPE ∧
        CrossCallParamsEx.size_ layout32 ⟨4096, msgThree⟩ 0 = 4)) :=
  ⟨by decide, allocOk_heapAt, validated_msgThree, by decide, by decide, by decide,
    (GetParameter32_succeeds_iff layout32 (by decide) (heapAt 4096) allocOk_heapAt
      ⟨4096, msgThree⟩ validated_msgThree 0 0 7).1⟩

/-- C16: on a validated call `GetParameterVoidPtr` succeeds exactly when the
index is below the count, the type of the entry is `VOIDPTR_TYPE` and its size
is `sizeof(void*)`; the value it then returns is the word formed by the
`sizeof(void*)` bytes of the copy at the offset of the entry; otherwise it
returns `false` and leaves `*param` alone. -/
theorem GetParameterVoidPtr_succeeds_iff (L : Layout) (hL : L.WF) (new_char : Nat → Nat)
    (hA : AllocOk L new_char) (c : CrossCallParamsEx) (hv : Validated L new_char c)
    (junk : Int) (index param : Nat) :
    ((∃ v, c.GetParameterVoidPtr L junk index param = some (true, v)) ↔
      (index < c.GetParamsCount L ∧ c.type_ L index = L.VOIDPTR_TYPE ∧
        c.size_ L index = L.sizeofVoidPtr)) ∧
    (∀ v, c.GetParameterVoidPtr L junk index param = some (true, v) →
      v = readLE ((c.bytes.drop (c.offset_ L index)).take L.sizeofVoidPtr) ∧
      c.offset_ L index + L.sizeofVoidPtr ≤ c.bytes.length) ∧
    (¬ (index < c.GetParamsCount L ∧ c.type_ L index = L.VOIDPTR_TYPE ∧
        c.size_ L index = L.sizeofVoidPtr) →
      c.GetParameterVoidPtr L junk index param = some (false, param)) := by
  have hb := validated_bounded L hL new_char hA c hv
  have hchar := GetParameterVoidPtr_bounded L hL c hb junk index param
  by_cases hc : index < c.GetParamsCount L ∧ c.size_ L index = L.sizeofVoidPtr ∧
      c.type_ L index = L.VOIDPTR_TYPE
  · rw [if_pos hc] at hchar
    obtain ⟨hi, hs, ht⟩ := hc
    obtain ⟨_, _, _, _, hent⟩ := hb
    obtain ⟨_, _, _, ho⟩ := hent index hi
    refine ⟨⟨fun _ => ⟨hi, ht, hs⟩, fun _ => ⟨_, hchar⟩⟩, ?_, fun hn => absurd ⟨hi, ht, hs⟩ hn⟩
    intro v hv'
    rw [hchar] at hv'
    simp only [Option.some.injEq, Prod.mk.injEq, true_and] at hv'
    exact ⟨hv'.symm, by omega⟩
  · rw [if_neg hc] at hchar
    refine ⟨⟨?_, fun h => absurd ⟨h.1, h.2.2, h.2.1⟩ hc⟩, ?_, fun _ => hchar⟩
    · rintro ⟨v, hv'⟩
      rw [hchar] at hv'
      simp at hv'
    · intro v hv'
      rw [hchar] at hv'
      simp at hv'

theorem GetParameterVoidPtr_succeeds_iff_witness :
    layout32.WF ∧ AllocOk layout32 (heapAt 4096) ∧
    Validated layout32 (heapAt 4096) ⟨4096, msgThree⟩ ∧
    layout32.sizeofVoidPtr = 4 ∧
    CrossCallParamsEx.GetParameterVoidPtr layout32 ⟨4096, msgThree⟩ 0 2 7 =
      some (true, 3735928559) ∧
    CrossCallParamsEx.GetParameterVoidPtr layout32 ⟨4096, msgThree⟩ 0 0 7 = some (false, 7) ∧
    CrossCallParamsEx.GetParameterVoidPtr layout32 ⟨4096, msgThree⟩ 4 3 7 = some (false, 7) ∧
    ((∃ v, CrossCallParamsEx.GetParameterVoidPtr layout32 ⟨4096, msgThree⟩ 0 2 7 =
        some (true, v)) ↔
      (2 < CrossCallParamsEx.GetParamsCount layout32 ⟨4096, msgThree⟩ ∧
        CrossCallParamsEx.type_ layout32 ⟨4096, msgThree⟩ 2 = layout32.VOIDPTR_TYPE ∧
        CrossCallParamsEx.size_ layout32 ⟨4096, msgThree⟩ 2 = layout32.sizeofVoidPtr)) :=
  ⟨by decide, allocOk_heapAt, validated_msgThree, by decide, by decide, by decide, by decide,
    (GetParameterVoidPtr_succeeds_iff layout32 (by decide) (heapAt 4096) allocOk_heapAt
      ⟨4096, msgThree⟩ validated_msgThree 0 2 7).1⟩

/-- C17: on a validated call and an index below the count, `GetParameterStr`
succeeds exactly when the type of the entry is `WCHAR_TYPE` and its size is a
multiple of 2; size 0 succeeds with the empty string, a `WCHAR_TYPE` entry of
odd size fails and an entry of another type fails. -/
theorem GetParameterStr_succeeds_iff (L : Layout) (hL : L.WF) (new_char : Nat → Nat)
    (hA : AllocOk L new_char) (c : CrossCallParamsEx) (hv : Validated L new_char c)
    (junk : Int) (index : Nat) (string : List Nat) (hi : index < c.GetParamsCount L) :
    ((∃ s, c.GetParameterStr L junk index string = some (true, s)) ↔
      (c.type_ L index = L.WCHAR_TYPE ∧ c.size_ L index % 2 = 0)) ∧
    (c.type_ L index = L.WCHAR_TYPE → c.size_ L index = 0 →
      c.GetParameterStr L junk index string = some (true, [])) ∧
    (c.type_ L index = L.WCHAR_TYPE → c.size_ L index % 2 = 1 →
      c.GetParameterStr L junk index string = some (false, string)) ∧
    (c.type_ L index ≠ L.WCHAR_TYPE →
      c.GetParameterStr L junk index string = some (false, string)) := by
  have hb := validated_bounded L hL new_char hA c hv
  have hchar := GetParameterStr_bounded L hL c hb junk index string hi
  by_cases ht : c.type_ L index = L.WCHAR_TYPE
  · rw [if_neg (fun h => h ht)] at hchar
    by_cases hz : c.size_ L index = 0
    · rw [if_pos hz] at hchar
      refine ⟨⟨fun _ => ⟨ht, by omega⟩, fun _ => ⟨_, hchar⟩⟩, fun _ _ => hchar,
        fun _ h1 => by omega, fun h => absurd ht h⟩
    · rw [if_neg hz] at hchar
      by_cases hev : c.size_ L index % 2 = 0
      · rw [if_neg (fun h => h hev)] at hchar
        refine ⟨⟨fun _ => ⟨ht, hev⟩, fun _ => ⟨_, hchar⟩⟩, fun _ h0 => absurd h0 hz,
          fun _ h1 => by omega, fun h => absurd ht h⟩
      · rw [if_pos hev] at hchar
        refine ⟨⟨?_, fun h => absurd h.2 hev⟩, fun _ h0 => absurd h0 hz, fun _ _ => hchar,
          fun h => absurd ht h⟩
        rintro ⟨s, hs⟩
        rw [hchar] at hs
        simp at hs
  · rw [if_pos ht] at hchar
    refine ⟨⟨?_, fun h => absurd h.1 ht⟩, fun h _ => absurd h ht, fun h _ => absurd h ht,
      fun _ => hchar⟩
    rintro ⟨s, hs⟩
    rw [hchar] at hs
    simp at hs

theorem GetParameterStr_succeeds_iff_witness :
    layout32.WF ∧ AllocOk layout32 (heapAt 4096) ∧
    Validated layout32 (heapAt 4096) ⟨4096, msgMixed⟩ ∧
    (0 < CrossCallParamsEx.GetParamsCount layout32 ⟨4096, msgMixed⟩ ∧
      CrossCallParamsEx.type_ layout32 ⟨4096, msgMixed⟩ 0 = layout32.WCHAR_TYPE ∧
      CrossCallParamsEx.size_ layout32 ⟨4096, msgMixed⟩ 0 = 3 ∧
      CrossCallParamsEx.GetParameterStr layout32 ⟨4096, msgMixed⟩ 0 0 [120] =
        some (false, [120])) ∧
    (CrossCallParamsEx.type_ layout32 ⟨4096, msgMixed⟩ 1 = layout32.INOUTPTR_TYPE ∧
      CrossCallParamsEx.GetParameterStr layout32 ⟨4096, msgMixed⟩ 0 1 [120] =
        some (false, [120])) ∧
    (CrossCallParamsEx.size_ layout32 ⟨4096, msgMixed⟩ 2 = 6 ∧
      CrossCallParamsEx.GetParameterStr layout32 ⟨4096, msgMixed⟩ 0 2 [] =
        some (true, [97, 0, 98])) ∧
    ((∃ s, CrossCallParamsEx.GetParameterStr layout32 ⟨4096, msgMixed⟩ 0 2 [] =
        some (true, s)) ↔
      (CrossCallParamsEx.type_ layout32 ⟨4096, msgMixed⟩ 2 = layout32.WCHAR_TYPE ∧
        CrossCallParamsEx.size_ layout32 ⟨4096, msgMixed⟩ 2 % 2 = 0)) :=
  ⟨by decide, allocOk_heapAt, validated_msgMixed, by decide, by decide, by decide,
    (GetParameterStr_succeeds_iff layout32 (by decide) (heapAt 4096) allocOk_heapAt
      ⟨4096, msgMixed⟩ validated_msgMixed 0 2 [] (by decide)).1⟩


/-- C18: on a validated call, for an index below the count whose entry has
type `WCHAR_TYPE` and an even size, `GetParameterStr` called on an empty string
succeeds and leaves a string of exactly `size / 2` code units, the ones stored
in the copy at the offset of the entry, which lie inside the copy: the empty
string when the size is 0, and in general the code unit of index `k` is made of
the bytes at `offset + 2 * k` and `offset + 2 * k + 1`, low byte first, whatever
their values, zero included, so nothing is scanned and nothing is cut. -/
theorem GetParameterStr_exact_content (L : Layout) (hL : L.WF) (new_char : Nat → Nat)
    (hA : AllocOk L new_char) (c : CrossCallParamsEx) (hv : Validated L new_char c)
    (junk : Int) (index : Nat) (hi : index < c.GetParamsCount L)
    (ht : c.type_ L index = L.WCHAR_TYPE) (hs : c.size_ L index % 2 = 0) :
    ∃ units, c.GetParameterStr L junk index [] = some (true, units) ∧
      units.length = c.size_ L index / 2 ∧
      units = wchars ((c.bytes.drop (c.offset_ L index)).take (c.size_ L index)) ∧
      (c.size_ L index = 0 → units = []) ∧
      c.offset_ L index + c.size_ L index ≤ c.bytes.length ∧
      ∀ k, k < c.size_ L index / 2 →
        ∃ b0 b1, c.bytes[c.offset_ L index + 2 * k]? = some b0 ∧
          c.bytes[c.offset_ L index + 2 * k + 1]? = some b1 ∧
          units[k]? = some (b0 % 256 + 256 * (b1 % 256)) := by
  have hb := validated_bounded L hL new_char hA c hv
  have hchar := GetParameterStr_bounded L hL c hb junk index [] hi
  obtain ⟨_, _, _, _, hent⟩ := hb
  obtain ⟨_, _, _, ho⟩ := hent index hi
  have hlen : ((c.bytes.drop (c.offset_ L index)).take (c.size_ L index)).length =
      2 * (c.size_ L index / 2) := by
    rw [List.length_take, List.length_drop]
    omega
  have hunits := wchars_length _ _ hlen
  refine ⟨wchars ((c.bytes.drop (c.offset_ L index)).take (c.size_ L index)), ?_, hunits,
    rfl, ?_, ho, ?_⟩
  · rw [hchar, if_neg (fun h => h ht)]
    by_cases hz : c.size_ L index = 0
    · rw [if_pos hz, hz]
      rfl
    · rw [if_neg hz, if_neg (fun h => h hs), List.nil_append]
  · intro hz
    rw [hz]
    rfl
  · intro k hk
    obtain ⟨b0, b1, h0, h1, hw⟩ := wchars_get k
      ((c.bytes.drop (c.offset_ L index)).take (c.size_ L index)) (by rw [hlen]; omega)
    refine ⟨b0, b1, ?_, ?_, hw⟩
    · rw [List.getElem?_take_of_lt (by omega), List.getElem?_drop] at h0
      exact h0
    · rw [List.getElem?_take_of_lt (by omega), List.getElem?_drop] at h1
      rw [← h1]
      congr 1

theorem GetParameterStr_exact_content_witness :
    layout32.WF ∧ AllocOk layout32 (heapAt 4096) ∧
    Validated layout32 (heapAt 4096) ⟨4096, msgMixed⟩ ∧
    CrossCallParamsEx.type_ layout32 ⟨4096, msgMixed⟩ 2 = layout32.WCHAR_TYPE ∧
    CrossCallParamsEx.size_ layout32 ⟨4096, msgMixed⟩ 2 = 6 ∧
    CrossCallParamsEx.GetParameterStr layout32 ⟨4096, msgMixed⟩ 0 2 [] =
      some (true, [97, 0, 98]) ∧
    ∃ units, CrossCallParamsEx.GetParameterStr layout32 ⟨4096, msgMixed⟩ 0 2 [] =
        some (true, units) ∧
      units.length = CrossCallParamsEx.size_ layout32 ⟨4096, msgMixed⟩ 2 / 2 :=
  ⟨by decide, allocOk_heapAt, validated_msgMixed, by decide, by decide, by decide,
    (GetParameterStr_exact_content layout32 (by decide) (heapAt 4096) allocOk_heapAt
      ⟨4096, msgMixed⟩ validated_msgMixed 0 2 (by decide) (by decide) (by decide)).imp
      (fun _ h => ⟨h.1, h.2.1⟩)⟩

/-- C19 fails on the code: on the validated `msgThree`, whose count is 3,
`GetRawParameter` at index 3 returns `NULL` and leaves `type` as it was; when
that uninitialised local holds `WCHAR_TYPE`, `GetParameterStr` at index 3
returns `true` and sets the string to empty, where `GetParameter32` in the
same situation returns `false`. -/
theorem GetParameterStr_out_of_range_succeeds :
    Validated layout32 (heapAt 4096) ⟨4096, msgThree⟩ ∧
    CrossCallParamsEx.GetParamsCount layout32 ⟨4096, msgThree⟩ = 3 ∧
    CrossCallParamsEx.GetRawParameter layout32 ⟨4096, msgThree⟩ 3 0 layout32.WCHAR_TYPE =
      (0, 0, layout32.WCHAR_TYPE) ∧
    CrossCallParamsEx.GetParameterStr layout32 ⟨4096, msgThree⟩ layout32.WCHAR_TYPE 3 [120] =
      some (true, []) ∧
    CrossCallParamsEx.GetParameter32 layout32 ⟨4096, msgThree⟩ layout32.ULONG_TYPE 3 7 =
      some (false, 7) :=
  ⟨validated_msgThree, by decide, by decide, by decide, by decide⟩


/-- C20: on a validated call `GetParameterPtr` succeeds exactly when the
index is below the count, the type of the entry is `INOUTPTR_TYPE` and its size
is `expected_size`; the pointer it then returns is `backing_mem + offset_`, the
address `GetRawParameter` returns for that index; when it fails `*pointer`
keeps its value. -/
theorem GetParameterPtr_succeeds_iff (L : Layout) (hL : L.WF) (new_char : Nat → Nat)
    (hA : AllocOk L new_char) (c : CrossCallParamsEx) (hv : Validated L new_char c)
    (junk : Int) (index expected_size pointer : Nat) :
    ((c.GetParameterPtr L junk index expected_size pointer).1 = true ↔
      (index < c.GetParamsCount L ∧ c.type_ L index = L.INOUTPTR_TYPE ∧
        c.size_ L index = expected_size)) ∧
    ((c.GetParameterPtr L junk index expected_size pointer).1 = true →
      (c.GetParameterPtr L junk index expected_size pointer).2 =
        c.backing_mem + c.offset_ L index ∧
      ∀ (size : Nat) (type : Int),
        (c.GetParameterPtr L junk index expected_size pointer).2 =
          (c.GetRawParameter L index size type).1) ∧
    ((c.GetParameterPtr L junk index expected_size pointer).1 = false →
      (c.GetParameterPtr L junk index expected_size pointer).2 = pointer) := by
  have hb := validated_bounded L hL new_char hA c hv
  have hchar := GetParameterPtr_bounded L hL c hb junk index expected_size pointer
  by_cases hc : index < c.GetParamsCount L ∧ c.size_ L index = expected_size ∧
      c.type_ L index = L.INOUTPTR_TYPE
  · rw [if_pos hc] at hchar
    obtain ⟨hi, hs, ht⟩ := hc
    rw [hchar]
    refine ⟨⟨fun _ => ⟨hi, ht, hs⟩, fun _ => rfl⟩, fun _ => ⟨rfl, ?_⟩, ?_⟩
    · intro size type
      rw [(GetRawParameter_bounded L hL c hb index size type hi).1]
    · intro h
      simp at h
  · rw [if_neg hc] at hchar
    rw [hchar]
    refine ⟨⟨?_, fun h => absurd ⟨h.1, h.2.2, h.2.1⟩ hc⟩, ?_, fun _ => rfl⟩
    · intro h
      simp at h
    · intro h
      simp at h

theorem GetParameterPtr_succeeds_iff_witness :
    layout32.WF ∧ AllocOk layout32 (heapAt 4096) ∧
    Validated layout32 (heapAt 4096) ⟨4096, msgMixed⟩ ∧
    CrossCallParamsEx.GetParameterPtr layout32 ⟨4096, msgMixed⟩ 0 1 8 9 = (true, 4212) ∧
    CrossCallParamsEx.GetParameterPtr layout32 ⟨4096, msgMixed⟩ 0 1 7 9 = (false, 9) ∧
    CrossCallParamsEx.GetParameterPtr layout32 ⟨4096, msgMixed⟩ 0 0 3 9 = (false, 9) ∧
    CrossCallParamsEx.GetParameterPtr layout32 ⟨4096, msgMixed⟩ 6 3 0 9 = (false, 9) ∧
    ((CrossCallParamsEx.GetParameterPtr layout32 ⟨4096, msgMixed⟩ 0 1 8 9).1 = true ↔
      (1 < CrossCallParamsEx.GetParamsCount layout32 ⟨4096, msgMixed⟩ ∧
        CrossCallParamsEx.type_ layout32 ⟨4096, msgMixed⟩ 1 = layout32.INOUTPTR_TYPE ∧
        CrossCallParamsEx.size_ layout32 ⟨4096, msgMixed⟩ 1 = 8)) :=
  ⟨by decide, allocOk_heapAt, validated_msgMixed, by decide, by decide, by decide, by decide,
    (GetParameterPtr_succeeds_iff layout32 (by decide) (heapAt 4096) allocOk_heapAt
      ⟨4096, msgMixed⟩ validated_msgMixed 0 1 8 9).1⟩

/-! ## Lemmas on the dispatcher -/

/-- The scan finds a match exactly when some entry matches. -/
theorem scan_fst {σ κ : Type} (Matches : σ → σ → Bool) (ipc : σ) (callback : κ) :
    ∀ (calls : List (IPCCall σ κ)),
      (Dispatcher.OnMessageReady.scan Matches ipc callback calls).1 = false ↔
        ∀ e, e ∈ calls → Matches e.params ipc = false := by
  intro calls
  induction calls with
  | nil => simp [Dispatcher.OnMessageReady.scan]
  | cons it rest ih =>
    simp only [Dispatcher.OnMessageReady.scan]
    cases hm : Matches it.params ipc with
    | true =>
      simp only [if_true, Bool.true_eq_false, false_iff, not_forall]
      exact ⟨it, List.mem_cons_self _ _, by simp [hm]⟩
    | false =>
      simp only [Bool.false_eq_true, if_false, ih, List.mem_cons, forall_eq_or_imp, hm,
        true_and]

/-- Without a match the scan leaves `*callback` alone. -/
theorem scan_keeps {σ κ : Type} (Matches : σ → σ → Bool) (ipc : σ) (callback : κ) :
    ∀ (calls : List (IPCCall σ κ)),
      (Dispatcher.OnMessageReady.scan Matches ipc callback calls).1 = false →
        Dispatcher.OnMessageReady.scan Matches ipc callback calls = (false, callback) := by
  intro calls
  induction calls with
  | nil =>
    intro _
    rfl
  | cons it rest ih =>
    simp only [Dispatcher.OnMessageReady.scan]
    cases hm : Matches it.params ipc with
    | true => simp
    | false =>
      simp only [Bool.false_eq_true, if_false]
      exact ih

/-- The scan stops at the entry of least index that matches. -/
theorem scan_first {σ κ : Type} (Matches : σ → σ → Bool) (ipc : σ) (callback : κ) :
    ∀ (calls : List (IPCCall σ κ)) (i : Nat) (hi : i < calls.length),
      Matches (calls.get ⟨i, hi⟩).params ipc = true →
      (∀ (j : Nat) (hj : j < calls.length), j < i →
        Matches (calls.get ⟨j, hj⟩).params ipc = false) →
      Dispatcher.OnMessageReady.scan Matches ipc callback calls =
        (true, (calls.get ⟨i, hi⟩).callback) := by
  intro calls
  induction calls with
  | nil =>
    intro i hi
    simp at hi
  | cons it rest ih =>
    intro i hi hm hbefore
    cases i with
    | zero =>
      simp only [List.get_eq_getElem, List.getElem_cons_zero] at hm
      simp only [Dispatcher.OnMessageReady.scan, hm, if_true, List.get_eq_getElem,
        List.getElem_cons_zero]
    | succ k =>
      have h0 := hbefore 0 (by simp) (by omega)
      simp only [List.get_eq_getElem, List.getElem_cons_zero] at h0
      simp only [List.get_eq_getElem, List.getElem_cons_succ] at hm
      have hk : k < rest.length := by
        simp only [List.length_cons] at hi
        omega
      have hrec := ih k hk (by simpa using hm) (by
        intro j hj hjk
        have := hbefore (j + 1) (by simp only [List.length_cons]; omega) (by omega)
        simpa using this)
      simp only [Dispatcher.OnMessageReady.scan, h0, Bool.false_eq_true, if_false, hrec,
        List.get_eq_getElem, List.getElem_cons_succ]

/-- A list with a matching entry has a matching entry of least index. -/
theorem exists_first_match {σ κ : Type} (Matches : σ → σ → Bool) (ipc : σ) :
    ∀ (calls : List (IPCCall σ κ)), (∃ e, e ∈ calls ∧ Matches e.params ipc = true) →
      ∃ (i : Nat) (hi : i < calls.length),
        Matches (calls.get ⟨i, hi⟩).params ipc = true ∧
        ∀ (j : Nat) (hj : j < calls.length), j < i →
          Matches (calls.get ⟨j, hj⟩).params ipc = false := by
  intro calls
  induction calls with
  | nil =>
    rintro ⟨e, he, _⟩
    simp at he
  | cons it rest ih =>
    rintro ⟨e, he, hm⟩
    cases h0 : Matches it.params ipc with
    | true =>
      refine ⟨0, by simp, by simpa using h0, ?_⟩
      intro j _ hj
      omega
    | false =>
      have hrest : ∃ e, e ∈ rest ∧ Matches e.params ipc = true := by
        rcases List.mem_cons.mp he with rfl | hin
        · rw [h0] at hm
          simp at hm
        · exact ⟨e, hin, hm⟩
      obtain ⟨i, hi, hmi, hbefore⟩ := ih hrest
      refine ⟨i + 1, by simp only [List.length_cons]; omega, by simpa using hmi, ?_⟩
      intro j hj hji
      cases j with
      | zero => simpa using h0
      | succ k =>
        have := hbefore k (by simp only [List.length_cons] at hj; omega) (by omega)
        simpa using this

/-! ## Properties of the outcome writer and of the dispatcher -/

/-- C21: for every result code and every return structure, `SetCallError`
leaves `call_outcome` equal to the code and `extended_count` equal to 0; the
members it does not name keep their values. -/
theorem SetCallError_writes {ρ : Type} (error : Int) (call_return : CrossCallReturn ρ) :
    (SetCallError error call_return).call_outcome = error ∧
    (SetCallError error call_return).extended_count = 0 ∧
    (SetCallError error call_return).other = call_return.other := by
  refine ⟨?_, ?_, ?_⟩ <;> simp only [SetCallError]

/-- C22: for every return structure, `SetCallSuccess` sets `call_outcome` to
`SBOX_ALL_OK` and leaves `extended_count` and every other member as they were. -/
theorem SetCallSuccess_frame {ρ : Type} (SBOX_ALL_OK : Int) (call_return : CrossCallReturn ρ) :
    (SetCallSuccess SBOX_ALL_OK call_return).call_outcome = SBOX_ALL_OK ∧
    (SetCallSuccess SBOX_ALL_OK call_return).extended_count = call_return.extended_count ∧
    (SetCallSuccess SBOX_ALL_OK call_return).other = call_return.other := by
  refine ⟨?_, ?_, ?_⟩ <;> simp only [SetCallSuccess]

/-- C23: the outcome writers are idempotent and the last writer wins:
`SetCallError` with a code applied twice is `SetCallError` with that code
applied once, `SetCallSuccess` applied twice is `SetCallSuccess` applied once,
and `SetCallError` with `c2` after `SetCallError` with `c1` is `SetCallError`
with `c2` alone. -/
theorem outcome_writer_idempotent {ρ : Type} (SBOX_ALL_OK c c1 c2 : Int)
    (call_return : CrossCallReturn ρ) :
    SetCallError c (SetCallError c call_return) = SetCallError c call_return ∧
    SetCallSuccess SBOX_ALL_OK (SetCallSuccess SBOX_ALL_OK call_return) =
      SetCallSuccess SBOX_ALL_OK call_return ∧
    SetCallError c2 (SetCallError c1 call_return) = SetCallError c2 call_return := by
  cases call_return
  refine ⟨?_, ?_, ?_⟩ <;> simp only [SetCallError, SetCallSuccess]


/-- C24: when some entry of the table has a signature that matches the call,
`OnMessageReady` returns `this` and stores in `*callback` the handler of the
matching entry of least index, the first in registration order. -/
theorem OnMessageReady_first_match {σ κ : Type} (Matches : σ → σ → Bool)
    (this : Dispatcher σ κ) (ipc : σ) (callback : κ)
    (h : ∃ e, e ∈ this.ipc_calls_ ∧ Matches e.params ipc = true) :
    ∃ (i : Nat) (hi : i < this.ipc_calls_.length),
      Matches (this.ipc_calls_.get ⟨i, hi⟩).params ipc = true ∧
      (∀ (j : Nat) (hj : j < this.ipc_calls_.length), j < i →
        Matches (this.ipc_calls_.get ⟨j, hj⟩).params ipc = false) ∧
      this.OnMessageReady Matches ipc callback =
        (some this, (this.ipc_calls_.get ⟨i, hi⟩).callback) := by
  obtain ⟨i, hi, hm, hbefore⟩ := exists_first_match Matches ipc this.ipc_calls_ h
  refine ⟨i, hi, hm, hbefore, ?_⟩
  unfold Dispatcher.OnMessageReady
  rw [scan_first Matches ipc callback this.ipc_calls_ i hi hm hbefore]

theorem OnMessageReady_first_match_witness :
    (∃ e, e ∈ tableTwo.ipc_calls_ ∧ sameTag e.params 9 = true) ∧
    sameTag 7 9 = false ∧
    tableTwo.OnMessageReady sameTag 9 0 = (some tableTwo, 200) ∧
    tableTwice.OnMessageReady sameTag 9 0 = (some tableTwice, 200) ∧
    ∃ (i : Nat) (hi : i < tableTwo.ipc_calls_.length),
      sameTag (tableTwo.ipc_calls_.get ⟨i, hi⟩).params 9 = true ∧
      (∀ (j : Nat) (hj : j < tableTwo.ipc_calls_.length), j < i →
        sameTag (tableTwo.ipc_calls_.get ⟨j, hj⟩).params 9 = false) ∧
      tableTwo.OnMessageReady sameTag 9 0 =
        (some tableTwo, (tableTwo.ipc_calls_.get ⟨i, hi⟩).callback) :=
  ⟨⟨⟨9, 200⟩, by decide, by decide⟩, by decide, by decide, by decide,
    OnMessageReady_first_match sameTag tableTwo 9 0 ⟨⟨9, 200⟩, by decide, by decide⟩⟩

/-- C25: `OnMessageReady` returns `NULL` exactly when no entry of the table
has a signature that matches the call; it then leaves `*callback` alone; on
the empty table it returns `NULL`. -/
theorem OnMessageReady_none_iff {σ κ : Type} (Matches : σ → σ → Bool)
    (this : Dispatcher σ κ) (ipc : σ) (callback : κ) :
    ((this.OnMessageReady Matches ipc callback).1 = none ↔
      ∀ e, e ∈ this.ipc_calls_ → Matches e.params ipc = false) ∧
    ((this.OnMessageReady Matches ipc callback).1 = none →
      (this.OnMessageReady Matches ipc callback).2 = callback) ∧
    (Dispatcher.OnMessageReady Matches (⟨[]⟩ : Dispatcher σ κ) ipc callback).1 = none := by
  have hiff := scan_fst Matches ipc callback this.ipc_calls_
  have hkeep := scan_keeps Matches ipc callback this.ipc_calls_
  refine ⟨?_, ?_, rfl⟩
  · rw [← hiff]
    unfold Dispatcher.OnMessageReady
    cases hs : Dispatcher.OnMessageReady.scan Matches ipc callback this.ipc_calls_ with
    | mk found cb =>
      cases found <;> simp
  · unfold Dispatcher.OnMessageReady
    cases hs : Dispatcher.OnMessageReady.scan Matches ipc callback this.ipc_calls_ with
    | mk found cb =>
      cases found with
      | true => simp
      | false =>
        intro _
        have := hkeep (by rw [hs])
        rw [hs] at this
        simp only [Prod.mk.injEq, true_and] at this
        exact this

theorem OnMessageReady_none_iff_witness :
    tableTwo.OnMessageReady sameTag 8 5 = (none, 5) ∧
    ((tableTwo.OnMessageReady sameTag 8 5).1 = none ↔
      ∀ e, e ∈ tableTwo.ipc_calls_ → sameTag e.params 8 = false) :=
  ⟨by decide, (OnMessageReady_none_iff sameTag tableTwo 8 5).1⟩

/-! ## Faults, the size reader, the per-parameter test and `*output_size` -/

/-- The reads of `GetActualBufferSize` do not change the heap. -/
theorem foldl_touched (L : Layout) (param_count : Nat) (heap : List Nat) :
    (GetActualBufferSize.touched L param_count).foldl Event.step heap = heap := by
  unfold GetActualBufferSize.touched
  split <;> rfl

/-- A call that returns `NULL` leaves no block allocated, and a call that
returns a copy leaves exactly the block of the copy. -/
theorem liveBlocks_CreateFromBuffer (L : Layout) (new_char : Nat → Nat) (junk : Int)
    (buffer_base : Option RawBuffer) (buffer_size output_size : Nat) :
    ((CreateFromBuffer L new_char junk buffer_base buffer_size output_size).ret = none →
      liveBlocks (CreateFromBuffer L new_char junk buffer_base buffer_size
        output_size).trace = []) ∧
    (∀ c, (CreateFromBuffer L new_char junk buffer_base buffer_size output_size).ret =
        some c →
      liveBlocks (CreateFromBuffer L new_char junk buffer_base buffer_size
        output_size).trace = [c.backing_mem]) := by
  have hfree : ∀ (pc a d : Nat),
      liveBlocks ([Event.read L.countOffset L.countBytes] ++
        GetActualBufferSize.touched L pc ++ [Event.alloc a d, Event.copy d] ++
        [Event.free a]) = [] := by
    intro pc a d
    simp [liveBlocks, List.foldl_append, foldl_touched, Event.step]
  have hkeep : ∀ (pc a d : Nat),
      liveBlocks ([Event.read L.countOffset L.countBytes] ++
        GetActualBufferSize.touched L pc ++ [Event.alloc a d, Event.copy d]) = [a] := by
    intro pc a d
    simp [liveBlocks, List.foldl_append, foldl_touched, Event.step]
  have hreads : ∀ (pc : Nat),
      liveBlocks ([Event.read L.countOffset L.countBytes] ++
        GetActualBufferSize.touched L pc) = [] := by
    intro pc
    simp [liveBlocks, List.foldl_append, foldl_touched, Event.step]
  unfold CreateFromBuffer
  split
  · simp [liveBlocks]
  split
  · simp [liveBlocks]
  split
  · simp [liveBlocks]
  split
  · simp [liveBlocks, Event.step]
  simp only
  split
  · simp [liveBlocks, Event.step]
  split
  · simp only [hreads, implies_true, reduceCtorEq, false_implies, and_self]
  split
  · simp only [hreads, implies_true, reduceCtorEq, false_implies, and_self]
  split
  · simp only [hfree, implies_true, reduceCtorEq, false_implies, and_self]
  split
  · simp only [hfree, implies_true, reduceCtorEq, false_implies, and_self]
  split
  · simp only [hkeep, reduceCtorEq, false_implies, Option.some.injEq, true_and]
    intro c hc
    rw [← hc]
  · simp only [hfree, implies_true, reduceCtorEq, false_implies, and_self]

/-- C26: when touching the untrusted buffer faults, at the read of the
parameter count, at the read of the declared size, or during the copy of
`declared_size` bytes of which some are not mapped, `CreateFromBuffer` returns
`NULL` and leaves no block allocated. -/
theorem CreateFromBuffer_contains_fault (L : Layout) (new_char : Nat → Nat) (junk : Int)
    (raw : RawBuffer) (buffer_size output_size : Nat)
    (hfault : CrossCallParams.GetParamsCount L raw.atCount = none ∨
      (∃ param_count, CrossCallParams.GetParamsCount L raw.atCount = some param_count ∧
        GetActualBufferSize L param_count raw.atSize = none) ∨
      (∃ param_count declared_size,
        CrossCallParams.GetParamsCount L raw.atCount = some param_count ∧
        GetActualBufferSize L param_count raw.atSize = some declared_size ∧
        peek raw.atCopy 0 declared_size = none)) :
    (CreateFromBuffer L new_char junk (some raw) buffer_size output_size).ret = none ∧
    liveBlocks (CreateFromBuffer L new_char junk (some raw) buffer_size output_size).trace =
      [] := by
  have hret : (CreateFromBuffer L new_char junk (some raw) buffer_size output_size).ret =
      none := by
    cases hr : (CreateFromBuffer L new_char junk (some raw) buffer_size output_size).ret with
    | none => rfl
    | some c =>
      exfalso
      obtain ⟨raw', pc, d, hraw, hp⟩ :=
        CreateFromBuffer_accept_inv L new_char junk (some raw) buffer_size output_size c hr
      simp only [Option.some.injEq] at hraw
      subst hraw
      obtain ⟨_, _, h3, _, _, h6, _, _, h9, _⟩ := hp
      rcases hfault with h | ⟨pc', h1, h2⟩ | ⟨pc', d', h1, h2, h3'⟩
      · rw [h] at h3
        simp at h3
      · rw [h1, Option.some.injEq] at h3
        subst h3
        rw [h2] at h6
        simp at h6
      · rw [h1, Option.some.injEq] at h3
        subst h3
        rw [h2, Option.some.injEq] at h6
        subst h6
        rw [h3'] at h9
        simp at h9
  exact ⟨hret, (liveBlocks_CreateFromBuffer L new_char junk (some raw) buffer_size
    output_size).1 hret⟩

theorem CreateFromBuffer_contains_fault_witness :
    (CrossCallParams.GetParamsCount layout32 (RawBuffer.ofBytes msgOverclaim).atCount =
        some 1 ∧
      GetActualBufferSize layout32 1 (RawBuffer.ofBytes msgOverclaim).atSize = some 200 ∧
      msgOverclaim.length = 92 ∧
      peek (RawBuffer.ofBytes msgOverclaim).atCopy 0 200 = none ∧
      CreateFromBuffer layout32 (heapAt 4096) 0 (some (RawBuffer.ofBytes msgOverclaim)) 1024
          5 =
        ⟨none, 200, [Event.read 60 4, Event.read 80 4, Event.alloc 4096 200, Event.copy 200,
          Event.free 4096]⟩ ∧
      liveBlocks (CreateFromBuffer layout32 (heapAt 4096) 0
        (some (RawBuffer.ofBytes msgOverclaim)) 1024 5).trace = []) ∧
    (CrossCallParams.GetParamsCount layout32 rawTruncatedHeader.atCount = none ∧
      (CreateFromBuffer layout32 (heapAt 4096) 0 (some rawTruncatedHeader) 64 5).ret = none) :=
  ⟨⟨by decide, by decide, by decide, by decide, by decide,
      (CreateFromBuffer_contains_fault layout32 (heapAt 4096) 0 (RawBuffer.ofBytes msgOverclaim)
        1024 5 (Or.inr (Or.inr ⟨1, 200, by decide, by decide, by decide⟩))).2⟩,
    ⟨by decide,
      (CreateFromBuffer_contains_fault layout32 (heapAt 4096) 0 rawTruncatedHeader 64 5
        (Or.inl (by decide))).1⟩⟩

/-- C27: `GetActualBufferSize` is the single reader `readDeclaredSize`
applied to the same count and buffer: it returns zero when the count is zero
or greater than 9, and for a count from 1 to 9 the arm chosen by its switch
returns what the reader of that arity returns, the size slot of that count. -/
theorem GetActualBufferSize_refines (L : Layout) (param_count : Nat) (buffer_base : Snapshot) :
    GetActualBufferSize L param_count buffer_base =
      readDeclaredSize L param_count buffer_base ∧
    ((param_count = 0 ∨ 9 < param_count) →
      GetActualBufferSize L param_count buffer_base = some 0) ∧
    ((1 ≤ param_count ∧ param_count ≤ 9) →
      GetActualBufferSize L param_count buffer_base =
        ActualCallParams.GetSize L param_count buffer_base) := by
  refine ⟨?_, GetActualBufferSize_out_of_range L param_count buffer_base,
    fun h => GetActualBufferSize_in_range L param_count buffer_base h.1 h.2⟩
  unfold readDeclaredSize
  by_cases h : param_count = 0 ∨ 9 < param_count
  · rw [if_pos h, GetActualBufferSize_out_of_range L param_count buffer_base h]
  · rw [if_neg h, GetActualBufferSize_in_range L param_count buffer_base (by omega) (by omega)]
    rfl

theorem GetActualBufferSize_refines_witness :
    GetActualBufferSize layout32 3 (RawBuffer.ofBytes msgThree).atSize = some 124 ∧
    readDeclaredSize layout32 3 (RawBuffer.ofBytes msgThree).atSize = some 124 ∧
    GetActualBufferSize layout32 10 (RawBuffer.ofBytes msgTen).atSize = some 0 ∧
    GetActualBufferSize layout32 0 (RawBuffer.ofBytes msgZero).atSize = some 0 ∧
    (∀ n, layout32.sizeSlot n = 68 + 12 * n) ∧
    GetActualBufferSize layout32 3 (RawBuffer.ofBytes msgThree).atSize =
      readDeclaredSize layout32 3 (RawBuffer.ofBytes msgThree).atSize :=
  ⟨by decide, by decide, by decide, by decide,
    (fun n => by simp only [layout32]; omega),
    (GetActualBufferSize_refines layout32 3 (RawBuffer.ofBytes msgThree).atSize).1⟩

/-- The per-parameter test, for a block that is not at address 0, does not
wrap, and whose first payload byte does not wrap either. -/
theorem malformed_iff (L : Layout) (hL : L.WF) (junk : Int) (c : CrossCallParamsEx)
    (m d ix : Nat) (hb : 0 < c.backing_mem) (hbd : c.backing_mem + d < L.wordMod)
    (hbm : c.backing_mem + m < L.wordMod) (hix : ix < c.GetParamsCount L) :
    CreateFromBuffer.malformed L junk c ((c.backing_mem + m) % L.wordMod)
        ((c.backing_mem + d) % L.wordMod) ix = true ↔
      (c.type_ L ix ≤ L.INVALID_TYPE ∨ L.LAST_TYPE ≤ c.type_ L ix ∨
        c.offset_ L ix < m ∨ d < c.offset_ L ix + c.size_ L ix) := by
  obtain ⟨_, _, _, _, h5, h6⟩ := hL
  have ho : c.offset_ L ix < L.wordMod := field_lt c _ _ _ h5
  have hs : c.size_ L ix < L.wordMod := field_lt c _ _ _ h6
  have hnot : ¬ ix ≥ c.GetParamsCount L := by omega
  simp only [CreateFromBuffer.malformed, CrossCallParamsEx.GetRawParameter, hnot, if_false,
    decide_eq_true_eq, ge_iff_le, gt_iff_lt]
  rw [Nat.mod_eq_of_lt (a := c.backing_mem + m) hbm,
    Nat.mod_eq_of_lt (a := c.backing_mem + d) hbd,
    Nat.mod_eq_of_lt (a := c.size_ L ix) hs]
  generalize c.offset_ L ix = o at *
  generalize c.size_ L ix = sz at *
  generalize c.type_ L ix = t at *
  generalize c.backing_mem = b at *
  generalize L.wordMod = M at *
  rcases mod_cases (o + b) M (by omega) with ⟨h1, h2⟩ | ⟨h1, h2⟩
  · rw [h2]
    rcases mod_cases (o + b + sz) M (by omega) with ⟨h3, h4⟩ | ⟨h3, h4⟩
    · rw [h4]
      constructor
      · rintro (h | h | h | h | h | h | h | h) <;> omega
      · rintro (h | h | h | h)
        · exact Or.inr (Or.inl h)
        · exact Or.inr (Or.inr (Or.inl h))
        · exact Or.inr (Or.inr (Or.inr (Or.inr (Or.inl (by omega)))))
        · exact Or.inr (Or.inr (Or.inr (Or.inr (Or.inr (Or.inr (Or.inr (by omega)))))))
    · rw [h4]
      constructor
      · rintro (h | h | h | h | h | h | h | h) <;> omega
      · intro _
        exact Or.inr (Or.inr (Or.inr (Or.inr (Or.inr (Or.inr (Or.inl (by omega)))))))
  · rw [h2]
    constructor
    · rintro (h | h | h | h | h | h | h | h) <;> omega
    · intro _
      exact Or.inr (Or.inr (Or.inr (Or.inl (by omega))))

/-- C28: for a block that is not at address 0 and whose range up to
`backing_mem + declared_size` does not wrap, with `min_declared_size <=
declared_size` as the checks of lines 128-133 leave it, the test of lines
164-170, computed on machine words, rejects the parameter exactly when its
type is outside `(INVALID_TYPE, LAST_TYPE)` or, over the natural numbers, its
offset is below the minimum size or its offset plus its size exceeds the
declared size.  A null address and an address below the block each imply the
test `address < first_byte`. -/
theorem per_parameter_test_iff (L : Layout) (hL : L.WF) (junk : Int) (c : CrossCallParamsEx)
    (m d ix : Nat) (hb : 0 < c.backing_mem) (hbd : c.backing_mem + d < L.wordMod)
    (hmd : m ≤ d) (hix : ix < c.GetParamsCount L) :
    (CreateFromBuffer.malformed L junk c ((c.backing_mem + m) % L.wordMod)
        ((c.backing_mem + d) % L.wordMod) ix = true ↔
      (c.type_ L ix ≤ L.INVALID_TYPE ∨ L.LAST_TYPE ≤ c.type_ L ix ∨
        c.offset_ L ix < m ∨ d < c.offset_ L ix + c.size_ L ix)) ∧
    ((c.GetRawParameter L ix 0 junk).1 = 0 ∨
        (c.GetRawParameter L ix 0 junk).1 < c.backing_mem →
      (c.GetRawParameter L ix 0 junk).1 < (c.backing_mem + m) % L.wordMod) := by
  refine ⟨malformed_iff L hL junk c m d ix hb hbd (by omega) hix, ?_⟩
  rw [Nat.mod_eq_of_lt (a := c.backing_mem + m) (by omega)]
  intro h
  omega

theorem per_parameter_test_iff_witness :
    layout32.WF ∧
    (0 < (⟨4096, msgWrap⟩ : CrossCallParamsEx).backing_mem ∧
      (⟨4096, msgWrap⟩ : CrossCallParamsEx).backing_mem + 116 < layout32.wordMod ∧
      (112 : Nat) ≤ 116 ∧ 1 < CrossCallParamsEx.GetParamsCount layout32 ⟨4096, msgWrap⟩) ∧
    CrossCallParamsEx.GetRawParameter layout32 ⟨4096, msgWrap⟩ 1 0 0 = (4094, 10, 2) ∧
    CreateFromBuffer.malformed layout32 0 ⟨4096, msgWrap⟩ 4208 4212 1 = true ∧
    CreateFromBuffer.malformed layout32 0 ⟨4096, msgWrap⟩ 4208 4212 0 = false ∧
    (CreateFromBuffer.malformed layout32 0 ⟨4096, msgWrap⟩
        (((⟨4096, msgWrap⟩ : CrossCallParamsEx).backing_mem + 112) % layout32.wordMod)
        (((⟨4096, msgWrap⟩ : CrossCallParamsEx).backing_mem + 116) % layout32.wordMod) 1 =
        true ↔
      (CrossCallParamsEx.type_ layout32 ⟨4096, msgWrap⟩ 1 ≤ layout32.INVALID_TYPE ∨
        layout32.LAST_TYPE ≤ CrossCallParamsEx.type_ layout32 ⟨4096, msgWrap⟩ 1 ∨
        CrossCallParamsEx.offset_ layout32 ⟨4096, msgWrap⟩ 1 < 112 ∨
        116 < CrossCallParamsEx.offset_ layout32 ⟨4096, msgWrap⟩ 1 +
          CrossCallParamsEx.size_ layout32 ⟨4096, msgWrap⟩ 1)) :=
  ⟨by decide, ⟨by decide, by decide, by decide, by decide⟩, by decide, by decide, by decide,
    (per_parameter_test_iff layout32 (by decide) 0 ⟨4096, msgWrap⟩ 112 116 1 (by decide)
      (by decide) (by decide) (by decide)).1⟩

/-- C30: on a validated call, for a `WCHAR_TYPE` entry below the count:
with size 0 `GetParameterStr` replaces the string by the empty string; with a
non-zero even size it leaves the string passed in followed by the `size / 2`
code units of the entry, and that result is the content of the entry exactly
when the string passed in was empty. -/
theorem GetParameterStr_by_size (L : Layout) (hL : L.WF) (new_char : Nat → Nat)
    (hA : AllocOk L new_char) (c : CrossCallParamsEx) (hv : Validated L new_char c)
    (junk : Int) (index : Nat) (string : List Nat) (hi : index < c.GetParamsCount L)
    (ht : c.type_ L index = L.WCHAR_TYPE) :
    (c.size_ L index = 0 → c.GetParameterStr L junk index string = some (true, [])) ∧
    (c.size_ L index ≠ 0 → c.size_ L index % 2 = 0 →
      c.GetParameterStr L junk index string =
        some (true, string ++
          wchars ((c.bytes.drop (c.offset_ L index)).take (c.size_ L index))) ∧
      (wchars ((c.bytes.drop (c.offset_ L index)).take (c.size_ L index))).length =
        c.size_ L index / 2 ∧
      (string ++ wchars ((c.bytes.drop (c.offset_ L index)).take (c.size_ L index)) =
          wchars ((c.bytes.drop (c.offset_ L index)).take (c.size_ L index)) ↔
        string = [])) := by
  have hb := validated_bounded L hL new_char hA c hv
  have hchar := GetParameterStr_bounded L hL c hb junk index string hi
  rw [if_neg (fun h => h ht)] at hchar
  obtain ⟨_, _, _, _, hent⟩ := hb
  obtain ⟨_, _, _, ho⟩ := hent index hi
  constructor
  · intro hz
    rw [hchar, if_pos hz]
  · intro hz hev
    have hlen : ((c.bytes.drop (c.offset_ L index)).take (c.size_ L index)).length =
        2 * (c.size_ L index / 2) := by
      rw [List.length_take, List.length_drop]
      omega
    refine ⟨?_, wchars_length _ _ hlen, ?_⟩
    · rw [hchar, if_neg hz, if_neg (fun h => h hev)]
    · exact List.append_left_eq_self

theorem GetParameterStr_by_size_witness :
    layout32.WF ∧ AllocOk layout32 (heapAt 4096) ∧
    Validated layout32 (heapAt 4096) ⟨4096, msgNine⟩ ∧
    Validated layout32 (heapAt 4096) ⟨4096, msgMixed⟩ ∧
    (CrossCallParamsEx.size_ layout32 ⟨4096, msgNine⟩ 4 = 0 ∧
      CrossCallParamsEx.GetParameterStr layout32 ⟨4096, msgNine⟩ 0 4 [120, 121] =
        some (true, [])) ∧
    (CrossCallParamsEx.size_ layout32 ⟨4096, msgMixed⟩ 2 = 6 ∧
      CrossCallParamsEx.GetParameterStr layout32 ⟨4096, msgMixed⟩ 0 2 [120, 121] =
        some (true, [120, 121, 97, 0, 98]) ∧
      CrossCallParamsEx.GetParameterStr layout32 ⟨4096, msgMixed⟩ 0 2 [] =
        some (true, [97, 0, 98])) ∧
    (CrossCallParamsEx.size_ layout32 ⟨4096, msgNine⟩ 4 = 0 →
      CrossCallParamsEx.GetParameterStr layout32 ⟨4096, msgNine⟩ 0 4 [120, 121] =
        some (true, [])) :=
  ⟨by decide, allocOk_heapAt,
    ⟨0, some (RawBuffer.ofBytes msgNine), 184, 0, by decide⟩, validated_msgMixed,
    by decide, by decide,
    (GetParameterStr_by_size layout32 (by decide) (heapAt 4096) allocOk_heapAt ⟨4096, msgNine⟩
      ⟨0, some (RawBuffer.ofBytes msgNine), 184, 0, by decide⟩ 0 4 [120, 121] (by decide)
      (by decide)).1⟩

/-- C29: `CreateFromBuffer` returns `NULL` with `*output_size` unchanged when
it rejects at the null test, at the two tests on `buffer_size`, at the test
on the minimum size or at the test on the declared size; when it passes those
and rejects later, because the count found in the copy differs or because a
parameter is malformed, it returns `NULL` with `*output_size` already set to
`declared_size`. -/
theorem CreateFromBuffer_output_size (L : Layout) (new_char : Nat → Nat) (junk : Int)
    (raw : RawBuffer) (buffer_size output_size param_count declared_size : Nat)
    (bytes : List Nat) :
    (CreateFromBuffer L new_char junk none buffer_size output_size).ret = none ∧
    (CreateFromBuffer L new_char junk none buffer_size output_size).output_size =
      output_size ∧
    ((buffer_size < L.sizeofCrossCallParams ∨ buffer_size > kMaxBufferSize L ∨
        (CrossCallParams.GetParamsCount L raw.atCount = some param_count ∧
          (buffer_size < min_declared_size L param_count ∨
            L.sizeofCrossCallParamsEx > min_declared_size L param_count)) ∨
        (CrossCallParams.GetParamsCount L raw.atCount = some param_count ∧
          GetActualBufferSize L param_count raw.atSize = some declared_size ∧
          (declared_size > buffer_size ∨
            declared_size < min_declared_size L param_count))) →
      (CreateFromBuffer L new_char junk (some raw) buffer_size output_size).ret = none ∧
      (CreateFromBuffer L new_char junk (some raw) buffer_size output_size).output_size =
        output_size) ∧
    (¬ buffer_size < L.sizeofCrossCallParams → ¬ buffer_size > kMaxBufferSize L →
      CrossCallParams.GetParamsCount L raw.atCount = some param_count →
      ¬ (buffer_size < min_declared_size L param_count ∨
        L.sizeofCrossCallParamsEx > min_declared_size L param_count) →
      GetActualBufferSize L param_count raw.atSize = some declared_size →
      ¬ (declared_size > buffer_size ∨ declared_size < min_declared_size L param_count) →
      peek raw.atCopy 0 declared_size = some bytes →
      (CrossCallParamsEx.GetParamsCount L ⟨new_char declared_size, bytes⟩ ≠ param_count ∨
        CreateFromBuffer.verify L junk ⟨new_char declared_size, bytes⟩
          ((new_char declared_size + min_declared_size L param_count) % L.wordMod)
          ((new_char declared_size + declared_size) % L.wordMod) 0 param_count = false) →
      (CreateFromBuffer L new_char junk (some raw) buffer_size output_size).ret = none ∧
      (CreateFromBuffer L new_char junk (some raw) buffer_size output_size).output_size =
        declared_size) := by
  refine ⟨rfl, rfl, ?_, ?_⟩
  · intro h
    unfold CreateFromBuffer
    simp only
    split
    · exact ⟨rfl, rfl⟩
    split
    · exact ⟨rfl, rfl⟩
    rename_i h1 h2
    rcases h with h | h | ⟨hpc, h⟩ | ⟨hpc, hds, h⟩
    · exact absurd h h1
    · exact absurd h h2
    · simp only [hpc, h, if_true, and_self]
    · simp only [hpc, hds, h, if_true]
      split <;> exact ⟨rfl, rfl⟩
  · intro h1 h2 hpc h3 hds h4 hpeek hlate
    unfold CreateFromBuffer
    simp only [h1, h2, hpc, h3, hds, h4, hpeek, if_false]
    rcases hlate with hc | hv
    · simp only [ne_eq, hc, not_false_eq_true, if_true, and_self]
    · split
      · exact ⟨rfl, rfl⟩
      · simp only [hv, Bool.false_eq_true, if_false, and_self]

theorem CreateFromBuffer_output_size_witness :
    CreateFromBuffer layout32 (heapAt 4096) 0 none 116 5 = ⟨none, 5, []⟩ ∧
    (CreateFromBuffer layout32 (heapAt 4096) 0 (some (RawBuffer.ofBytes msgWrap)) 63 5).output_size
      = 5 ∧
    (CreateFromBuffer layout32 (heapAt 4096) 0 (some (RawBuffer.ofBytes msgOverclaim)) 92
      5).output_size = 5 ∧
    ((CreateFromBuffer layout32 (heapAt 4096) 0 (some (RawBuffer.ofBytes msgWrap)) 116 5).ret =
        none ∧
      (CreateFromBuffer layout32 (heapAt 4096) 0 (some (RawBuffer.ofBytes msgWrap)) 116
        5).output_size = 116) ∧
    ((CreateFromBuffer layout32 (heapAt 4096) 0
        (some ⟨fun i => msgOne[i]?, fun i => msgOne[i]?, fun i => msgTwo[i]?⟩) 104 5).ret =
        none ∧
      (CreateFromBuffer layout32 (heapAt 4096) 0
        (some ⟨fun i => msgOne[i]?, fun i => msgOne[i]?, fun i => msgTwo[i]?⟩) 104
        5).output_size = 92) :=
  ⟨by decide, by decide, by decide,
    (CreateFromBuffer_output_size layout32 (heapAt 4096) 0 (RawBuffer.ofBytes msgWrap) 116 5 3
      116 msgWrap).2.2.2 (by decide) (by decide) (by decide) (by decide) (by decide)
      (by decide) (by decide) (Or.inr (by decide)),
    (CreateFromBuffer_output_size layout32 (heapAt 4096) 0
      ⟨fun i => msgOne[i]?, fun i => msgOne[i]?, fun i => msgTwo[i]?⟩ 104 5 1 92
      (msgTwo.take 92)).2.2.2 (by decide) (by decide) (by decide) (by decide) (by decide)
      (by decide) (by decide) (Or.inl (by decide))⟩

/-! ## Lemmas on unmutated buffers -/

/-- Snapshots that agree on a range give the same read of that range. -/
theorem peek_congr (s1 s2 : Snapshot) :
    ∀ (n off : Nat), (∀ i, off ≤ i → i < off + n → s1 i = s2 i) →
      peek s1 off n = peek s2 off n := by
  intro n
  induction n with
  | zero =>
    intro off _
    rfl
  | succ n ih =>
    intro off h
    simp only [peek]
    rw [h off (le_refl _) (by omega), ih (off + 1) (fun i h1 h2 => h i (by omega) (by omega))]

/-- An accepted unmutated buffer declares the size of its copy, which is at
least the size of its fixed part, and its count is between 1 and 9. -/
theorem still_accept_inv (L : Layout) (hL : L.WF) (new_char : Nat → Nat) (junk : Int)
    (sn : Snapshot) (buffer_size output_size : Nat) (c : CrossCallParamsEx)
    (h : (CreateFromBuffer L new_char junk (some (RawBuffer.still sn)) buffer_size
      output_size).ret = some c) :
    ∃ pc, CrossCallParams.GetParamsCount L sn = some pc ∧ 1 ≤ pc ∧ pc ≤ 9 ∧
      GetActualBufferSize L pc sn = some (declaredSize L sn) ∧
      L.sizeofCrossCallParamsEx + pc * L.sizeofParamInfo ≤ declaredSize L sn ∧
      declaredSize L sn ≤ buffer_size := by
  obtain ⟨raw', pc, d, hraw, hp⟩ :=
    CreateFromBuffer_accept_inv L new_char junk _ buffer_size output_size c h
  simp only [Option.some.injEq] at hraw
  subst hraw
  obtain ⟨h1, h9⟩ := acceptPath_count L hL new_char junk _ buffer_size pc d c hp
  obtain ⟨_, _, a3, _, _, a6, a7, a8, _⟩ := hp
  have hsmall := min_declared_size_small L hL pc h9
  have a3' : CrossCallParams.GetParamsCount L sn = some pc := a3
  have a6' : GetActualBufferSize L pc sn = some d := a6
  have hd : declaredSize L sn = d := by
    simp only [declaredSize, a3', a6', Option.getD_some]
  rw [hd]
  exact ⟨pc, a3', h1, h9, a6', by omega, a7⟩

/-- An unmutated buffer that agrees with an accepted one on the bytes the
accepted one declares has the same outcome. -/
theorem still_accept_transfer (L : Layout) (hL : L.WF) (hS : L.SlotInside)
    (new_char : Nat → Nat) (junk : Int) (sA sB : Snapshot) (buffer_size output_size : Nat)
    (c : CrossCallParamsEx)
    (h : (CreateFromBuffer L new_char junk (some (RawBuffer.still sA)) buffer_size
      output_size).ret = some c)
    (hagree : ∀ i, i < declaredSize L sA → sA i = sB i) :
    CreateFromBuffer L new_char junk (some (RawBuffer.still sB)) buffer_size output_size =
      CreateFromBuffer L new_char junk (some (RawBuffer.still sA)) buffer_size output_size := by
  obtain ⟨pc, hA1, h1, h9, hA2, hmin, _⟩ :=
    still_accept_inv L hL new_char junk sA buffer_size output_size c h
  obtain ⟨_, w2, w3, _, _, _⟩ := hL
  have hB1 : CrossCallParams.GetParamsCount L sB = some pc := by
    rw [← hA1]
    unfold CrossCallParams.GetParamsCount
    rw [peek_congr sB sA L.countBytes L.countOffset
      (fun i _ hi => (hagree i (by omega)).symm)]
  have hslot := hS pc (by omega) h1
  have hB2 : GetActualBufferSize L pc sB = some (declaredSize L sA) := by
    rw [← hA2, GetActualBufferSize_in_range L pc sB h1 h9,
      GetActualBufferSize_in_range L pc sA h1 h9]
    unfold ActualCallParams.GetSize
    rw [peek_congr sB sA L.sizeSlotBytes (L.sizeSlot pc)
      (fun i _ hi => (hagree i (by omega)).symm)]
  have hB3 : peek sB 0 (declaredSize L sA) = peek sA 0 (declaredSize L sA) :=
    peek_congr sB sA _ 0 (fun i _ hi => (hagree i (by omega)).symm)
  unfold CreateFromBuffer
  simp only [RawBuffer.still, hA1, hB1, hA2, hB2, hB3]

/-- The bytes that one of two buffers declares do not decide alone for the
other: `msgUnderclaim` declares 80 bytes, `msgOne` has the same first 80
bytes and declares 92; the first is rejected and the second is accepted.  The
field holding the declared size lies at bytes 80 to 83, past the 80 bytes
that the first declares. -/
theorem declared_bytes_of_one_buffer :
    declaredSize layout32 (fun i => msgUnderclaim[i]?) = 80 ∧
    declaredSize layout32 (fun i => msgOne[i]?) = 92 ∧
    msgUnderclaim.take 80 = msgOne.take 80 ∧
    (CreateFromBuffer layout32 (heapAt 4096) 0
      (some (RawBuffer.still (fun i => msgUnderclaim[i]?))) 92 0).ret = none ∧
    (CreateFromBuffer layout32 (heapAt 4096) 0
      (some (RawBuffer.still (fun i => msgOne[i]?))) 92 0).ret = some ⟨4096, msgOne⟩ := by
  refine ⟨?_, ?_, ?_, ?_, ?_⟩ <;> decide

/-! ## Boundary cases, type confusion, dependence on the bytes and monotonicity -/

/-- C31: the upper bound of the per-parameter test is inclusive.  In a buffer
that is well formed as in C3, a parameter whose offset plus size equals the
declared size passes and `CreateFromBuffer` accepts the call; its end
address is `backing_mem + declared_size`, the address the code calls
`last_byte`, and when its size is 0 its own address is that address, one past
the last byte of the copy. -/
theorem CreateFromBuffer_upper_bound_inclusive (L : Layout) (hL : L.WF)
    (new_char : Nat → Nat) (hA : AllocOk L new_char) (junk : Int) (bytes : List Nat)
    (buffer_size output_size param_count declared_size edge : Nat)
    (hhdr : L.sizeofCrossCallParams ≤ buffer_size) (hmax : buffer_size ≤ kMaxBufferSize L)
    (hmapped : buffer_size ≤ bytes.length)
    (hcount : CrossCallParams.GetParamsCount L (RawBuffer.ofBytes bytes).atCount =
      some param_count)
    (h9 : param_count ≤ 9)
    (hsize : GetActualBufferSize L param_count (RawBuffer.ofBytes bytes).atSize =
      some declared_size)
    (hmin : L.sizeofCrossCallParamsEx + param_count * L.sizeofParamInfo ≤ declared_size)
    (hle : declared_size ≤ buffer_size)
    (hparams : ∀ i, i < param_count →
      L.INVALID_TYPE <
          CrossCallParamsEx.type_ L ⟨new_char declared_size, bytes.take declared_size⟩ i ∧
      CrossCallParamsEx.type_ L ⟨new_char declared_size, bytes.take declared_size⟩ i <
          L.LAST_TYPE ∧
      L.sizeofCrossCallParamsEx + param_count * L.sizeofParamInfo ≤
          CrossCallParamsEx.offset_ L ⟨new_char declared_size, bytes.take declared_size⟩ i ∧
      CrossCallParamsEx.offset_ L ⟨new_char declared_size, bytes.take declared_size⟩ i +
          CrossCallParamsEx.size_ L ⟨new_char declared_size, bytes.take declared_size⟩ i ≤
        declared_size)
    (hedge : edge < param_count)
    (hend :
      CrossCallParamsEx.offset_ L ⟨new_char declared_size, bytes.take declared_size⟩ edge +
          CrossCallParamsEx.size_ L ⟨new_char declared_size, bytes.take declared_size⟩ edge =
        declared_size) :
    (CreateFromBuffer L new_char junk (some (RawBuffer.ofBytes bytes)) buffer_size
        output_size).ret =
      some ⟨new_char declared_size, bytes.take declared_size⟩ ∧
    (CrossCallParamsEx.GetRawParameter L ⟨new_char declared_size, bytes.take declared_size⟩
        edge 0 junk).1 +
      CrossCallParamsEx.size_ L ⟨new_char declared_size, bytes.take declared_size⟩ edge =
        new_char declared_size + declared_size ∧
    (CrossCallParamsEx.size_ L ⟨new_char declared_size, bytes.take declared_size⟩ edge = 0 →
      (CrossCallParamsEx.GetRawParameter L ⟨new_char declared_size, bytes.take declared_size⟩
        edge 0 junk).1 = new_char declared_size + declared_size) := by
  have hpath := acceptPath_of_wellFormed L hL new_char hA junk bytes buffer_size param_count
    declared_size hhdr hmax hmapped hcount h9 hsize hmin hle hparams
  have hret := CreateFromBuffer_of_acceptPath L new_char junk _ buffer_size output_size
    param_count declared_size _ hpath
  have hv : Validated L new_char ⟨new_char declared_size, bytes.take declared_size⟩ :=
    ⟨junk, some (RawBuffer.ofBytes bytes), buffer_size, output_size, by rw [hret]⟩
  have hb := validated_bounded L hL new_char hA _ hv
  have hcnt : CrossCallParamsEx.GetParamsCount L
      ⟨new_char declared_size, bytes.take declared_size⟩ = param_count :=
    hpath.2.2.2.2.2.2.2.2.2.2.1
  obtain ⟨hraw, _⟩ := GetRawParameter_bounded L hL _ hb edge 0 junk (by omega)
  have haddr : (CrossCallParamsEx.GetRawParameter L
      ⟨new_char declared_size, bytes.take declared_size⟩ edge 0 junk).1 =
      new_char declared_size +
        CrossCallParamsEx.offset_ L ⟨new_char declared_size, bytes.take declared_size⟩
          edge := by
    rw [hraw]
  refine ⟨by rw [hret], by omega, fun hz => by omega⟩

theorem CreateFromBuffer_upper_bound_inclusive_witness :
    layout32.WF ∧ AllocOk layout32 (heapAt 4096) ∧
    (CrossCallParamsEx.offset_ layout32 ⟨4096, msgNine⟩ 8 = 184 ∧
      CrossCallParamsEx.size_ layout32 ⟨4096, msgNine⟩ 8 = 0 ∧
      (CreateFromBuffer layout32 (heapAt 4096) 0 (some (RawBuffer.ofBytes msgNine)) 184 0).ret =
        some ⟨4096, msgNine.take 184⟩) ∧
    (CrossCallParamsEx.offset_ layout32 ⟨4096, msgOne⟩ 0 = 88 ∧
      CrossCallParamsEx.size_ layout32 ⟨4096, msgOne⟩ 0 = 4 ∧
      (CreateFromBuffer layout32 (heapAt 4096) 0 (some (RawBuffer.ofBytes msgOne)) 92 0).ret =
        some ⟨4096, msgOne.take 92⟩) ∧
    (CrossCallParamsEx.offset_ layout32 ⟨4096, msgPastEnd⟩ 0 = 88 ∧
      CrossCallParamsEx.size_ layout32 ⟨4096, msgPastEnd⟩ 0 = 5 ∧
      (CreateFromBuffer layout32 (heapAt 4096) 0 (some (RawBuffer.ofBytes msgPastEnd)) 92
        0).ret = none) :=
  ⟨by decide, allocOk_heapAt,
    ⟨by decide, by decide,
      (CreateFromBuffer_upper_bound_inclusive layout32 (by decide) (heapAt 4096) allocOk_heapAt
        0 msgNine 184 0 9 184 8 (by decide) (by decide) (by decide) (by decide) (by decide)
        (by decide) (by decide) (by decide) (by decide) (by decide) (by decide)).1⟩,
    ⟨by decide, by decide,
      (CreateFromBuffer_upper_bound_inclusive layout32 (by decide) (heapAt 4096) allocOk_heapAt
        0 msgOne 92 0 1 92 0 (by decide) (by decide) (by decide) (by decide) (by decide)
        (by decide) (by decide) (by decide) (by decide) (by decide) (by decide)).1⟩,
    ⟨by decide, by decide, by decide⟩⟩

/-- C32: validation asks neither for disjoint nor for ordered parameters:
`CreateFromBuffer` accepts a message of two parameters with the same offset,
one with two parameters whose byte ranges overlap, and one whose second
parameter lies before the first. -/
theorem CreateFromBuffer_accepts_shared_ranges :
    (∃ c, (CreateFromBuffer layout32 (heapAt 4096) 0 (some (RawBuffer.ofBytes msgTwo)) 104
        0).ret = some c ∧
      2 ≤ c.GetParamsCount layout32 ∧
      c.offset_ layout32 0 = c.offset_ layout32 1 ∧ 0 < c.size_ layout32 0) ∧
    (∃ c, (CreateFromBuffer layout32 (heapAt 4096) 0 (some (RawBuffer.ofBytes msgOverlap)) 108
        0).ret = some c ∧
      2 ≤ c.GetParamsCount layout32 ∧
      c.offset_ layout32 0 < c.offset_ layout32 1 ∧
      c.offset_ layout32 1 < c.offset_ layout32 0 + c.size_ layout32 0) ∧
    (∃ c, (CreateFromBuffer layout32 (heapAt 4096) 0 (some (RawBuffer.ofBytes msgDecreasing))
        108 0).ret = some c ∧
      2 ≤ c.GetParamsCount layout32 ∧
      c.offset_ layout32 1 < c.offset_ layout32 0) := by
  refine ⟨?_, ?_, ?_⟩
  · exact ⟨⟨4096, msgTwo⟩, by decide, by decide, by decide, by decide⟩
  · exact ⟨⟨4096, msgOverlap⟩, by decide, by decide, by decide, by decide⟩
  · exact ⟨⟨4096, msgDecreasing⟩, by decide, by decide, by decide⟩

/-- C33: no type confusion.  On a validated call and an index below the
count, with enumerators that are pairwise different, an accessor that succeeds
is the one whose required type is the type of the entry, and then each of the
three others fails, whatever their arguments and `expected_size`. -/
theorem accessors_no_type_confusion (L : Layout) (hL : L.WF) (hD : L.TypesDistinct)
    (new_char : Nat → Nat) (hA : AllocOk L new_char) (c : CrossCallParamsEx)
    (hv : Validated L new_char c) (index : Nat) (hi : index < c.GetParamsCount L)
    (j1 j2 j3 j4 : Int) (p1 p2 expected_size p4 : Nat) (string : List Nat) :
    ((∃ v, c.GetParameter32 L j1 index p1 = some (true, v)) →
      c.type_ L index = L.ULONG_TYPE ∧
      (∀ v, c.GetParameterVoidPtr L j2 index p2 ≠ some (true, v)) ∧
      (∀ s, c.GetParameterStr L j3 index string ≠ some (true, s)) ∧
      (c.GetParameterPtr L j4 index expected_size p4).1 = false) ∧
    ((∃ v, c.GetParameterVoidPtr L j2 index p2 = some (true, v)) →
      c.type_ L index = L.VOIDPTR_TYPE ∧
      (∀ v, c.GetParameter32 L j1 index p1 ≠ some (true, v)) ∧
      (∀ s, c.GetParameterStr L j3 index string ≠ some (true, s)) ∧
      (c.GetParameterPtr L j4 index expected_size p4).1 = false) ∧
    ((∃ s, c.GetParameterStr L j3 index string = some (true, s)) →
      c.type_ L index = L.WCHAR_TYPE ∧
      (∀ v, c.GetParameter32 L j1 index p1 ≠ some (true, v)) ∧
      (∀ v, c.GetParameterVoidPtr L j2 index p2 ≠ some (true, v)) ∧
      (c.GetParameterPtr L j4 index expected_size p4).1 = false) ∧
    ((c.GetParameterPtr L j4 index expected_size p4).1 = true →
      c.type_ L index = L.INOUTPTR_TYPE ∧
      (∀ v, c.GetParameter32 L j1 index p1 ≠ some (true, v)) ∧
      (∀ v, c.GetParameterVoidPtr L j2 index p2 ≠ some (true, v)) ∧
      (∀ s, c.GetParameterStr L j3 index string ≠ some (true, s))) := by
  have hb := validated_bounded L hL new_char hA c hv
  obtain ⟨d1, d2, d3, d4, d5, d6⟩ := hD
  have h32 : ∀ v, c.GetParameter32 L j1 index p1 = some (true, v) →
      c.type_ L index = L.ULONG_TYPE := by
    intro v h
    rw [GetParameter32_bounded L hL c hb j1 index p1] at h
    split at h
    · rename_i hc
      exact hc.2.2
    · simp at h
  have hvp : ∀ v, c.GetParameterVoidPtr L j2 index p2 = some (true, v) →
      c.type_ L index = L.VOIDPTR_TYPE := by
    intro v h
    rw [GetParameterVoidPtr_bounded L hL c hb j2 index p2] at h
    split at h
    · rename_i hc
      exact hc.2.2
    · simp at h
  have hstr : ∀ s, c.GetParameterStr L j3 index string = some (true, s) →
      c.type_ L index = L.WCHAR_TYPE := by
    intro s h
    rw [GetParameterStr_bounded L hL c hb j3 index string hi] at h
    split at h
    · simp at h
    · rename_i hc
      exact Decidable.not_not.mp hc
  have hptr : (c.GetParameterPtr L j4 index expected_size p4).1 = true →
      c.type_ L index = L.INOUTPTR_TYPE := by
    intro h
    rw [GetParameterPtr_bounded L hL c hb j4 index expected_size p4] at h
    split at h
    · rename_i hc
      exact hc.2.2
    · simp at h
  have hptrf : c.type_ L index ≠ L.INOUTPTR_TYPE →
      (c.GetParameterPtr L j4 index expected_size p4).1 = false := by
    intro hne
    cases hp : (c.GetParameterPtr L j4 index expected_size p4).1 with
    | false => rfl
    | true => exact absurd (hptr hp) hne
  refine ⟨?_, ?_, ?_, ?_⟩
  · rintro ⟨v, h⟩
    have ht := h32 v h
    refine ⟨ht, fun w hw => ?_, fun s hs => ?_, hptrf ?_⟩
    · exact d1 (ht.symm.trans (hvp w hw))
    · exact d2 (ht.symm.trans (hstr s hs))
    · rw [ht]
      exact d3
  · rintro ⟨v, h⟩
    have ht := hvp v h
    refine ⟨ht, fun w hw => ?_, fun s hs => ?_, hptrf ?_⟩
    · exact d1 ((h32 w hw).symm.trans ht)
    · exact d4 (ht.symm.trans (hstr s hs))
    · rw [ht]
      exact d5
  · rintro ⟨s, h⟩
    have ht := hstr s h
    refine ⟨ht, fun w hw => ?_, fun w hw => ?_, hptrf ?_⟩
    · exact d2 ((h32 w hw).symm.trans ht)
    · exact d4 ((hvp w hw).symm.trans ht)
    · rw [ht]
      exact d6
  · intro h
    have ht := hptr h
    refine ⟨ht, fun w hw => ?_, fun w hw => ?_, fun s hs => ?_⟩
    · exact d3 ((h32 w hw).symm.trans ht)
    · exact d5 ((hvp w hw).symm.trans ht)
    · exact d6 ((hstr s hs).symm.trans ht)

theorem accessors_no_type_confusion_witness :
    layout32.WF ∧ layout32.TypesDistinct ∧ AllocOk layout32 (heapAt 4096) ∧
    Validated layout32 (heapAt 4096) ⟨4096, msgThree⟩ ∧
    CrossCallParamsEx.GetParameter32 layout32 ⟨4096, msgThree⟩ 0 0 7 = some (true, 42) ∧
    CrossCallParamsEx.GetParameterVoidPtr layout32 ⟨4096, msgThree⟩ 0 0 7 = some (false, 7) ∧
    CrossCallParamsEx.GetParameterStr layout32 ⟨4096, msgThree⟩ 0 0 [] = some (false, []) ∧
    CrossCallParamsEx.GetParameterPtr layout32 ⟨4096, msgThree⟩ 0 0 4 7 = (false, 7) ∧
    ((∃ v, CrossCallParamsEx.GetParameter32 layout32 ⟨4096, msgThree⟩ 0 0 7 = some (true, v)) →
      CrossCallParamsEx.type_ layout32 ⟨4096, msgThree⟩ 0 = layout32.ULONG_TYPE ∧
      (∀ v, CrossCallParamsEx.GetParameterVoidPtr layout32 ⟨4096, msgThree⟩ 0 0 7 ≠
        some (true, v)) ∧
      (∀ s, CrossCallParamsEx.GetParameterStr layout32 ⟨4096, msgThree⟩ 0 0 [] ≠
        some (true, s)) ∧
      (CrossCallParamsEx.GetParameterPtr layout32 ⟨4096, msgThree⟩ 0 0 4 7).1 = false) :=
  ⟨by decide, by decide, allocOk_heapAt, validated_msgThree, by decide, by decide, by decide,
    by decide,
    (accessors_no_type_confusion layout32 (by decide) (by decide) (heapAt 4096) allocOk_heapAt
      ⟨4096, msgThree⟩ validated_msgThree 0 (by decide) 0 0 0 0 7 7 4 7 []).1⟩

/-- C35: a typed accessor that fails writes nothing: for every call object,
index and `expected_size`, when `GetParameter32`, `GetParameterVoidPtr`,
`GetParameterStr` or `GetParameterPtr` returns `false`, the output variable
holds the value it held before the call. -/
theorem accessors_fail_without_writing (L : Layout) (c : CrossCallParamsEx) (junk : Int)
    (index expected_size param pointer : Nat) (string : List Nat) :
    (∀ x, c.GetParameter32 L junk index param = some (false, x) → x = param) ∧
    (∀ x, c.GetParameterVoidPtr L junk index param = some (false, x) → x = param) ∧
    (∀ x, c.GetParameterStr L junk index string = some (false, x) → x = string) ∧
    ((c.GetParameterPtr L junk index expected_size pointer).1 = false →
      (c.GetParameterPtr L junk index expected_size pointer).2 = pointer) := by
  refine ⟨?_, ?_, ?_, ?_⟩
  · intro x h
    unfold CrossCallParamsEx.GetParameter32 at h
    simp only at h
    split at h
    · simp only [Option.some.injEq, Prod.mk.injEq, true_and] at h
      exact h.symm
    · cases hl : c.load (c.GetRawParameter L index 0 junk).1 4 with
      | none =>
        rw [hl] at h
        simp at h
      | some bs =>
        rw [hl] at h
        simp at h
  · intro x h
    unfold CrossCallParamsEx.GetParameterVoidPtr at h
    simp only at h
    split at h
    · simp only [Option.some.injEq, Prod.mk.injEq, true_and] at h
      exact h.symm
    · cases hl : c.load (c.GetRawParameter L index 0 junk).1 L.sizeofVoidPtr with
      | none =>
        rw [hl] at h
        simp at h
      | some bs =>
        rw [hl] at h
        simp at h
  · intro x h
    unfold CrossCallParamsEx.GetParameterStr at h
    simp only at h
    split at h
    · simp only [Option.some.injEq, Prod.mk.injEq, true_and] at h
      exact h.symm
    split at h
    · simp at h
    split at h
    · simp only [Option.some.injEq, Prod.mk.injEq, true_and] at h
      exact h.symm
    · cases hl : c.load (c.GetRawParameter L index 0 junk).1
          ((c.GetRawParameter L index 0 junk).2.1 / sizeof_wchar_t * sizeof_wchar_t) with
      | none =>
        rw [hl] at h
        simp at h
      | some bs =>
        rw [hl] at h
        simp at h
  · intro h
    unfold CrossCallParamsEx.GetParameterPtr at h ⊢
    simp only at h ⊢
    split
    · rfl
    split
    · rfl
    · rename_i h1 h2
      rw [if_neg h1, if_neg h2] at h
      simp at h

/-- C36: acceptance is monotone in the claimed size: when `CreateFromBuffer`
accepts a buffer with `buffer_size = s`, it accepts the same buffer with every
`s2` such that `s <= s2 <= kMaxBufferSize`, and returns the same copy and the
same `*output_size`; the whole outcome is the same. -/
theorem CreateFromBuffer_monotone_in_size (L : Layout) (new_char : Nat → Nat) (junk : Int)
    (raw : RawBuffer) (s s2 output_size : Nat) (c : CrossCallParamsEx)
    (h : (CreateFromBuffer L new_char junk (some raw) s output_size).ret = some c)
    (hle : s ≤ s2) (hmax : s2 ≤ kMaxBufferSize L) :
    (CreateFromBuffer L new_char junk (some raw) s2 output_size).ret = some c ∧
    (CreateFromBuffer L new_char junk (some raw) s2 output_size).output_size =
      (CreateFromBuffer L new_char junk (some raw) s output_size).output_size ∧
    CreateFromBuffer L new_char junk (some raw) s2 output_size =
      CreateFromBuffer L new_char junk (some raw) s output_size := by
  obtain ⟨raw', pc, d, hraw, hp⟩ :=
    CreateFromBuffer_accept_inv L new_char junk (some raw) s output_size c h
  simp only [Option.some.injEq] at hraw
  subst hraw
  have h1 := CreateFromBuffer_of_acceptPath L new_char junk raw s output_size pc d c hp
  obtain ⟨a1, a2, a3, a4, a5, a6, a7, a8, a9, a10, a11, a12⟩ := hp
  have hp2 : AcceptPath L new_char junk raw s2 pc d c :=
    ⟨by omega, hmax, a3, by omega, a5, a6, by omega, a8, a9, a10, a11, a12⟩
  have h2 := CreateFromBuffer_of_acceptPath L new_char junk raw s2 output_size pc d c hp2
  rw [h1, h2]
  exact ⟨rfl, rfl, rfl⟩

theorem CreateFromBuffer_monotone_in_size_witness :
    (CreateFromBuffer layout32 (heapAt 4096) 0 (some (RawBuffer.ofBytes msgOne)) 92 0).ret =
      some ⟨4096, msgOne⟩ ∧
    (92 : Nat) ≤ 1024 ∧ 1024 ≤ kMaxBufferSize layout32 ∧
    (CreateFromBuffer layout32 (heapAt 4096) 0 (some (RawBuffer.ofBytes msgOne)) 1024 0).ret =
      some ⟨4096, msgOne⟩ ∧
    (CreateFromBuffer layout32 (heapAt 4096) 0 (some (RawBuffer.ofBytes msgOne)) 1024
      0).output_size = 92 ∧
    (CreateFromBuffer layout32 (heapAt 4096) 0 (some (RawBuffer.ofBytes msgOne)) 1025 0).ret =
      none :=
  ⟨by decide, by decide, by decide,
    (CreateFromBuffer_monotone_in_size layout32 (heapAt 4096) 0 (RawBuffer.ofBytes msgOne) 92
      1024 0 ⟨4096, msgOne⟩ (by decide) (by decide) (by decide)).1,
    by decide, by decide⟩


/-- C34: the result of `CreateFromBuffer` on a buffer that nobody rewrites
depends only on `buffer_size` and on the first `declared_size` bytes of the
buffer.  Two buffers given with the same `buffer_size` that agree on their
first `declared_size` bytes, each over the size it declares, get the same
decision and, on acceptance, the same copy; they then declare the same size,
which is the length of the copy, and the whole outcome is the same. -/
theorem CreateFromBuffer_depends_on_declared_bytes (L : Layout) (hL : L.WF)
    (hS : L.SlotInside) (new_char : Nat → Nat) (junk : Int) (sA sB : Snapshot)
    (buffer_size output_size : Nat)
    (hagree : ∀ i, i < declaredSize L sA ∨ i < declaredSize L sB → sA i = sB i) :
    (CreateFromBuffer L new_char junk (some (RawBuffer.still sA)) buffer_size
        output_size).ret =
      (CreateFromBuffer L new_char junk (some (RawBuffer.still sB)) buffer_size
        output_size).ret ∧
    (∀ c, (CreateFromBuffer L new_char junk (some (RawBuffer.still sA)) buffer_size
        output_size).ret = some c →
      CreateFromBuffer L new_char junk (some (RawBuffer.still sB)) buffer_size output_size =
        CreateFromBuffer L new_char junk (some (RawBuffer.still sA)) buffer_size
          output_size ∧
      c.bytes.length = declaredSize L sA ∧ declaredSize L sB = declaredSize L sA) := by
  have hAB : ∀ c, (CreateFromBuffer L new_char junk (some (RawBuffer.still sA)) buffer_size
        output_size).ret = some c →
      CreateFromBuffer L new_char junk (some (RawBuffer.still sB)) buffer_size output_size =
        CreateFromBuffer L new_char junk (some (RawBuffer.still sA)) buffer_size
          output_size :=
    fun c hc => still_accept_transfer L hL hS new_char junk sA sB buffer_size output_size c hc
      (fun i hi => hagree i (Or.inl hi))
  have hBA : ∀ c, (CreateFromBuffer L new_char junk (some (RawBuffer.still sB)) buffer_size
        output_size).ret = some c →
      CreateFromBuffer L new_char junk (some (RawBuffer.still sA)) buffer_size output_size =
        CreateFromBuffer L new_char junk (some (RawBuffer.still sB)) buffer_size
          output_size :=
    fun c hc => still_accept_transfer L hL hS new_char junk sB sA buffer_size output_size c hc
      (fun i hi => (hagree i (Or.inr hi)).symm)
  constructor
  · cases hA : (CreateFromBuffer L new_char junk (some (RawBuffer.still sA)) buffer_size
        output_size).ret with
    | some c => rw [hAB c hA, hA]
    | none =>
      cases hB : (CreateFromBuffer L new_char junk (some (RawBuffer.still sB)) buffer_size
          output_size).ret with
      | none => rfl
      | some c =>
        rw [hBA c hB, hB] at hA
        simp at hA
  · intro c hc
    have heq := hAB c hc
    have hcB : (CreateFromBuffer L new_char junk (some (RawBuffer.still sB)) buffer_size
        output_size).ret = some c := by rw [heq, hc]
    obtain ⟨pcA, _, _, _, hA2, _, _⟩ :=
      still_accept_inv L hL new_char junk sA buffer_size output_size c hc
    obtain ⟨raw1, pc1, d1, hraw1, hp1⟩ :=
      CreateFromBuffer_accept_inv L new_char junk _ buffer_size output_size c hc
    obtain ⟨raw2, pc2, d2, hraw2, hp2⟩ :=
      CreateFromBuffer_accept_inv L new_char junk _ buffer_size output_size c hcB
    simp only [Option.some.injEq] at hraw1 hraw2
    subst hraw1
    subst hraw2
    obtain ⟨_, _, a3, _, _, a6, _, _, a9, _⟩ := hp1
    obtain ⟨_, _, b3, _, _, b6, _, _, b9, _⟩ := hp2
    have l1 := peek_length _ _ _ _ a9
    have l2 := peek_length _ _ _ _ b9
    have a3' : CrossCallParams.GetParamsCount L sA = some pc1 := a3
    have a6' : GetActualBufferSize L pc1 sA = some d1 := a6
    have b3' : CrossCallParams.GetParamsCount L sB = some pc2 := b3
    have b6' : GetActualBufferSize L pc2 sB = some d2 := b6
    have dA : declaredSize L sA = d1 := by
      simp only [declaredSize, a3', a6', Option.getD_some]
    have dB : declaredSize L sB = d2 := by
      simp only [declaredSize, b3', b6', Option.getD_some]
    exact ⟨heq, by omega, by omega⟩

theorem CreateFromBuffer_depends_on_declared_bytes_witness :
    layout32.WF ∧ layout32.SlotInside ∧
    declaredSize layout32 (fun i => (msgOne ++ [1, 2, 3])[i]?) = 92 ∧
    declaredSize layout32 (fun i => (msgOne ++ [9, 9, 9, 9, 9])[i]?) = 92 ∧
    (CreateFromBuffer layout32 (heapAt 4096) 0
      (some (RawBuffer.still (fun i => (msgOne ++ [1, 2, 3])[i]?))) 95 0).ret =
        some ⟨4096, msgOne⟩ ∧
    (CreateFromBuffer layout32 (heapAt 4096) 0
      (some (RawBuffer.still (fun i => (msgOne ++ [9, 9, 9, 9, 9])[i]?))) 95 0).ret =
        some ⟨4096, msgOne⟩ ∧
    (CreateFromBuffer layout32 (heapAt 4096) 0
        (some (RawBuffer.still (fun i => (msgOne ++ [1, 2, 3])[i]?))) 95 0).ret =
      (CreateFromBuffer layout32 (heapAt 4096) 0
        (some (RawBuffer.still (fun i => (msgOne ++ [9, 9, 9, 9, 9])[i]?))) 95 0).ret :=
  ⟨by decide, by decide, by decide, by decide, by decide, by decide,
    (CreateFromBuffer_depends_on_declared_bytes layout32 (by decide) (by decide) (heapAt 4096)
      0 (fun i => (msgOne ++ [1, 2, 3])[i]?) (fun i => (msgOne ++ [9, 9, 9, 9, 9])[i]?) 95 0
      (by
        have e1 : declaredSize layout32 (fun i => (msgOne ++ [1, 2, 3])[i]?) = 92 := by decide
        have e2 : declaredSize layout32 (fun i => (msgOne ++ [9, 9, 9, 9, 9])[i]?) = 92 := by
          decide
        intro i hi
        rw [e1, e2] at hi
        have hi92 : i < 92 := by omega
        have hlen : msgOne.length = 92 := by decide
        simp only [List.getElem?_append_left (hlen ▸ hi92)])).1⟩

end sandbox
